import Mathlib

/-!
Verification of the mem CLI (Benjamin-van-Heerden/mem) against its
natural-language specification.  The Python sources are shallowly embedded:
strings that the code processes character by character are modelled as
`List Char`, dictionaries read from YAML frontmatter as structures or
association lists, the filesystem (`.mem/` directory) and the GitHub remote
as an explicit `World` state record, and external services (SHA-256 hashing,
the GitHub API, PyYAML) as parameters or as faithful models of the fragment
the code exercises, each documented at its definition site.
-/

namespace Mem

/-! ## Character classes (Python `str.lower`, `\s`, `str.strip`)

`pyIsSpace` models Python's regex class `\s` and `str.strip()` on the ASCII
range: space, tab, newline, carriage return, vertical tab, form feed.
`Char.toLower` models `str.lower()` on the ASCII range. -/

def pyIsSpace (c : Char) : Bool :=
  c == ' ' || c == '\t' || c == '\n' || c == '\r' || c == '\x0b' || c == '\x0c'

/-- Model of Python `str.lower()` on the ASCII range: map the letters
A-Z to a-z and leave every other character unchanged. -/
def pyToLower (c : Char) : Char :=
  if 'A' ≤ c ∧ c ≤ 'Z' then Char.ofNat (c.toNat + 32) else c

/-- Characters replaced by underscores in slugify: the regex class `[\s\-]`. -/
def isSep (c : Char) : Bool :=
  pyIsSpace c || c == '-'

/-- Characters kept by slugify: the regex class `[a-z0-9_]`. -/
def isSlugChar (c : Char) : Bool :=
  c.isLower || c.isDigit || c == '_'

/-- Model of `re.sub(r"[\s\-]+", "_", s)`: each maximal run of separator
characters becomes a single underscore.  The flag records whether the
previous character belonged to a separator run. -/
def replaceSeps (prevSep : Bool) : List Char → List Char
  | [] => []
  | c :: cs =>
    if isSep c then
      if prevSep then replaceSeps true cs else '_' :: replaceSeps true cs
    else c :: replaceSeps false cs

/-- Model of `re.sub(r"_+", "_", s)`: each maximal run of underscores
collapses to a single underscore. -/
def collapseUnders (prevU : Bool) : List Char → List Char
  | [] => []
  | c :: cs =>
    if c == '_' then
      if prevU then collapseUnders true cs else '_' :: collapseUnders true cs
    else c :: collapseUnders false cs

/-- Drop trailing characters satisfying `p` (the right half of
Python `str.strip`). -/
def dropTrailing (p : Char → Bool) : List Char → List Char
  | [] => []
  | c :: cs =>
    match dropTrailing p cs with
    | [] => if p c then [] else [c]
    | res => c :: res

/-- Model of Python `s.strip(chars)`: remove the characters satisfying `p`
from both ends. -/
def stripEnds (p : Char → Bool) (l : List Char) : List Char :=
  dropTrailing p (l.dropWhile p)

/-- The five shared steps of both `slugify` variants
(src/utils/markdown.py lines 84-107 and the tail of
src/utils/sync_utils.py lines 86-117): lowercase, replace separator runs
with underscores, drop disallowed characters, collapse underscore runs,
strip underscores from both ends. -/
def slugifyCore (text : List Char) : List Char :=
  stripEnds (· == '_')
    (collapseUnders false
      (List.filter isSlugChar
        (replaceSeps false (text.map pyToLower))))

/-- The `slugify` of src/utils/markdown.py. -/
def slugify_md (text : List Char) : List Char :=
  slugifyCore text

/-- True when the list starts with the seven characters of the tag
written in Python as open bracket, Spec, close bracket, colon. -/
def startsSpecTag (l : List Char) : Bool :=
  l.take 7 == ['[', 'S', 'p', 'e', 'c', ']', ':']

/-- True when the list starts with the tag followed by a space. -/
def startsSpecTagSpace (l : List Char) : Bool :=
  l.take 8 == ['[', 'S', 'p', 'e', 'c', ']', ':', ' ']

/-- Model of `text.replace("[Spec]:", "")`: remove every (non-overlapping,
left to right) occurrence of the seven characters of the tag. -/
def removeSpecTag (l : List Char) : List Char :=
  match l with
  | [] => []
  | c :: cs =>
    if startsSpecTag (c :: cs) then removeSpecTag (cs.drop 6)
    else c :: removeSpecTag cs
termination_by l.length
decreasing_by
  · simp only [List.length_cons]
    have := List.length_drop 6 cs
    omega
  · simp

/-- Model of `text.replace("[Spec]: ", "")` (the second replace in
sync_utils.slugify; after the first replace it can no longer match, but it
is kept for fidelity). -/
def removeSpecTagSpace (l : List Char) : List Char :=
  match l with
  | [] => []
  | c :: cs =>
    if startsSpecTagSpace (c :: cs) then removeSpecTagSpace (cs.drop 7)
    else c :: removeSpecTagSpace cs
termination_by l.length
decreasing_by
  · simp only [List.length_cons]
    have := List.length_drop 7 cs
    omega
  · simp

/-- The prefix clean-up of sync_utils.slugify:
`text.replace("[Spec]:", "").replace("[Spec]: ", "").strip()`. -/
def cleanSpecTag (text : List Char) : List Char :=
  stripEnds pyIsSpace (removeSpecTagSpace (removeSpecTag text))

/-- The `slugify` of src/utils/sync_utils.py: strips the issue-template
title tag, then runs the same pipeline as the markdown variant. -/
def slugify_sync (text : List Char) : List Char :=
  slugifyCore (cleanSpecTag text)

/-! ### Canonical form of slugify output -/

/-- No two adjacent underscores. -/
def noDoubleUnder : List Char → Bool
  | [] => true
  | [_] => true
  | a :: b :: rest => !(a == '_' && b == '_') && noDoubleUnder (b :: rest)

/-- Canonical slug strings: only `[a-z0-9_]` characters, no underscore run,
no leading or trailing underscore. -/
def Canon (l : List Char) : Prop :=
  (∀ c ∈ l, isSlugChar c = true) ∧ noDoubleUnder l = true ∧
    l.head? ≠ some '_' ∧ l.getLast? ≠ some '_'

theorem mem_replaceSeps {c : Char} :
    ∀ (p : Bool) (l : List Char), c ∈ replaceSeps p l → c = '_' ∨ c ∈ l := by
  intro p l
  induction l generalizing p with
  | nil => simp [replaceSeps]
  | cons a as ih =>
    simp only [replaceSeps]
    split
    · split
      · intro h
        rcases ih true h with h | h
        · exact Or.inl h
        · exact Or.inr (List.mem_cons_of_mem _ h)
      · intro h
        rcases List.mem_cons.1 h with h | h
        · exact Or.inl h
        · rcases ih true h with h | h
          · exact Or.inl h
          · exact Or.inr (List.mem_cons_of_mem _ h)
    · intro h
      rcases List.mem_cons.1 h with h | h
      · exact Or.inr (h ▸ List.mem_cons_self a as)
      · rcases ih false h with h | h
        · exact Or.inl h
        · exact Or.inr (List.mem_cons_of_mem _ h)

theorem mem_collapseUnders {c : Char} :
    ∀ (p : Bool) (l : List Char), c ∈ collapseUnders p l → c ∈ l := by
  intro p l
  induction l generalizing p with
  | nil => simp [collapseUnders]
  | cons a as ih =>
    simp only [collapseUnders]
    by_cases ha : a == '_'
    · simp only [ha, if_true]
      by_cases hp : p
      · subst hp
        simp only [if_true]
        intro h; exact List.mem_cons_of_mem _ (ih true h)
      · simp only [Bool.not_eq_true] at hp
        subst hp
        simp only [Bool.false_eq_true, if_false]
        intro h
        rcases List.mem_cons.1 h with h | h
        · subst h
          exact List.mem_cons.2 (Or.inl (by simpa using (beq_iff_eq.1 ha).symm))
        · exact List.mem_cons_of_mem _ (ih true h)
    · simp only [ha, if_false]
      intro h
      rcases List.mem_cons.1 h with h | h
      · exact List.mem_cons.2 (Or.inl h)
      · exact List.mem_cons_of_mem _ (ih false h)

theorem mem_dropTrailing {c : Char} {p : Char → Bool} :
    ∀ l : List Char, c ∈ dropTrailing p l → c ∈ l := by
  intro l
  induction l with
  | nil => simp [dropTrailing]
  | cons a as ih =>
    simp only [dropTrailing]
    cases hres : dropTrailing p as with
    | nil =>
      by_cases hpa : p a
      · simp [hpa]
      · simp only [hpa, if_false, Bool.false_eq_true]
        intro h
        simp only [List.mem_singleton] at h
        exact h ▸ List.mem_cons_self a as
    | cons r rs =>
      intro h
      rcases List.mem_cons.1 h with h | h
      · exact h ▸ List.mem_cons_self a as
      · exact List.mem_cons_of_mem _ (ih (hres ▸ h))

theorem mem_stripEnds {c : Char} {p : Char → Bool} {l : List Char}
    (h : c ∈ stripEnds p l) : c ∈ l :=
  (List.dropWhile_sublist p).mem (mem_dropTrailing _ h)

theorem noDoubleUnder_tail {a : Char} {l : List Char}
    (h : noDoubleUnder (a :: l) = true) : noDoubleUnder l = true := by
  cases l with
  | nil => simp [noDoubleUnder]
  | cons b bs =>
    simp only [noDoubleUnder, Bool.and_eq_true] at h
    exact h.2

theorem noDoubleUnder_cons {a : Char} {l : List Char}
    (h : noDoubleUnder l = true) (ha : a ≠ '_' ∨ l.head? ≠ some '_') :
    noDoubleUnder (a :: l) = true := by
  cases l with
  | nil => simp [noDoubleUnder]
  | cons b bs =>
    simp only [noDoubleUnder, Bool.and_eq_true]
    refine ⟨?_, h⟩
    rcases ha with ha | ha
    · simp [ha]
    · simp only [List.head?_cons, ne_eq, Option.some.injEq] at ha
      simp [ha]

theorem noDoubleUnder_head {a : Char} {l : List Char}
    (h : noDoubleUnder (a :: l) = true) (ha : a = '_') : l.head? ≠ some '_' := by
  subst ha
  cases l with
  | nil => simp
  | cons b bs =>
    simp only [noDoubleUnder, Bool.and_eq_true, Bool.not_eq_true',
      Bool.and_eq_false_iff] at h
    rcases h.1 with hb | hb
    · simp at hb
    · simp only [List.head?_cons, ne_eq, Option.some.injEq]
      intro hcon; subst hcon; simp at hb

theorem collapseUnders_spec :
    ∀ l : List Char,
      (∀ p, noDoubleUnder (collapseUnders p l) = true) ∧
        (collapseUnders true l).head? ≠ some '_' := by
  intro l
  induction l with
  | nil => simp [collapseUnders, noDoubleUnder]
  | cons a as ih =>
    constructor
    · intro p
      simp only [collapseUnders]
      by_cases ha : a == '_'
      · simp only [ha, if_true]
        by_cases hp : p
        · subst hp; simp only [if_true]; exact (ih.1 true)
        · simp only [Bool.not_eq_true] at hp
          subst hp
          simp only [Bool.false_eq_true, if_false]
          exact noDoubleUnder_cons (ih.1 true) (Or.inr ih.2)
      · simp only [ha, if_false]
        refine noDoubleUnder_cons (ih.1 false) (Or.inl ?_)
        simpa using ha
    · simp only [collapseUnders]
      by_cases ha : a == '_'
      · simp only [ha, if_true]
        exact ih.2
      · simp only [ha, if_false, List.head?_cons, ne_eq, Option.some.injEq]
        simpa using ha

theorem noDoubleUnder_dropWhile {p : Char → Bool} :
    ∀ l : List Char, noDoubleUnder l = true →
      noDoubleUnder (l.dropWhile p) = true := by
  intro l
  induction l with
  | nil => intro h; simpa using h
  | cons a as ih =>
    intro h
    by_cases hpa : p a
    · rw [List.dropWhile_cons_of_pos hpa]
      exact ih (noDoubleUnder_tail h)
    · rw [List.dropWhile_cons_of_neg hpa]
      exact h

theorem dropTrailing_append (p : Char → Bool) :
    ∀ l : List Char, ∃ t, l = dropTrailing p l ++ t := by
  intro l
  induction l with
  | nil => exact ⟨[], rfl⟩
  | cons a as ih =>
    simp only [dropTrailing]
    cases hres : dropTrailing p as with
    | nil =>
      by_cases hpa : p a
      · simp only [hpa, if_true]
        exact ⟨a :: as, rfl⟩
      · simp only [hpa, if_false, Bool.false_eq_true]
        obtain ⟨t, ht⟩ := ih
        rw [hres] at ht
        exact ⟨as, by simp⟩
    | cons r rs =>
      obtain ⟨t, ht⟩ := ih
      rw [hres] at ht
      exact ⟨t, by simpa [hres] using congrArg (a :: ·) ht⟩

theorem noDoubleUnder_append_left :
    ∀ xs ys : List Char, noDoubleUnder (xs ++ ys) = true →
      noDoubleUnder xs = true := by
  intro xs ys
  induction xs with
  | nil => intro _; rfl
  | cons a as ih =>
    intro h
    have htail : noDoubleUnder as = true := ih (noDoubleUnder_tail h)
    refine noDoubleUnder_cons htail ?_
    cases as with
    | nil => exact Or.inr (by simp)
    | cons b bs =>
      simp only [List.cons_append, noDoubleUnder, Bool.and_eq_true,
        Bool.not_eq_true', Bool.and_eq_false_iff] at h
      rcases h.1 with hb | hb
      · exact Or.inl (by simpa using hb)
      · exact Or.inr (by simp [show b ≠ '_' by simpa using hb])

theorem noDoubleUnder_dropTrailing {p : Char → Bool} {l : List Char}
    (h : noDoubleUnder l = true) : noDoubleUnder (dropTrailing p l) = true := by
  obtain ⟨t, ht⟩ := dropTrailing_append p l
  exact noDoubleUnder_append_left _ t (ht ▸ h)

theorem head?_dropWhile {p : Char → Bool} {a : Char} :
    ∀ l : List Char, (l.dropWhile p).head? = some a → p a = false := by
  intro l
  induction l with
  | nil => simp
  | cons c cs ih =>
    by_cases hpc : p c
    · rw [List.dropWhile_cons_of_pos hpc]; exact ih
    · rw [List.dropWhile_cons_of_neg hpc]
      intro h
      simp only [List.head?_cons, Option.some.injEq] at h
      subst h
      simpa using hpc

theorem head?_dropTrailing {p : Char → Bool} {a : Char} :
    ∀ l : List Char, (dropTrailing p l).head? = some a → l.head? = some a := by
  intro l
  induction l with
  | nil => simp [dropTrailing]
  | cons c cs ih =>
    simp only [dropTrailing]
    cases hres : dropTrailing p cs with
    | nil =>
      by_cases hpc : p c
      · simp [hpc]
      · simp [hpc]
    | cons r rs => simp

theorem getLast?_dropTrailing {p : Char → Bool} {a : Char} :
    ∀ l : List Char, (dropTrailing p l).getLast? = some a → p a = false := by
  intro l
  induction l with
  | nil => simp [dropTrailing]
  | cons c cs ih =>
    simp only [dropTrailing]
    cases hres : dropTrailing p cs with
    | nil =>
      by_cases hpc : p c
      · simp [hpc]
      · simp only [hpc, if_false, Bool.false_eq_true, List.getLast?_singleton,
          Option.some.injEq]
        intro h; subst h; simpa using hpc
    | cons r rs =>
      rw [List.getLast?_cons_cons]
      rw [← hres]
      exact ih

theorem canon_slugifyCore (t : List Char) : Canon (slugifyCore t) := by
  refine ⟨?_, ?_, ?_, ?_⟩
  · intro c hc
    have h1 := mem_stripEnds hc
    have h2 := mem_collapseUnders false _ h1
    exact List.of_mem_filter h2
  · unfold slugifyCore stripEnds
    exact noDoubleUnder_dropTrailing
      (noDoubleUnder_dropWhile _ ((collapseUnders_spec _).1 false))
  · intro hcon
    cases h : (slugifyCore t).head? with
    | none => rw [h] at hcon; exact Option.noConfusion hcon
    | some a =>
      rw [h] at hcon
      have ha : a = '_' := Option.some.inj hcon
      unfold slugifyCore stripEnds at h
      have := head?_dropWhile _ (head?_dropTrailing _ h)
      rw [ha] at this
      simp at this
  · intro hcon
    cases h : (slugifyCore t).getLast? with
    | none => rw [h] at hcon; exact Option.noConfusion hcon
    | some a =>
      rw [h] at hcon
      have ha : a = '_' := Option.some.inj hcon
      unfold slugifyCore stripEnds at h
      have := getLast?_dropTrailing _ h
      rw [ha] at this
      simp at this

/-! ### Each slugify step is the identity on canonical slugs -/

theorem pyToLower_id {c : Char} (h : isSlugChar c = true) : pyToLower c = c := by
  unfold pyToLower
  rw [if_neg]
  rintro ⟨h1, h2⟩
  rw [Char.le_def] at h1 h2
  simp only [isSlugChar, Char.isLower, Char.isDigit, Bool.or_eq_true,
    Bool.and_eq_true, decide_eq_true_eq, beq_iff_eq] at h
  rcases h with (⟨hl, _⟩ | ⟨_, hd⟩) | he
  · exact absurd (UInt32.le_trans hl h2) (by decide)
  · exact absurd (UInt32.le_trans h1 hd) (by decide)
  · subst he
    exact absurd h2 (by decide)

theorem slugChar_not_sep {c : Char} (h : isSlugChar c = true) :
    isSep c = false := by
  rw [Bool.eq_false_iff]
  intro hcon
  simp only [isSep, pyIsSpace, Bool.or_eq_true, beq_iff_eq] at hcon
  rcases hcon with ((((((hc | hc) | hc) | hc) | hc) | hc) | hc) <;>
    (subst hc; exact absurd h (by decide))

theorem slugChar_not_space {c : Char} (h : isSlugChar c = true) :
    pyIsSpace c = false := by
  rw [Bool.eq_false_iff]
  intro hcon
  simp only [pyIsSpace, Bool.or_eq_true, beq_iff_eq] at hcon
  rcases hcon with ((((hc | hc) | hc) | hc) | hc) | hc <;>
    (subst hc; exact absurd h (by decide))

theorem slugChar_not_bracket {c : Char} (h : isSlugChar c = true) :
    c ≠ '[' := by
  intro hc; subst hc; exact absurd h (by decide)

theorem replaceSeps_id :
    ∀ l : List Char, (∀ c ∈ l, isSep c = false) → replaceSeps false l = l := by
  intro l
  induction l with
  | nil => intro _; rfl
  | cons a as ih =>
    intro h
    have ha : isSep a = false := h a (List.mem_cons_self a as)
    simp only [replaceSeps, ha, Bool.false_eq_true, if_false]
    exact congrArg (a :: ·) (ih fun c hc => h c (List.mem_cons_of_mem _ hc))

theorem collapseUnders_id :
    ∀ l : List Char, noDoubleUnder l = true →
      collapseUnders false l = l ∧
        (l.head? ≠ some '_' → collapseUnders true l = l) := by
  intro l
  induction l with
  | nil => intro _; exact ⟨rfl, fun _ => rfl⟩
  | cons a as ih =>
    intro h
    have htail := noDoubleUnder_tail h
    obtain ⟨ih1, ih2⟩ := ih htail
    by_cases ha : a == '_'
    · have ha' : a = '_' := beq_iff_eq.1 ha
      have hhead : as.head? ≠ some '_' := noDoubleUnder_head h ha'
      subst ha'
      constructor
      · simp only [collapseUnders, ha, if_true, Bool.false_eq_true, if_false]
        exact congrArg ('_' :: ·) (ih2 hhead)
      · intro hcon
        simp only [List.head?_cons, ne_eq, Option.some.injEq] at hcon
        exact absurd trivial hcon
    · have ha' : ¬ a = '_' := by simpa using ha
      constructor
      · simp only [collapseUnders, ha, if_false, Bool.false_eq_true]
        exact congrArg (a :: ·) ih1
      · intro _
        simp only [collapseUnders, ha, if_false, Bool.false_eq_true]
        exact congrArg (a :: ·) ih1

theorem dropWhile_eq_self_of_head {p : Char → Bool} {l : List Char}
    (h : ∀ a, l.head? = some a → p a = false) : l.dropWhile p = l := by
  cases l with
  | nil => rfl
  | cons c cs =>
    have := h c (by simp)
    rw [List.dropWhile_cons_of_neg (by simp [this])]

theorem dropTrailing_eq_self {p : Char → Bool} :
    ∀ l : List Char, (∀ a, l.getLast? = some a → p a = false) →
      dropTrailing p l = l := by
  intro l
  induction l with
  | nil => intro _; rfl
  | cons c cs ih =>
    intro h
    cases cs with
    | nil =>
      have hc := h c (by simp)
      simp only [dropTrailing, hc, if_false, Bool.false_eq_true]
    | cons d ds =>
      have hrec : dropTrailing p (d :: ds) = d :: ds := by
        refine ih fun a ha => h a ?_
        rw [List.getLast?_cons_cons]
        exact ha
      have hdef : dropTrailing p (c :: d :: ds) =
          match dropTrailing p (d :: ds) with
          | [] => if p c = true then [] else [c]
          | res => c :: res := rfl
      rw [hdef, hrec]

theorem stripEnds_id_of_canon {l : List Char}
    (hh : l.head? ≠ some '_') (hl : l.getLast? ≠ some '_') :
    stripEnds (· == '_') l = l := by
  unfold stripEnds
  have hdw : l.dropWhile (· == '_') = l := by
    refine dropWhile_eq_self_of_head fun a ha => ?_
    simp only [beq_eq_false_iff_ne, ne_eq]
    intro hcon; subst hcon; exact hh ha
  rw [hdw]
  refine dropTrailing_eq_self _ fun a ha => ?_
  simp only [beq_eq_false_iff_ne, ne_eq]
  intro hcon; subst hcon; exact hl ha

theorem slugifyCore_id {l : List Char} (h : Canon l) : slugifyCore l = l := by
  obtain ⟨hall, hdd, hh, hl⟩ := h
  unfold slugifyCore
  rw [show l.map pyToLower = l from
    (List.map_congr_left fun a ha => pyToLower_id (hall a ha)).trans l.map_id]
  rw [replaceSeps_id l fun c hc => slugChar_not_sep (hall c hc)]
  rw [List.filter_eq_self.2 fun c hc => hall c hc]
  rw [(collapseUnders_id l hdd).1]
  exact stripEnds_id_of_canon hh hl

theorem stripEnds_eq_self_of_all {p : Char → Bool} {l : List Char}
    (h : ∀ c ∈ l, p c = false) : stripEnds p l = l := by
  unfold stripEnds
  have hdw : l.dropWhile p = l :=
    dropWhile_eq_self_of_head fun a ha =>
      h a (by cases l <;> simp_all)
  rw [hdw]
  refine dropTrailing_eq_self _ fun a ha => ?_
  obtain ⟨hne, haeq⟩ := List.mem_getLast?_eq_getLast (show a ∈ l.getLast? by rw [ha]; rfl)
  exact h a (haeq ▸ List.getLast_mem hne)

theorem removeSpecTag_id :
    ∀ l : List Char, (∀ c ∈ l, c ≠ '[') → removeSpecTag l = l := by
  intro l
  induction l with
  | nil => intro _; simp [removeSpecTag]
  | cons c cs ih =>
    intro h
    have hst : startsSpecTag (c :: cs) = false := by
      rw [startsSpecTag]
      refine beq_eq_false_iff_ne.2 fun hcon => ?_
      rw [List.take_succ_cons] at hcon
      injection hcon with h1 _
      exact h c (List.mem_cons_self c cs) h1
    rw [removeSpecTag]
    simp only [hst, Bool.false_eq_true, if_false]
    exact congrArg (c :: ·) (ih fun a ha => h a (List.mem_cons_of_mem _ ha))

theorem removeSpecTagSpace_id :
    ∀ l : List Char, (∀ c ∈ l, c ≠ '[') → removeSpecTagSpace l = l := by
  intro l
  induction l with
  | nil => intro _; simp [removeSpecTagSpace]
  | cons c cs ih =>
    intro h
    have hst : startsSpecTagSpace (c :: cs) = false := by
      rw [startsSpecTagSpace]
      refine beq_eq_false_iff_ne.2 fun hcon => ?_
      rw [List.take_succ_cons] at hcon
      injection hcon with h1 _
      exact h c (List.mem_cons_self c cs) h1
    rw [removeSpecTagSpace]
    simp only [hst, Bool.false_eq_true, if_false]
    exact congrArg (c :: ·) (ih fun a ha => h a (List.mem_cons_of_mem _ ha))

theorem cleanSpecTag_id {l : List Char} (h : Canon l) : cleanSpecTag l = l := by
  obtain ⟨hall, _, _, _⟩ := h
  unfold cleanSpecTag
  rw [removeSpecTag_id l fun c hc => slugChar_not_bracket (hall c hc)]
  rw [removeSpecTagSpace_id l fun c hc => slugChar_not_bracket (hall c hc)]
  exact stripEnds_eq_self_of_all fun c hc => slugChar_not_space (hall c hc)

/-- C10: both slugify variants are idempotent.  The output of
`slugify` (markdown variant, src/utils/markdown.py) and of
`slugify` (sync variant with the issue-title tag removal,
src/utils/sync_utils.py) consists only of lowercase letters, digits and
single underscores with no leading or trailing underscore, so applying
either function to its own output returns it unchanged. -/
theorem slugify_idempotent (t : List Char) :
    slugify_md (slugify_md t) = slugify_md t ∧
    slugify_sync (slugify_sync t) = slugify_sync t := by
  constructor
  · exact slugifyCore_id (canon_slugifyCore t)
  · show slugifyCore (cleanSpecTag (slugifyCore (cleanSpecTag t))) = _
    have hc := canon_slugifyCore (cleanSpecTag t)
    rw [cleanSpecTag_id hc]
    exact slugifyCore_id hc

/-! ## Markdown files with YAML frontmatter (src/utils/markdown.py)

`parse_frontmatter` and `dump_frontmatter` delegate the mapping layer to
PyYAML, an external library that is not part of this repository.  The
embedding models that layer on the fragment the `.mem/` files exercise:
mappings from plain-scalar keys to plain-scalar string values, which
`yaml.dump(..., default_flow_style=False, sort_keys=False)` emits as one
`key: value` line per entry, in insertion order, with a trailing newline,
and which `yaml.safe_load` parses back.  The frontmatter regex
`^---\n(.*?)\n---\n?(.*)` of `parse_frontmatter` is modelled exactly:
`splitAtMarker` realises the non-greedy search for the first newline
followed by three dashes, and `dropOneNl` the greedy optional newline. -/

/-- One `key: value` line as emitted by the modelled yaml.dump. -/
def dumpLine (p : List Char × List Char) : List Char :=
  p.1 ++ ':' :: ' ' :: p.2

/-- Modelled from the PyYAML library (external): serialization of a
plain-scalar mapping, one line per entry, each line terminated by a
newline. -/
def yamlDump : List (List Char × List Char) → List Char
  | [] => []
  | p :: ps => dumpLine p ++ '\n' :: yamlDump ps

/-- Split a document into lines at newline characters (each line excludes
its terminator; a trailing newline yields a final empty line). -/
def splitLines : List Char → List (List Char)
  | [] => [[]]
  | c :: cs =>
    if c == '\n' then [] :: splitLines cs
    else
      match splitLines cs with
      | [] => [[c]]
      | l :: ls => (c :: l) :: ls

/-- Parse one `key: value` line of the plain fragment. -/
def parseLine (line : List Char) : Option (List Char × List Char) :=
  match line.dropWhile (fun c => !(c == ':')) with
  | ':' :: ' ' :: v => some (line.takeWhile (fun c => !(c == ':')), v)
  | _ => none

def parseLines : List (List Char) → Option (List (List Char × List Char))
  | [] => some []
  | l :: ls =>
    match parseLine l, parseLines ls with
    | some kv, some rest => some (kv :: rest)
    | _, _ => none

/-- Modelled from the PyYAML library (external): `yaml.safe_load` on the
plain fragment.  An empty document loads as `None`, which
`parse_frontmatter` coerces to the empty dict via `or {}`. -/
def yamlLoad (fm : List Char) : Option (List (List Char × List Char)) :=
  if fm.isEmpty then some [] else parseLines (splitLines fm)

/-- True when the list starts with three dashes. -/
def startsDashes (l : List Char) : Bool :=
  l.take 3 == ['-', '-', '-']

/-- The non-greedy `(.*?)\n---` of the frontmatter regex: find the first
newline followed by three dashes; return the text before it and the text
after the dashes. -/
def splitAtMarker : List Char → Option (List Char × List Char)
  | [] => none
  | c :: cs =>
    if c == '\n' && startsDashes cs then some ([], cs.drop 3)
    else (splitAtMarker cs).map (fun p => (c :: p.1, p.2))

/-- The greedy `\n?` after the closing dashes of the frontmatter regex. -/
def dropOneNl (l : List Char) : List Char :=
  match l with
  | [] => []
  | c :: cs => if c == '\n' then cs else c :: cs

/-- parse_frontmatter from src/utils/markdown.py (lines 9-36): if the
content does not start with three dashes, or the regex
`^---\n(.*?)\n---\n?(.*)` does not match, or yaml fails, return the empty
dict and the whole content; otherwise return the loaded mapping and the
body after the closing dashes and optional newline. -/
def parse_frontmatter (content : List Char) :
    List (List Char × List Char) × List Char :=
  match content with
  | '-' :: '-' :: '-' :: rest0 =>
    match rest0 with
    | '\n' :: rest =>
      (match splitAtMarker rest with
       | none => ([], content)
       | some (fm, tail0) =>
         match yamlLoad fm with
         | none => ([], content)
         | some m => (m, dropOneNl tail0))
    | _ => ([], content)
  | _ => ([], content)

/-- The body normalization of dump_frontmatter: a nonempty body that does
not start with a newline gets one prepended. -/
def normBody (b : List Char) : List Char :=
  match b with
  | [] => []
  | c :: cs => if c == '\n' then c :: cs else '\n' :: c :: cs

/-- dump_frontmatter from src/utils/markdown.py (lines 39-62): empty
metadata yields the bare body; otherwise three dashes, newline, the yaml
dump of the metadata, three dashes, and the normalized body. -/
def dump_frontmatter (m : List (List Char × List Char)) (body : List Char) :
    List Char :=
  if m.isEmpty then body
  else '-' :: '-' :: '-' :: '\n' :: (yamlDump m ++ '-' :: '-' :: '-' :: normBody body)

/-- Reserved plain scalars of YAML 1.1 that PyYAML would resolve to
booleans or null instead of strings. -/
def yamlReserved : List (List Char) :=
  ["true", "false", "yes", "no", "on", "off", "null", "y", "n"].map String.toList

/-- Keys on which the modelled yaml fragment is faithful to PyYAML:
nonempty, made of letters, digits and underscores, starting with a letter,
and not a reserved word. -/
def plainKey (k : List Char) : Bool :=
  !k.isEmpty &&
  k.all (fun c => c.isAlpha || c.isDigit || c == '_') &&
  (match k.head? with
   | some c => c.isAlpha
   | none => false) &&
  !(yamlReserved.contains (k.map pyToLower))

/-- Values on which the modelled yaml fragment is faithful to PyYAML:
nonempty, made of lowercase letters, digits, spaces and underscores,
starting with a letter, not ending with a space, and not a reserved
word. -/
def plainValue (v : List Char) : Bool :=
  !v.isEmpty &&
  v.all (fun c => c.isLower || c.isDigit || c == ' ' || c == '_') &&
  (match v.head? with
   | some c => c.isLower
   | none => false) &&
  (match v.getLast? with
   | some c => !(c == ' ')
   | none => false) &&
  !(yamlReserved.contains v)

/-- The frontmatter text as it appears between the two dash markers: the
yaml dump without its final newline. -/
def joinDumpLines : List (List Char × List Char) → List Char
  | [] => []
  | p :: ps =>
    match ps with
    | [] => dumpLine p
    | _ => dumpLine p ++ '\n' :: joinDumpLines ps

/-! ### Round-trip lemmas -/

theorem keyChar_facts {c : Char}
    (h : (c.isAlpha || c.isDigit || c == '_') = true) :
    ¬ c = '\n' ∧ ¬ c = ':' := by
  constructor <;> (intro hc; subst hc; revert h; decide)

theorem valChar_facts {c : Char}
    (h : (c.isLower || c.isDigit || c == ' ' || c == '_') = true) :
    ¬ c = '\n' := by
  intro hc; subst hc; revert h; decide

theorem alpha_ne_dash {c : Char} (h : c.isAlpha = true) : ¬ c = '-' := by
  intro hc; subst hc; revert h; decide

theorem plainKey_parts {k : List Char} (h : plainKey k = true) :
    (∀ c ∈ k, ¬ c = '\n' ∧ ¬ c = ':') ∧ ∃ c t, k = c :: t ∧ c.isAlpha = true := by
  simp only [plainKey, Bool.and_eq_true, Bool.not_eq_true', List.all_eq_true] at h
  obtain ⟨⟨⟨hne, hall⟩, hhead⟩, _⟩ := h
  refine ⟨fun c hc => keyChar_facts (hall c hc), ?_⟩
  cases k with
  | nil => simp at hne
  | cons c t =>
    simp only [List.head?_cons] at hhead
    exact ⟨c, t, rfl, hhead⟩

theorem plainValue_no_nl {v : List Char} (h : plainValue v = true) :
    ∀ c ∈ v, ¬ c = '\n' := by
  simp only [plainValue, Bool.and_eq_true, Bool.not_eq_true', List.all_eq_true] at h
  exact fun c hc => valChar_facts (h.1.1.1.2 c hc)

theorem dumpLine_no_nl {k v : List Char} (hk : plainKey k = true)
    (hv : plainValue v = true) : '\n' ∉ dumpLine (k, v) := by
  intro hmem
  simp only [dumpLine, List.mem_append, List.mem_cons] at hmem
  rcases hmem with hmem | hmem | hmem | hmem
  · exact ((plainKey_parts hk).1 _ hmem).1 rfl
  · exact absurd hmem (by decide)
  · exact absurd hmem (by decide)
  · exact plainValue_no_nl hv _ hmem rfl

theorem dumpLine_cons {k v : List Char} (hk : plainKey k = true) :
    ∃ c t, dumpLine (k, v) = c :: t ∧ c.isAlpha = true := by
  obtain ⟨_, c, t, hkeq, hca⟩ := plainKey_parts hk
  exact ⟨c, t ++ ':' :: ' ' :: v, by simp [dumpLine, hkeq], hca⟩

theorem splitAtMarker_append_noNl :
    ∀ (l : List Char), '\n' ∉ l → ∀ rest,
      splitAtMarker (l ++ rest) =
        (splitAtMarker rest).map (fun p => (l ++ p.1, p.2)) := by
  intro l
  induction l with
  | nil =>
    intro _ rest
    cases h : splitAtMarker rest <;> simp [h]
  | cons c cs ih =>
    intro h rest
    have hc : ¬ c = '\n' := fun hcon => h (hcon ▸ List.mem_cons_self c cs)
    have hcs : '\n' ∉ cs := fun hcon => h (List.mem_cons_of_mem _ hcon)
    simp only [List.cons_append, splitAtMarker, List.append_eq]
    rw [if_neg (by simp [hc])]
    rw [ih hcs rest]
    cases splitAtMarker rest <;> simp

theorem startsDashes_cons_false {c : Char} {l : List Char} (h : ¬ c = '-') :
    startsDashes (c :: l) = false := by
  rw [startsDashes, List.take_succ_cons]
  refine beq_eq_false_iff_ne.2 fun hcon => ?_
  injection hcon with h1 _
  exact h h1

theorem splitAtMarker_at_marker (z : List Char) :
    splitAtMarker ('\n' :: '-' :: '-' :: '-' :: z) = some ([], z) := by
  rw [splitAtMarker]
  rw [if_pos (by simp [startsDashes])]
  simp

theorem yamlDump_append :
    ∀ (m : List (List Char × List Char)), m ≠ [] → ∀ x,
      yamlDump m ++ x = joinDumpLines m ++ '\n' :: x := by
  intro m
  induction m with
  | nil => intro h; exact absurd rfl h
  | cons p ps ih =>
    intro _ x
    cases ps with
    | nil => simp [yamlDump, joinDumpLines]
    | cons q qs =>
      calc yamlDump (p :: q :: qs) ++ x
          = dumpLine p ++ ('\n' :: (yamlDump (q :: qs) ++ x)) := by simp [yamlDump]
        _ = dumpLine p ++ ('\n' :: (joinDumpLines (q :: qs) ++ '\n' :: x)) := by
            rw [ih (by simp) x]
        _ = joinDumpLines (p :: q :: qs) ++ '\n' :: x := by
            show _ = (dumpLine p ++ '\n' :: joinDumpLines (q :: qs)) ++ '\n' :: x
            simp

theorem joinDumpLines_cons {m : List (List Char × List Char)}
    (hm : m ≠ [])
    (hwf : ∀ p ∈ m, plainKey p.1 = true ∧ plainValue p.2 = true) :
    ∃ c t, joinDumpLines m = c :: t ∧ c.isAlpha = true := by
  cases m with
  | nil => exact absurd rfl hm
  | cons p ps =>
    obtain ⟨c, t, hdl, hca⟩ :=
      dumpLine_cons (k := p.1) (v := p.2) (hwf p (List.mem_cons_self p ps)).1
    cases ps with
    | nil => exact ⟨c, t, by simpa [joinDumpLines] using hdl, hca⟩
    | cons q qs =>
      refine ⟨c, t ++ '\n' :: joinDumpLines (q :: qs), ?_, hca⟩
      simp [joinDumpLines, hdl]

theorem splitAtMarker_doc :
    ∀ (m : List (List Char × List Char)), m ≠ [] →
      (∀ p ∈ m, plainKey p.1 = true ∧ plainValue p.2 = true) →
      ∀ z, splitAtMarker (joinDumpLines m ++ '\n' :: '-' :: '-' :: '-' :: z) =
        some (joinDumpLines m, z) := by
  intro m
  induction m with
  | nil => intro h; exact absurd rfl h
  | cons p ps ih =>
    intro _ hwf z
    have hp := hwf p (List.mem_cons_self p ps)
    have hnl : '\n' ∉ dumpLine p := dumpLine_no_nl hp.1 hp.2
    cases ps with
    | nil =>
      show splitAtMarker (dumpLine p ++ '\n' :: '-' :: '-' :: '-' :: z) = _
      rw [splitAtMarker_append_noNl _ hnl, splitAtMarker_at_marker]
      simp [joinDumpLines]
    | cons q qs =>
      have hJ := joinDumpLines_cons (m := q :: qs) (by simp)
        (fun r hr => hwf r (List.mem_cons_of_mem _ hr))
      obtain ⟨c, t, hJeq, hca⟩ := hJ
      show splitAtMarker ((dumpLine p ++ '\n' :: joinDumpLines (q :: qs)) ++ _) = _
      rw [List.append_assoc]
      rw [splitAtMarker_append_noNl _ hnl]
      have hrec : splitAtMarker ('\n' :: (joinDumpLines (q :: qs) ++
          '\n' :: '-' :: '-' :: '-' :: z)) =
          some ('\n' :: joinDumpLines (q :: qs), z) := by
        rw [splitAtMarker]
        rw [if_neg]
        · rw [ih (by simp) (fun r hr => hwf r (List.mem_cons_of_mem _ hr)) z]
          simp
        · rw [hJeq]
          simp only [List.cons_append]
          rw [startsDashes_cons_false (alpha_ne_dash hca)]
          simp
      rw [List.cons_append, hrec]
      show some (dumpLine p ++ '\n' :: joinDumpLines (q :: qs), z) =
        some (joinDumpLines (p :: q :: qs), z)
      rfl

theorem splitLines_noNl :
    ∀ l : List Char, '\n' ∉ l → splitLines l = [l] := by
  intro l
  induction l with
  | nil => intro _; rfl
  | cons c cs ih =>
    intro h
    have hc : ¬ c = '\n' := fun hcon => h (hcon ▸ List.mem_cons_self c cs)
    simp only [splitLines]
    rw [if_neg (by simp [hc])]
    rw [ih (fun hcon => h (List.mem_cons_of_mem _ hcon))]

theorem splitLines_append :
    ∀ l : List Char, '\n' ∉ l → ∀ rest,
      splitLines (l ++ '\n' :: rest) = l :: splitLines rest := by
  intro l
  induction l with
  | nil =>
    intro _ rest
    simp only [List.nil_append, splitLines]
    rw [if_pos (by simp)]
  | cons c cs ih =>
    intro h rest
    have hc : ¬ c = '\n' := fun hcon => h (hcon ▸ List.mem_cons_self c cs)
    simp only [List.cons_append, splitLines, List.append_eq]
    rw [if_neg (by simp [hc])]
    rw [ih (fun hcon => h (List.mem_cons_of_mem _ hcon)) rest]

theorem splitLines_join :
    ∀ (m : List (List Char × List Char)), m ≠ [] →
      (∀ p ∈ m, plainKey p.1 = true ∧ plainValue p.2 = true) →
      splitLines (joinDumpLines m) = m.map dumpLine := by
  intro m
  induction m with
  | nil => intro h; exact absurd rfl h
  | cons p ps ih =>
    intro _ hwf
    have hp := hwf p (List.mem_cons_self p ps)
    have hnl : '\n' ∉ dumpLine p := dumpLine_no_nl hp.1 hp.2
    cases ps with
    | nil =>
      show splitLines (dumpLine p) = [dumpLine p]
      exact splitLines_noNl _ hnl
    | cons q qs =>
      show splitLines (dumpLine p ++ '\n' :: joinDumpLines (q :: qs)) = _
      rw [splitLines_append _ hnl]
      rw [ih (by simp) (fun r hr => hwf r (List.mem_cons_of_mem _ hr))]
      rfl

theorem takeWhile_dropWhile_split {pred : Char → Bool} :
    ∀ (k : List Char), (∀ c ∈ k, pred c = true) → ∀ (x : Char), pred x = false →
      ∀ rest, (k ++ x :: rest).takeWhile pred = k ∧
        (k ++ x :: rest).dropWhile pred = x :: rest := by
  intro k
  induction k with
  | nil =>
    intro _ x hx rest
    constructor
    · simp [List.takeWhile_cons, hx]
    · simp [List.dropWhile_cons, hx]
  | cons c cs ih =>
    intro h x hx rest
    have hc : pred c = true := h c (List.mem_cons_self c cs)
    obtain ⟨ht, hd⟩ := ih (fun a ha => h a (List.mem_cons_of_mem _ ha)) x hx rest
    constructor
    · simp [List.takeWhile_cons, hc, ht]
    · simp [List.dropWhile_cons, hc, hd]

theorem parseLine_dumpLine {k v : List Char} (hk : plainKey k = true) :
    parseLine (dumpLine (k, v)) = some (k, v) := by
  have hkchars : ∀ c ∈ k, (!(c == ':')) = true := by
    intro c hc
    simp only [Bool.not_eq_eq_eq_not, Bool.not_true, beq_eq_false_iff_ne, ne_eq]
    exact ((plainKey_parts hk).1 c hc).2
  obtain ⟨ht, hd⟩ := takeWhile_dropWhile_split k hkchars ':' (by simp) (' ' :: v)
  rw [parseLine]
  rw [show dumpLine (k, v) = k ++ ':' :: ' ' :: v from rfl]
  rw [hd, ht]
  rfl

theorem parseLines_map :
    ∀ (m : List (List Char × List Char)),
      (∀ p ∈ m, plainKey p.1 = true ∧ plainValue p.2 = true) →
      parseLines (m.map dumpLine) = some m := by
  intro m
  induction m with
  | nil => intro _; rfl
  | cons p ps ih =>
    intro hwf
    have hp := hwf p (List.mem_cons_self p ps)
    simp only [List.map_cons, parseLines]
    rw [show dumpLine p = dumpLine (p.1, p.2) from rfl]
    rw [parseLine_dumpLine hp.1]
    rw [ih (fun r hr => hwf r (List.mem_cons_of_mem _ hr))]

theorem yamlLoad_join {m : List (List Char × List Char)} (hm : m ≠ [])
    (hwf : ∀ p ∈ m, plainKey p.1 = true ∧ plainValue p.2 = true) :
    yamlLoad (joinDumpLines m) = some m := by
  obtain ⟨c, t, hJeq, _⟩ := joinDumpLines_cons hm hwf
  rw [yamlLoad, if_neg (by simp [hJeq])]
  rw [splitLines_join m hm hwf]
  exact parseLines_map m hwf

theorem dropOneNl_normBody (b : List Char) : dropOneNl (normBody b) = dropOneNl b := by
  cases b with
  | nil => rfl
  | cons c cs =>
    by_cases hc : c == '\n'
    · simp [normBody, dropOneNl, hc]
    · simp [normBody, dropOneNl, hc]

/-- C7: markdown files with YAML frontmatter round-trip.  For every
nonempty metadata mapping in the plain-scalar fragment and every body,
`parse_frontmatter (dump_frontmatter metadata body)` recovers the metadata
exactly and the body up to the leading-newline normalization: the result
body is `dropOneNl body`, which equals `body` whenever `body` does not
start with a newline (dump_frontmatter prepends one and the regex
swallows exactly one). -/
theorem frontmatter_roundtrip (m : List (List Char × List Char))
    (body : List Char) (hm : m ≠ [])
    (hwf : ∀ p ∈ m, plainKey p.1 = true ∧ plainValue p.2 = true) :
    parse_frontmatter (dump_frontmatter m body) = (m, dropOneNl body) := by
  rw [dump_frontmatter, if_neg (by simp [hm])]
  rw [show ('-' :: '-' :: '-' :: '\n' ::
      (yamlDump m ++ '-' :: '-' :: '-' :: normBody body) : List Char) =
      '-' :: '-' :: '-' :: '\n' ::
      (joinDumpLines m ++ '\n' :: '-' :: '-' :: '-' :: normBody body) by
    rw [yamlDump_append m hm]]
  simp only [parse_frontmatter, splitAtMarker_doc m hm hwf (normBody body),
    yamlLoad_join hm hwf]
  rw [dropOneNl_normBody]

/-- Closed witness for C7 at a concrete metadata mapping and body. -/
theorem frontmatter_roundtrip_witness :
    ([(("title".toList : List Char), ("hello world".toList : List Char))] ≠
      ([] : List (List Char × List Char))) ∧
    parse_frontmatter
        (dump_frontmatter [("title".toList, "hello world".toList)]
          ("Body text".toList)) =
      ([("title".toList, "hello world".toList)], "Body text".toList) :=
  ⟨by decide,
   (frontmatter_roundtrip _ _ (by decide) (by decide)).trans (by decide)⟩

/-! ## Tasks and subtasks (src/utils/tasks.py)

A task file is YAML frontmatter plus a markdown body.  Frontmatter values
are strings, numbers, null, or the embedded list of subtasks; the
dictionary is an association list in file order.  `dictSet` models the
Python dict update used by `update_task`: assigning to an existing key
updates it in place, assigning a new key appends it. -/

/-- A subtask entry embedded in task frontmatter. -/
structure Subtask where
  title : String
  status : String
  deriving Repr, DecidableEq

/-- A YAML frontmatter value as used in task files. -/
inductive MVal where
  | s : String → MVal
  | n : Nat → MVal
  | null : MVal
  | subs : List Subtask → MVal
  deriving Repr, DecidableEq

/-- A parsed task file: frontmatter mapping (in file order) and body. -/
structure TaskFile where
  metadata : List (String × MVal)
  body : String
  deriving Repr, DecidableEq

/-- Python dict assignment `metadata[key] = value`: update the existing
entry in place, or append a new one. -/
def dictSet (m : List (String × MVal)) (k : String) (v : MVal) :
    List (String × MVal) :=
  match m with
  | [] => [(k, v)]
  | p :: ps => if p.1 == k then (k, v) :: ps else p :: dictSet ps k v

/-- The `task.get("subtasks", [])` read in add_subtask. -/
def getSubtasks (m : List (String × MVal)) : List Subtask :=
  match m.lookup "subtasks" with
  | some (MVal.subs l) => l
  | _ => []

/-- update_task from src/utils/tasks.py (lines 152-169), specialised to a
single updated field as add_subtask calls it: write the field, then stamp
`updated_at` with the current time, keeping the body. -/
def update_task (now : String) (tf : TaskFile) (k : String) (v : MVal) :
    TaskFile :=
  { metadata := dictSet (dictSet tf.metadata k v) "updated_at" (MVal.s now),
    body := tf.body }

/-- add_subtask from src/utils/tasks.py (lines 217-225), in the case where
the task exists: append `{title, status: todo}` to the subtasks list and
store it back through update_task. -/
def add_subtask (now : String) (tf : TaskFile) (title : String) : TaskFile :=
  let subtasks := getSubtasks tf.metadata
  update_task now tf "subtasks" (MVal.subs (subtasks ++ [⟨title, "todo"⟩]))

theorem lookup_dictSet_self (m : List (String × MVal)) (k : String) (v : MVal) :
    (dictSet m k v).lookup k = some v := by
  induction m with
  | nil => simp [dictSet, List.lookup]
  | cons p ps ih =>
    by_cases hp : p.1 == k
    · simp [dictSet, hp, List.lookup]
    · have hk : (k == p.1) = false := by
        refine beq_eq_false_iff_ne.2 fun hcon => ?_
        exact hp (by simp [hcon])
      simp only [dictSet, hp, Bool.false_eq_true, if_false, List.lookup, hk]
      exact ih

theorem lookup_dictSet_other (m : List (String × MVal)) (k k' : String)
    (v : MVal) (hne : k' ≠ k) : (dictSet m k v).lookup k' = m.lookup k' := by
  have h1 : (k' == k) = false := beq_eq_false_iff_ne.2 hne
  induction m with
  | nil => simp [dictSet, List.lookup, h1]
  | cons p ps ih =>
    by_cases hp : p.1 == k
    · have hp' : p.1 = k := beq_iff_eq.1 hp
      have h2 : (k' == p.1) = false := by rw [hp']; exact h1
      simp [dictSet, hp, List.lookup, h1, h2]
    · by_cases hk' : k' == p.1
      · simp [dictSet, hp, List.lookup, hk']
      · simp only [dictSet, hp, Bool.false_eq_true, if_false, List.lookup, hk']
        exact ih

/-- Counterexample for C9 at a concrete task: add_subtask does change a
frontmatter field other than `subtasks`, namely `updated_at`, which
update_task stamps with the current time. -/
theorem add_subtask_changes_updated_at :
    (add_subtask "2025-06-01T00:00:00"
        { metadata := [("title", MVal.s "t"), ("status", MVal.s "todo"),
            ("updated_at", MVal.s "2024-01-01T00:00:00"), ("subtasks", MVal.subs [])],
          body := "B" } "write tests").metadata.lookup "updated_at" ≠
      (([("title", MVal.s "t"), ("status", MVal.s "todo"),
          ("updated_at", MVal.s "2024-01-01T00:00:00"), ("subtasks", MVal.subs [])] :
        List (String × MVal)).lookup "updated_at") := by
  decide

/-- C9 (amended): add_subtask appends the entry `{title, status: todo}` to
the `subtasks` list of the task frontmatter, leaves the markdown body
unchanged, and leaves every other frontmatter field unchanged except
`updated_at`, which update_task sets to the current time. -/
theorem add_subtask_spec (now title : String) (tf : TaskFile) :
    (add_subtask now tf title).body = tf.body ∧
    (add_subtask now tf title).metadata.lookup "subtasks" =
      some (MVal.subs (getSubtasks tf.metadata ++ [⟨title, "todo"⟩])) ∧
    (add_subtask now tf title).metadata.lookup "updated_at" =
      some (MVal.s now) ∧
    (∀ k, k ≠ "subtasks" → k ≠ "updated_at" →
      (add_subtask now tf title).metadata.lookup k = tf.metadata.lookup k) := by
  refine ⟨rfl, ?_, ?_, ?_⟩
  · show (dictSet (dictSet tf.metadata "subtasks" _) "updated_at" _).lookup
      "subtasks" = _
    rw [lookup_dictSet_other _ _ _ _ (by decide)]
    exact lookup_dictSet_self _ _ _
  · exact lookup_dictSet_self _ _ _
  · intro k hk1 hk2
    show (dictSet (dictSet tf.metadata "subtasks" _) "updated_at" _).lookup
      k = _
    rw [lookup_dictSet_other _ _ _ _ hk2, lookup_dictSet_other _ _ _ _ hk1]

/-- Closed witness for the amended C9 at a concrete task. -/
theorem add_subtask_spec_witness :
    (add_subtask "2025-06-01T00:00:00"
        { metadata := [("title", MVal.s "t"), ("subtasks", MVal.subs [])],
          body := "B" } "x").body = "B" ∧
    (add_subtask "2025-06-01T00:00:00"
        { metadata := [("title", MVal.s "t"), ("subtasks", MVal.subs [])],
          body := "B" } "x").metadata.lookup "title" = some (MVal.s "t") :=
  ⟨(add_subtask_spec "2025-06-01T00:00:00" "x"
      { metadata := [("title", MVal.s "t"), ("subtasks", MVal.subs [])],
        body := "B" }).1,
   ((add_subtask_spec "2025-06-01T00:00:00" "x"
      { metadata := [("title", MVal.s "t"), ("subtasks", MVal.subs [])],
        body := "B" }).2.2.2 "title" (by decide) (by decide)).trans (by decide)⟩

/-! ## Git worktrees (src/utils/worktrees.py)

Paths are modelled as lists of components from the filesystem root.
`Path.resolve()` depends on the filesystem (symlinks), so it is a
parameter of the embedding.  The git repository state tracks the local
branches (`repo.heads`) and the registered worktrees. -/

/-- Local git repository state as seen by worktree creation. -/
structure GitState where
  heads : List String
  worktreeList : List (List String × String)
  deriving Repr, DecidableEq

/-- get_worktrees_base_dir from src/utils/worktrees.py (lines 62-69):
sibling directory `<resolved parent>/<resolved name>-worktrees`. -/
def get_worktrees_base_dir (resolve : List String → List String)
    (main : List String) : List String :=
  let r := resolve main
  r.dropLast ++ [(r.getLast?.getD "") ++ "-worktrees"]

/-- get_worktree_path from src/utils/worktrees.py (lines 72-74). -/
def get_worktree_path (resolve : List String → List String)
    (main : List String) (slug : String) : List String :=
  get_worktrees_base_dir resolve main ++ [slug]

/-- create_worktree from src/utils/worktrees.py (lines 77-95), as called by
the spec assign command (src/commands/spec.py line 336) with the main
repository path, the spec slug and the branch name: compute the worktree
path, then `git worktree add` on the existing branch, or
`git worktree add -b` which first creates the branch. -/
def create_worktree (resolve : List String → List String) (repo : GitState)
    (main : List String) (slug branch : String) : GitState × List String :=
  let wp := get_worktree_path resolve main slug
  if branch ∈ repo.heads then
    ({ repo with worktreeList := repo.worktreeList ++ [(wp, branch)] }, wp)
  else
    ({ heads := repo.heads ++ [branch],
       worktreeList := repo.worktreeList ++ [(wp, branch)] }, wp)

/-- C8: assigning a spec creates a worktree in a sibling directory.  The
path computed and used by create_worktree is
`<resolved parent of the repo>/<repo name>-worktrees/<slug>`, the worktree
is registered on the given branch, and the branch is created first when it
does not yet exist (and the branch list is untouched when it does). -/
theorem create_worktree_spec (resolve : List String → List String)
    (repo : GitState) (main : List String) (slug branch : String) :
    (create_worktree resolve repo main slug branch).2 =
      (resolve main).dropLast ++
        [((resolve main).getLast?.getD "") ++ "-worktrees", slug] ∧
    ((create_worktree resolve repo main slug branch).2, branch) ∈
      (create_worktree resolve repo main slug branch).1.worktreeList ∧
    branch ∈ (create_worktree resolve repo main slug branch).1.heads ∧
    (branch ∉ repo.heads →
      (create_worktree resolve repo main slug branch).1.heads =
        repo.heads ++ [branch]) ∧
    (branch ∈ repo.heads →
      (create_worktree resolve repo main slug branch).1.heads = repo.heads) := by
  by_cases hb : branch ∈ repo.heads
  · refine ⟨?_, ?_, ?_, ?_, ?_⟩ <;>
      simp [create_worktree, get_worktree_path, get_worktrees_base_dir, hb]
  · refine ⟨?_, ?_, ?_, ?_, ?_⟩ <;>
      simp [create_worktree, get_worktree_path, get_worktrees_base_dir, hb]

/-- Closed witness for C8 at a concrete repository and path. -/
theorem create_worktree_spec_witness :
    ("dev-user-auth" ∉ (GitState.mk ["dev", "main"] []).heads) ∧
    (create_worktree id (GitState.mk ["dev", "main"] [])
        ["home", "proj"] "user_auth" "dev-user-auth").2 =
      ["home", "proj-worktrees", "user_auth"] :=
  ⟨by decide,
   (create_worktree_spec id (GitState.mk ["dev", "main"] [])
      ["home", "proj"] "user_auth" "dev-user-auth").1.trans (by decide)⟩


/-! ## The GitHub sync planner (src/commands/sync.py)

The planner compares the local specs in `.mem/specs/` with the GitHub
issues of the repository.  External services are parameters of the
embedding, collected in `Env`: SHA-256 content hashing (`hashlib`), the
merged state of a pull request by URL (the GitHub API behind
`is_pr_merged`), the current timestamp, the spec template text, and the
`html_url` GitHub assigns to a newly created issue. -/

/-- External-service parameters of the sync embedding. -/
structure Env where
  hash : String → String
  prMerged : String → Bool
  now : String
  template : String
  issueUrl : Nat → String

/-- compute_content_hash (src/utils/sync_utils.py lines 13-23) applied
through the environment: SHA-256 hex digest of the text. -/
def compute_content_hash (env : Env) (content : String) : String :=
  env.hash content

/-- content_differs from src/utils/sync_utils.py (lines 68-83): true iff
either hash is None or they differ. -/
def content_differs (h1 h2 : Option String) : Bool :=
  match h1, h2 with
  | none, _ => true
  | _, none => true
  | some a, some b => a != b

/-- Python truthiness of an optional string (None and the empty string are
falsy). -/
def optStrTruthy : Option String → Bool
  | none => false
  | some s => !(s == "")

/-- Python truthiness of an optional integer (None and 0 are falsy). -/
def optNatTruthy : Option Nat → Bool
  | none => false
  | some n => !(n == 0)

/-- STATUS_LABELS from src/utils/github/api.py (lines 153-184), in
declaration order: status to GitHub label name. -/
def STATUS_LABELS : List (String × String) :=
  [("todo", "mem-status:todo"),
   ("active", "mem-status:active"),
   ("inactive", "mem-status:inactive"),
   ("completed", "mem-status:completed"),
   ("merge_ready", "mem-status:merge-ready"),
   ("archived", "mem-status:archived")]

/-- get_status_label_name from src/utils/github/api.py (lines 198-210). -/
def get_status_label_name (status : String) : Option String :=
  STATUS_LABELS.lookup status

/-- The reverse label-to-status mapping built inside
get_status_from_labels. -/
def labelToStatus (label : String) : Option String :=
  (STATUS_LABELS.find? (fun p => p.2 == label)).map (fun p => p.1)

/-- get_status_from_labels from src/utils/github/api.py (lines 213-232):
the status of the first label that is a mem-status label, else None. -/
def get_status_from_labels (labels : List String) : Option String :=
  match labels.find? (fun l => (labelToStatus l).isSome) with
  | some l => labelToStatus l
  | none => none

/-- An issue comment as returned by get_comments. -/
structure Comment where
  user : String
  created_at : String
  body : String
  deriving Repr, DecidableEq

/-- A GitHub issue as the sync code reads it. -/
structure Issue where
  number : Nat
  title : String
  body : Option String := none
  labels : List String := []
  html_url : String := ""
  state : String := "open"
  assignee : Option String := none
  comments : List Comment := []
  deriving Repr, DecidableEq

/-- A local spec: the frontmatter fields the sync code reads, plus `body`,
the current main body of its spec.md on disk (what
extract_body_from_spec_file returns for get_spec_file_path(slug)). -/
structure Spec where
  slug : String
  title : String
  status : Option String := none
  issue_id : Option Nat := none
  issue_url : Option String := none
  pr_url : Option String := none
  assigned_to : Option String := none
  local_content_hash : Option String := none
  remote_content_hash : Option String := none
  body : String := ""
  deriving Repr, DecidableEq

/-- A local todo file (slug-addressed markdown under .mem/todos/). -/
structure Todo where
  slug : String
  title : String := ""
  status : Option String := none
  issue_id : Option Nat := none
  issue_url : String := ""
  body : String := ""
  deriving Repr, DecidableEq

/-- The issue-title clean-up used throughout sync.py:
`title.replace("[Spec]:", "").replace("[Spec]: ", "").strip()`. -/
def pyCleanSpecTitle (s : String) : String :=
  String.mk (cleanSpecTag s.data)

/-- The sync_utils slugify on strings. -/
def slugify_sync_str (s : String) : String :=
  String.mk (slugify_sync s.data)

/-- The markdown slugify on strings. -/
def slugify_md_str (s : String) : String :=
  String.mk (slugify_md s.data)

inductive SyncDirection where
  | inbound
  | outbound
  | conflict
  deriving Repr, DecidableEq

/-- SyncAction from src/commands/sync.py (lines 174-183). -/
structure SyncAction where
  direction : SyncDirection
  action_type : String
  spec_slug : Option String
  issue_number : Option Nat
  title : String
  description : String
  deriving Repr, DecidableEq

/-- An entry of plan.todos_to_create (sync.py lines 361-368). -/
structure TodoCreate where
  title : String
  body : String
  issue_number : Nat
  issue_url : String
  deriving Repr, DecidableEq

/-- SyncPlan from src/commands/sync.py (lines 186-224). -/
structure SyncPlan where
  inbound_creates : List SyncAction := []
  inbound_updates : List SyncAction := []
  outbound_creates : List SyncAction := []
  outbound_updates : List SyncAction := []
  status_syncs : List SyncAction := []
  conflicts : List SyncAction := []
  todos_to_create : List TodoCreate := []
  specs_to_complete : List Spec := []
  deriving Repr, DecidableEq

/-- Concatenate two plans bucket by bucket (the loop of build_sync_plan
only ever appends to the buckets, so the plan it builds is the
concatenation of the per-issue contributions). -/
def planAppend (a b : SyncPlan) : SyncPlan :=
  { inbound_creates := a.inbound_creates ++ b.inbound_creates,
    inbound_updates := a.inbound_updates ++ b.inbound_updates,
    outbound_creates := a.outbound_creates ++ b.outbound_creates,
    outbound_updates := a.outbound_updates ++ b.outbound_updates,
    status_syncs := a.status_syncs ++ b.status_syncs,
    conflicts := a.conflicts ++ b.conflicts,
    todos_to_create := a.todos_to_create ++ b.todos_to_create,
    specs_to_complete := a.specs_to_complete ++ b.specs_to_complete }

/-- The dictionary `specs_by_issue_id` of build_sync_plan (line 251):
built over specs with truthy issue_id, later entries overwriting earlier
ones, then looked up at an issue number. -/
def specs_by_issue_id_get (specs : List Spec) (n : Nat) : Option Spec :=
  (specs.filter (fun s => optNatTruthy s.issue_id && s.issue_id == some n)).getLast?

def mkInboundCreate (issue : Issue) : SyncAction :=
  { direction := SyncDirection.inbound, action_type := "create",
    spec_slug := none, issue_number := some issue.number,
    title := pyCleanSpecTitle issue.title,
    description := "Create local spec from GitHub issue #" ++ Nat.repr issue.number }

def mkConflict (spec : Spec) (issue : Issue) : SyncAction :=
  { direction := SyncDirection.conflict, action_type := "conflict",
    spec_slug := some spec.slug, issue_number := some issue.number,
    title := pyCleanSpecTitle issue.title,
    description := "Both local and remote changed for spec \x27" ++ spec.slug ++ "\x27" }

def mkInboundUpdate (spec : Spec) (issue : Issue) : SyncAction :=
  { direction := SyncDirection.inbound, action_type := "update",
    spec_slug := some spec.slug, issue_number := some issue.number,
    title := pyCleanSpecTitle issue.title,
    description := "Update local spec \x27" ++ spec.slug ++ "\x27 from GitHub" }

def mkOutboundUpdate (spec : Spec) (issue : Issue) : SyncAction :=
  { direction := SyncDirection.outbound, action_type := "update",
    spec_slug := some spec.slug, issue_number := some issue.number,
    title := pyCleanSpecTitle issue.title,
    description := "Update GitHub issue #" ++ Nat.repr issue.number ++ " from local" }

def mkStatusOutbound (spec : Spec) (issue : Issue) (localStatus : String) : SyncAction :=
  { direction := SyncDirection.outbound, action_type := "status",
    spec_slug := some spec.slug, issue_number := some issue.number,
    title := pyCleanSpecTitle issue.title,
    description := "Update GitHub labels to \x27" ++ localStatus ++ "\x27 from local" }

def mkStatusInbound (spec : Spec) (issue : Issue) (githubStatus : String) : SyncAction :=
  { direction := SyncDirection.inbound, action_type := "status",
    spec_slug := some spec.slug, issue_number := some issue.number,
    title := pyCleanSpecTitle issue.title,
    description := "Update local status to \x27" ++ githubStatus ++ "\x27 from GitHub labels" }

def mkOutboundCreate (spec : Spec) : SyncAction :=
  { direction := SyncDirection.outbound, action_type := "create",
    spec_slug := some spec.slug, issue_number := none,
    title := spec.title,
    description := "Create GitHub issue from local spec \x27" ++ spec.slug ++ "\x27" }

/-- The spec file on disk changed since the last sync: the hash of the
current local body differs from the stored local_content_hash
(sync.py line 289). -/
def localChanged (env : Env) (spec : Spec) : Bool :=
  content_differs (some (compute_content_hash env spec.body))
    spec.local_content_hash

/-- The GitHub issue body changed since the last sync: the hash of the
current remote body differs from the stored remote_content_hash
(sync.py line 290). -/
def remoteChanged (env : Env) (spec : Spec) (issue : Issue) : Bool :=
  content_differs (some (compute_content_hash env (issue.body.getD "")))
    spec.remote_content_hash

/-- The content classification of a matched pair (sync.py lines 292-328):
both changed is a conflict, only remote changed an inbound update, only
local changed an outbound update, neither is nothing. -/
def contentPart (spec : Spec) (issue : Issue) (lc rc : Bool) : SyncPlan :=
  if lc && rc then { conflicts := [mkConflict spec issue] }
  else if rc then { inbound_updates := [mkInboundUpdate spec issue] }
  else if lc then { outbound_updates := [mkOutboundUpdate spec issue] }
  else {}

/-- The status-label classification of a matched pair (sync.py lines
330-358), run only when there is no content conflict: a truthy local
status differing from the label-derived status syncs outbound (local
wins); a label-derived status with no truthy local status syncs
inbound. -/
def statusActions (spec : Spec) (issue : Issue) (lc rc : Bool) :
    List SyncAction :=
  if !(lc && rc) then
    let github_status := get_status_from_labels issue.labels
    if optStrTruthy spec.status && !(spec.status == github_status) then
      [mkStatusOutbound spec issue (spec.status.getD "")]
    else if optStrTruthy github_status && !(optStrTruthy spec.status) then
      [mkStatusInbound spec issue (github_status.getD "")]
    else []
  else []

def statusPart (spec : Spec) (issue : Issue) (lc rc : Bool) : SyncPlan :=
  { status_syncs := statusActions spec issue lc rc }

/-- The body of the issue loop of build_sync_plan (sync.py lines 257-368)
for a single GitHub issue: the plan entries this issue contributes.  A
mem-spec issue with no matching local spec yields an inbound create; a
matched one is classified by the content and status parts.  A non-spec
issue with no existing todo (by issue id, then by slugified title) yields
a todo to create. -/
def processIssue (env : Env) (localSpecs : List Spec)
    (existingTodos : List Todo) (issue : Issue) : SyncPlan :=
  if "mem-spec" ∈ issue.labels then
    match specs_by_issue_id_get localSpecs issue.number with
    | none => { inbound_creates := [mkInboundCreate issue] }
    | some spec =>
      planAppend
        (contentPart spec issue (localChanged env spec) (remoteChanged env spec issue))
        (statusPart spec issue (localChanged env spec) (remoteChanged env spec issue))
  else
    match existingTodos.find? (fun t => t.issue_id == some issue.number) with
    | some _ => {}
    | none =>
      match existingTodos.find? (fun t => t.slug == slugify_sync_str issue.title) with
      | some _ => {}
      | none =>
        { todos_to_create := [{ title := issue.title, body := issue.body.getD "",
                                issue_number := issue.number,
                                issue_url := issue.html_url }] }

/-- The merge-ready check of build_sync_plan (sync.py lines 243-248):
status is merge_ready, pr_url is truthy, and the PR is merged. -/
def shouldComplete (env : Env) (s : Spec) : Bool :=
  s.status == some "merge_ready" && optStrTruthy s.pr_url &&
    env.prMerged (s.pr_url.getD "")

/-- build_sync_plan from src/commands/sync.py (lines 225-389): collect the
merge-ready specs with merged PRs, fold the issue loop over the GitHub
issues in order, then append an outbound create for every local spec whose
issue_id is None. -/
def build_sync_plan (env : Env) (localSpecs : List Spec)
    (existingTodos : List Todo) (issues : List Issue) : SyncPlan :=
  let base : SyncPlan :=
    { specs_to_complete := localSpecs.filter (shouldComplete env) }
  let afterIssues := issues.foldl
    (fun p i => planAppend p (processIssue env localSpecs existingTodos i)) base
  planAppend afterIssues
    { outbound_creates :=
        (localSpecs.filter (fun s => s.issue_id == none)).map mkOutboundCreate }


/-! ### Bucket equations for the planner -/

theorem foldl_plan_bucket {α : Type} (f : Issue → SyncPlan)
    (g : SyncPlan → List α)
    (hg : ∀ a b, g (planAppend a b) = g a ++ g b) :
    ∀ (issues : List Issue) (base : SyncPlan),
      g (issues.foldl (fun p i => planAppend p (f i)) base) =
        g base ++ issues.flatMap (fun i => g (f i)) := by
  intro issues
  induction issues with
  | nil => intro base; simp
  | cons i is ih =>
    intro base
    simp only [List.foldl_cons, List.flatMap_cons]
    rw [ih, hg]
    simp [List.append_assoc]

theorem build_bucket {α : Type} (env : Env) (specs : List Spec)
    (todos : List Todo) (issues : List Issue) (g : SyncPlan → List α)
    (hg : ∀ a b, g (planAppend a b) = g a ++ g b) :
    g (build_sync_plan env specs todos issues) =
      (g { specs_to_complete := specs.filter (shouldComplete env) } ++
        issues.flatMap (fun i => g (processIssue env specs todos i))) ++
      g { outbound_creates :=
            (specs.filter (fun s => s.issue_id == none)).map mkOutboundCreate } := by
  simp only [build_sync_plan]
  rw [hg, foldl_plan_bucket _ g hg]

theorem build_conflicts_eq (env : Env) (specs : List Spec) (todos : List Todo)
    (issues : List Issue) :
    (build_sync_plan env specs todos issues).conflicts =
      issues.flatMap (fun i => (processIssue env specs todos i).conflicts) := by
  rw [build_bucket env specs todos issues (fun p => p.conflicts) (fun a b => rfl)]
  simp

theorem build_inbound_creates_eq (env : Env) (specs : List Spec)
    (todos : List Todo) (issues : List Issue) :
    (build_sync_plan env specs todos issues).inbound_creates =
      issues.flatMap (fun i => (processIssue env specs todos i).inbound_creates) := by
  rw [build_bucket env specs todos issues (fun p => p.inbound_creates) (fun a b => rfl)]
  simp

theorem build_inbound_updates_eq (env : Env) (specs : List Spec)
    (todos : List Todo) (issues : List Issue) :
    (build_sync_plan env specs todos issues).inbound_updates =
      issues.flatMap (fun i => (processIssue env specs todos i).inbound_updates) := by
  rw [build_bucket env specs todos issues (fun p => p.inbound_updates) (fun a b => rfl)]
  simp

theorem build_outbound_updates_eq (env : Env) (specs : List Spec)
    (todos : List Todo) (issues : List Issue) :
    (build_sync_plan env specs todos issues).outbound_updates =
      issues.flatMap (fun i => (processIssue env specs todos i).outbound_updates) := by
  rw [build_bucket env specs todos issues (fun p => p.outbound_updates) (fun a b => rfl)]
  simp

theorem build_status_syncs_eq (env : Env) (specs : List Spec)
    (todos : List Todo) (issues : List Issue) :
    (build_sync_plan env specs todos issues).status_syncs =
      issues.flatMap (fun i => (processIssue env specs todos i).status_syncs) := by
  rw [build_bucket env specs todos issues (fun p => p.status_syncs) (fun a b => rfl)]
  simp

theorem build_todos_eq (env : Env) (specs : List Spec) (todos : List Todo)
    (issues : List Issue) :
    (build_sync_plan env specs todos issues).todos_to_create =
      issues.flatMap (fun i => (processIssue env specs todos i).todos_to_create) := by
  rw [build_bucket env specs todos issues (fun p => p.todos_to_create) (fun a b => rfl)]
  simp

theorem processIssue_outbound_creates_nil (env : Env) (specs : List Spec)
    (todos : List Todo) (i : Issue) :
    (processIssue env specs todos i).outbound_creates = [] := by
  unfold processIssue
  split
  · split
    · rfl
    · show (contentPart _ _ _ _).outbound_creates ++
        (statusPart _ _ _ _).outbound_creates = []
      rw [show ∀ s j lc rc, (contentPart s j lc rc).outbound_creates = []
        from fun s j lc rc => by
          unfold contentPart
          split
          · rfl
          · split
            · rfl
            · split
              · rfl
              · rfl]
      rfl
  · split
    · rfl
    · split
      · rfl
      · rfl

theorem processIssue_specs_to_complete_nil (env : Env) (specs : List Spec)
    (todos : List Todo) (i : Issue) :
    (processIssue env specs todos i).specs_to_complete = [] := by
  unfold processIssue
  split
  · split
    · rfl
    · show (contentPart _ _ _ _).specs_to_complete ++
        (statusPart _ _ _ _).specs_to_complete = []
      rw [show ∀ s j lc rc, (contentPart s j lc rc).specs_to_complete = []
        from fun s j lc rc => by
          unfold contentPart
          split
          · rfl
          · split
            · rfl
            · split
              · rfl
              · rfl]
      rfl
  · split
    · rfl
    · split
      · rfl
      · rfl

theorem build_outbound_creates_eq (env : Env) (specs : List Spec)
    (todos : List Todo) (issues : List Issue) :
    (build_sync_plan env specs todos issues).outbound_creates =
      (specs.filter (fun s => s.issue_id == none)).map mkOutboundCreate := by
  rw [build_bucket env specs todos issues (fun p => p.outbound_creates) (fun a b => rfl)]
  simp [processIssue_outbound_creates_nil]

theorem build_specs_to_complete_eq (env : Env) (specs : List Spec)
    (todos : List Todo) (issues : List Issue) :
    (build_sync_plan env specs todos issues).specs_to_complete =
      specs.filter (shouldComplete env) := by
  rw [build_bucket env specs todos issues (fun p => p.specs_to_complete) (fun a b => rfl)]
  simp [processIssue_specs_to_complete_nil]


/-! ### Per-issue characterizations -/

theorem contentPart_conflicts (s : Spec) (i : Issue) (lc rc : Bool) :
    (contentPart s i lc rc).conflicts =
      if lc && rc then [mkConflict s i] else [] := by
  unfold contentPart
  by_cases h : (lc && rc) = true
  · simp [h]
  · simp only [h, Bool.false_eq_true, if_false]
    split
    · rfl
    · split
      · rfl
      · rfl

theorem contentPart_inbound_updates (s : Spec) (i : Issue) (lc rc : Bool) :
    (contentPart s i lc rc).inbound_updates =
      if lc && rc then [] else if rc then [mkInboundUpdate s i] else [] := by
  unfold contentPart
  by_cases h : (lc && rc) = true
  · simp [h]
  · simp only [h, Bool.false_eq_true, if_false]
    by_cases hrc : rc = true
    · simp [hrc]
    · simp only [hrc, Bool.false_eq_true, if_false]
      split
      · rfl
      · rfl

theorem contentPart_outbound_updates (s : Spec) (i : Issue) (lc rc : Bool) :
    (contentPart s i lc rc).outbound_updates =
      if lc && rc then [] else if rc then []
      else if lc then [mkOutboundUpdate s i] else [] := by
  unfold contentPart
  by_cases h : (lc && rc) = true
  · simp [h]
  · simp only [h, Bool.false_eq_true, if_false]
    by_cases hrc : rc = true
    · simp [hrc]
    · simp only [hrc, Bool.false_eq_true, if_false]
      by_cases hlc : lc = true
      · simp [hlc]
      · simp [hlc]

theorem processIssue_conflicts_eq (env : Env) (specs : List Spec)
    (todos : List Todo) (i : Issue) :
    (processIssue env specs todos i).conflicts =
      if "mem-spec" ∈ i.labels then
        match specs_by_issue_id_get specs i.number with
        | some s =>
          if localChanged env s && remoteChanged env s i then [mkConflict s i]
          else []
        | none => []
      else [] := by
  unfold processIssue
  by_cases hmem : "mem-spec" ∈ i.labels
  · simp only [if_pos hmem]
    cases hs : specs_by_issue_id_get specs i.number with
    | none => rfl
    | some s =>
      show (contentPart _ _ _ _).conflicts ++ [] = _
      rw [contentPart_conflicts]
      simp
  · simp only [if_neg hmem]
    split
    · rfl
    · split
      · rfl
      · rfl

theorem processIssue_inbound_creates_eq (env : Env) (specs : List Spec)
    (todos : List Todo) (i : Issue) :
    (processIssue env specs todos i).inbound_creates =
      if "mem-spec" ∈ i.labels then
        match specs_by_issue_id_get specs i.number with
        | some _ => []
        | none => [mkInboundCreate i]
      else [] := by
  unfold processIssue
  by_cases hmem : "mem-spec" ∈ i.labels
  · simp only [if_pos hmem]
    cases hs : specs_by_issue_id_get specs i.number with
    | none => rfl
    | some s =>
      show (contentPart _ _ _ _).inbound_creates ++ [] = _
      have : ∀ lc rc, (contentPart s i lc rc).inbound_creates = [] := by
        intro lc rc
        unfold contentPart
        split
        · rfl
        · split
          · rfl
          · split
            · rfl
            · rfl
      rw [this]
      rfl
  · simp only [if_neg hmem]
    split
    · rfl
    · split
      · rfl
      · rfl

theorem processIssue_inbound_updates_eq (env : Env) (specs : List Spec)
    (todos : List Todo) (i : Issue) :
    (processIssue env specs todos i).inbound_updates =
      if "mem-spec" ∈ i.labels then
        match specs_by_issue_id_get specs i.number with
        | some s =>
          if localChanged env s && remoteChanged env s i then []
          else if remoteChanged env s i then [mkInboundUpdate s i] else []
        | none => []
      else [] := by
  unfold processIssue
  by_cases hmem : "mem-spec" ∈ i.labels
  · simp only [if_pos hmem]
    cases hs : specs_by_issue_id_get specs i.number with
    | none => rfl
    | some s =>
      show (contentPart _ _ _ _).inbound_updates ++ [] = _
      rw [contentPart_inbound_updates]
      simp
  · simp only [if_neg hmem]
    split
    · rfl
    · split
      · rfl
      · rfl

theorem processIssue_outbound_updates_eq (env : Env) (specs : List Spec)
    (todos : List Todo) (i : Issue) :
    (processIssue env specs todos i).outbound_updates =
      if "mem-spec" ∈ i.labels then
        match specs_by_issue_id_get specs i.number with
        | some s =>
          if localChanged env s && remoteChanged env s i then []
          else if remoteChanged env s i then []
          else if localChanged env s then [mkOutboundUpdate s i] else []
        | none => []
      else [] := by
  unfold processIssue
  by_cases hmem : "mem-spec" ∈ i.labels
  · simp only [if_pos hmem]
    cases hs : specs_by_issue_id_get specs i.number with
    | none => rfl
    | some s =>
      show (contentPart _ _ _ _).outbound_updates ++ [] = _
      rw [contentPart_outbound_updates]
      simp
  · simp only [if_neg hmem]
    split
    · rfl
    · split
      · rfl
      · rfl

theorem processIssue_status_syncs_eq (env : Env) (specs : List Spec)
    (todos : List Todo) (i : Issue) :
    (processIssue env specs todos i).status_syncs =
      if "mem-spec" ∈ i.labels then
        match specs_by_issue_id_get specs i.number with
        | some s =>
          statusActions s i (localChanged env s) (remoteChanged env s i)
        | none => []
      else [] := by
  unfold processIssue
  by_cases hmem : "mem-spec" ∈ i.labels
  · simp only [if_pos hmem]
    cases hs : specs_by_issue_id_get specs i.number with
    | none => rfl
    | some s =>
      show (contentPart _ _ _ _).status_syncs ++
        statusActions s i _ _ = _
      have : ∀ lc rc, (contentPart s i lc rc).status_syncs = [] := by
        intro lc rc
        unfold contentPart
        split
        · rfl
        · split
          · rfl
          · split
            · rfl
            · rfl
      rw [this]
      rfl
  · simp only [if_neg hmem]
    split
    · rfl
    · split
      · rfl
      · rfl

theorem processIssue_todos_eq (env : Env) (specs : List Spec)
    (todos : List Todo) (i : Issue) :
    (processIssue env specs todos i).todos_to_create =
      if "mem-spec" ∈ i.labels then []
      else
        match todos.find? (fun t => t.issue_id == some i.number) with
        | some _ => []
        | none =>
          match todos.find? (fun t => t.slug == slugify_sync_str i.title) with
          | some _ => []
          | none =>
            [{ title := i.title, body := i.body.getD "",
               issue_number := i.number, issue_url := i.html_url }] := by
  unfold processIssue
  by_cases hmem : "mem-spec" ∈ i.labels
  · simp only [if_pos hmem]
    cases hs : specs_by_issue_id_get specs i.number with
    | none => rfl
    | some s =>
      show (contentPart _ _ _ _).todos_to_create ++ [] = _
      have : ∀ lc rc, (contentPart s i lc rc).todos_to_create = [] := by
        intro lc rc
        unfold contentPart
        split
        · rfl
        · split
          · rfl
          · split
            · rfl
            · rfl
      rw [this]
      rfl
  · simp only [if_neg hmem]
    split
    · rfl
    · split
      · rfl
      · rfl


/-! ### Inversion lemmas for plan membership -/

theorem and_true_split {a b : Bool} (h : (a && b) = true) :
    a = true ∧ b = true := by
  simpa using h

theorem mem_processIssue_conflicts {env : Env} {specs : List Spec}
    {todos : List Todo} {i : Issue} {a : SyncAction}
    (h : a ∈ (processIssue env specs todos i).conflicts) :
    ∃ s, specs_by_issue_id_get specs i.number = some s ∧
      "mem-spec" ∈ i.labels ∧ localChanged env s = true ∧
      remoteChanged env s i = true ∧ a = mkConflict s i := by
  rw [processIssue_conflicts_eq] at h
  by_cases hmem : "mem-spec" ∈ i.labels
  · rw [if_pos hmem] at h
    cases hs : specs_by_issue_id_get specs i.number with
    | none =>
      rw [hs] at h
      replace h : a ∈ ([] : List SyncAction) := h
      simp at h
    | some s =>
      rw [hs] at h
      replace h : a ∈ (if (localChanged env s && remoteChanged env s i) = true
        then [mkConflict s i] else []) := h
      by_cases hcc : (localChanged env s && remoteChanged env s i) = true
      · rw [if_pos hcc] at h
        simp only [List.mem_singleton] at h
        exact ⟨s, rfl, hmem, (and_true_split hcc).1, (and_true_split hcc).2, h⟩
      · rw [if_neg hcc] at h; simp at h
  · rw [if_neg hmem] at h; simp at h

theorem mem_processIssue_inbound_creates {env : Env} {specs : List Spec}
    {todos : List Todo} {i : Issue} {a : SyncAction}
    (h : a ∈ (processIssue env specs todos i).inbound_creates) :
    specs_by_issue_id_get specs i.number = none ∧
      "mem-spec" ∈ i.labels ∧ a = mkInboundCreate i := by
  rw [processIssue_inbound_creates_eq] at h
  by_cases hmem : "mem-spec" ∈ i.labels
  · rw [if_pos hmem] at h
    cases hs : specs_by_issue_id_get specs i.number with
    | none =>
      rw [hs] at h
      replace h : a ∈ [mkInboundCreate i] := h
      simp only [List.mem_singleton] at h
      exact ⟨rfl, hmem, h⟩
    | some s =>
      rw [hs] at h
      replace h : a ∈ ([] : List SyncAction) := h
      simp at h
  · rw [if_neg hmem] at h; simp at h

theorem mem_processIssue_inbound_updates {env : Env} {specs : List Spec}
    {todos : List Todo} {i : Issue} {a : SyncAction}
    (h : a ∈ (processIssue env specs todos i).inbound_updates) :
    ∃ s, specs_by_issue_id_get specs i.number = some s ∧
      "mem-spec" ∈ i.labels ∧
      (localChanged env s && remoteChanged env s i) = false ∧
      remoteChanged env s i = true ∧ a = mkInboundUpdate s i := by
  rw [processIssue_inbound_updates_eq] at h
  by_cases hmem : "mem-spec" ∈ i.labels
  · rw [if_pos hmem] at h
    cases hs : specs_by_issue_id_get specs i.number with
    | none =>
      rw [hs] at h
      replace h : a ∈ ([] : List SyncAction) := h
      simp at h
    | some s =>
      rw [hs] at h
      replace h : a ∈ (if (localChanged env s && remoteChanged env s i) = true
        then [] else if remoteChanged env s i = true
        then [mkInboundUpdate s i] else []) := h
      by_cases hcc : (localChanged env s && remoteChanged env s i) = true
      · rw [if_pos hcc] at h; simp at h
      · rw [if_neg hcc] at h
        by_cases hrc : remoteChanged env s i = true
        · rw [if_pos hrc] at h
          simp only [List.mem_singleton] at h
          exact ⟨s, rfl, hmem, by simpa using hcc, hrc, h⟩
        · rw [if_neg hrc] at h; simp at h
  · rw [if_neg hmem] at h; simp at h

theorem mem_processIssue_outbound_updates {env : Env} {specs : List Spec}
    {todos : List Todo} {i : Issue} {a : SyncAction}
    (h : a ∈ (processIssue env specs todos i).outbound_updates) :
    ∃ s, specs_by_issue_id_get specs i.number = some s ∧
      "mem-spec" ∈ i.labels ∧ remoteChanged env s i = false ∧
      localChanged env s = true ∧ a = mkOutboundUpdate s i := by
  rw [processIssue_outbound_updates_eq] at h
  by_cases hmem : "mem-spec" ∈ i.labels
  · rw [if_pos hmem] at h
    cases hs : specs_by_issue_id_get specs i.number with
    | none =>
      rw [hs] at h
      replace h : a ∈ ([] : List SyncAction) := h
      simp at h
    | some s =>
      rw [hs] at h
      replace h : a ∈ (if (localChanged env s && remoteChanged env s i) = true
        then [] else if remoteChanged env s i = true then []
        else if localChanged env s = true
        then [mkOutboundUpdate s i] else []) := h
      by_cases hcc : (localChanged env s && remoteChanged env s i) = true
      · rw [if_pos hcc] at h; simp at h
      · rw [if_neg hcc] at h
        by_cases hrc : remoteChanged env s i = true
        · rw [if_pos hrc] at h; simp at h
        · rw [if_neg hrc] at h
          by_cases hlc : localChanged env s = true
          · rw [if_pos hlc] at h
            simp only [List.mem_singleton] at h
            exact ⟨s, rfl, hmem, by simpa using hrc, hlc, h⟩
          · rw [if_neg hlc] at h; simp at h
  · rw [if_neg hmem] at h; simp at h

theorem mem_statusActions {s : Spec} {i : Issue} {lc rc : Bool}
    {a : SyncAction} (h : a ∈ statusActions s i lc rc) :
    (lc && rc) = false ∧
    ((optStrTruthy s.status = true ∧
        (s.status == get_status_from_labels i.labels) = false ∧
        a = mkStatusOutbound s i (s.status.getD "")) ∨
     (optStrTruthy (get_status_from_labels i.labels) = true ∧
        optStrTruthy s.status = false ∧
        a = mkStatusInbound s i ((get_status_from_labels i.labels).getD ""))) := by
  unfold statusActions at h
  by_cases hcc : (lc && rc) = false
  · rw [if_pos (by simp [hcc])] at h
    dsimp only at h
    refine ⟨hcc, ?_⟩
    by_cases h1 : (optStrTruthy s.status &&
        !(s.status == get_status_from_labels i.labels)) = true
    · rw [if_pos h1] at h
      simp only [List.mem_singleton] at h
      obtain ⟨ha, hb⟩ := and_true_split h1
      exact Or.inl ⟨ha, by simpa using hb, h⟩
    · rw [if_neg h1] at h
      by_cases h2 : (optStrTruthy (get_status_from_labels i.labels) &&
          !(optStrTruthy s.status)) = true
      · rw [if_pos h2] at h
        simp only [List.mem_singleton] at h
        obtain ⟨ha, hb⟩ := and_true_split h2
        exact Or.inr ⟨ha, by simpa using hb, h⟩
      · rw [if_neg h2] at h; simp at h
  · rw [if_neg (by simpa using hcc)] at h
    simp at h

theorem mem_processIssue_status_syncs {env : Env} {specs : List Spec}
    {todos : List Todo} {i : Issue} {a : SyncAction}
    (h : a ∈ (processIssue env specs todos i).status_syncs) :
    ∃ s, specs_by_issue_id_get specs i.number = some s ∧
      "mem-spec" ∈ i.labels ∧
      a ∈ statusActions s i (localChanged env s) (remoteChanged env s i) := by
  rw [processIssue_status_syncs_eq] at h
  by_cases hmem : "mem-spec" ∈ i.labels
  · rw [if_pos hmem] at h
    cases hs : specs_by_issue_id_get specs i.number with
    | none =>
      rw [hs] at h
      replace h : a ∈ ([] : List SyncAction) := h
      simp at h
    | some s =>
      rw [hs] at h
      replace h : a ∈ statusActions s i (localChanged env s)
        (remoteChanged env s i) := h
      exact ⟨s, rfl, hmem, h⟩
  · rw [if_neg hmem] at h; simp at h

/-- Distinct issue numbers identify issues uniquely. -/
theorem eq_of_nodup_numbers {issues : List Issue}
    (hnd : (issues.map Issue.number).Nodup) :
    ∀ {i j : Issue}, i ∈ issues → j ∈ issues → i.number = j.number → i = j := by
  induction issues with
  | nil => intro i j hi; simp at hi
  | cons k ks ih =>
    intro i j hi hj heq
    simp only [List.map_cons, List.nodup_cons] at hnd
    obtain ⟨hknot, hnd2⟩ := hnd
    rcases List.mem_cons.1 hi with hi1 | hi1 <;> rcases List.mem_cons.1 hj with hj1 | hj1
    · exact hi1.trans hj1.symm
    · subst hi1
      exact absurd (heq ▸ List.mem_map_of_mem Issue.number hj1) hknot
    · subst hj1
      exact absurd (heq ▸ List.mem_map_of_mem Issue.number hi1) hknot
    · exact ih hnd2 hi1 hj1 heq


theorem specs_by_issue_id_get_none {specs : List Spec} {n : Nat}
    (h : ∀ s ∈ specs, s.issue_id ≠ some n) :
    specs_by_issue_id_get specs n = none := by
  unfold specs_by_issue_id_get
  rw [List.filter_eq_nil_iff.2 ?_]
  · rfl
  · intro s hs
    simp only [Bool.and_eq_true, beq_iff_eq, not_and]
    intro _
    exact h s hs

/-- C1: build_sync_plan classifies each item by issue id and content hash.
Among the issues handed to the planner (the sync command fetches the open
issues of the repository), an issue labelled mem-spec whose number matches
no local spec issue_id yields an inbound create; a matched pair where both
the current local and remote body hashes differ from the stored hashes
yields a conflict; only the remote hash differing yields an inbound
update; only the local hash differing yields an outbound update; and every
local spec whose issue_id is None yields an outbound create. -/
theorem build_sync_plan_classification (env : Env) (specs : List Spec)
    (todos : List Todo) (issues : List Issue) :
    (∀ i ∈ issues, "mem-spec" ∈ i.labels →
      (∀ s ∈ specs, s.issue_id ≠ some i.number) →
      mkInboundCreate i ∈
        (build_sync_plan env specs todos issues).inbound_creates) ∧
    (∀ i ∈ issues, ∀ s, "mem-spec" ∈ i.labels →
      specs_by_issue_id_get specs i.number = some s →
      localChanged env s = true → remoteChanged env s i = true →
      mkConflict s i ∈ (build_sync_plan env specs todos issues).conflicts) ∧
    (∀ i ∈ issues, ∀ s, "mem-spec" ∈ i.labels →
      specs_by_issue_id_get specs i.number = some s →
      localChanged env s = false → remoteChanged env s i = true →
      mkInboundUpdate s i ∈
        (build_sync_plan env specs todos issues).inbound_updates) ∧
    (∀ i ∈ issues, ∀ s, "mem-spec" ∈ i.labels →
      specs_by_issue_id_get specs i.number = some s →
      localChanged env s = true → remoteChanged env s i = false →
      mkOutboundUpdate s i ∈
        (build_sync_plan env specs todos issues).outbound_updates) ∧
    (∀ s ∈ specs, s.issue_id = none →
      mkOutboundCreate s ∈
        (build_sync_plan env specs todos issues).outbound_creates) := by
  refine ⟨?_, ?_, ?_, ?_, ?_⟩
  · intro i hi hmem hno
    rw [build_inbound_creates_eq]
    refine List.mem_flatMap.2 ⟨i, hi, ?_⟩
    rw [processIssue_inbound_creates_eq, if_pos hmem,
      specs_by_issue_id_get_none hno]
    simp
  · intro i hi s hmem hs hlc hrc
    rw [build_conflicts_eq]
    refine List.mem_flatMap.2 ⟨i, hi, ?_⟩
    rw [processIssue_conflicts_eq, if_pos hmem, hs]
    simp [hlc, hrc]
  · intro i hi s hmem hs hlc hrc
    rw [build_inbound_updates_eq]
    refine List.mem_flatMap.2 ⟨i, hi, ?_⟩
    rw [processIssue_inbound_updates_eq, if_pos hmem, hs]
    simp [hlc, hrc]
  · intro i hi s hmem hs hlc hrc
    rw [build_outbound_updates_eq]
    refine List.mem_flatMap.2 ⟨i, hi, ?_⟩
    rw [processIssue_outbound_updates_eq, if_pos hmem, hs]
    simp [hlc, hrc]
  · intro s hs hid
    rw [build_outbound_creates_eq]
    exact List.mem_map_of_mem _ (List.mem_filter.2 ⟨hs, by simp [hid]⟩)

/-- Closed witness for C1: a mem-spec issue with no matching local spec
yields an inbound create and a spec without issue_id an outbound
create. -/
theorem build_sync_plan_classification_witness :
    ("mem-spec" ∈ (Issue.mk 1 "[Spec]: A" none ["mem-spec"] "" "open" none []).labels) ∧
    mkInboundCreate (Issue.mk 1 "[Spec]: A" none ["mem-spec"] "" "open" none []) ∈
      (build_sync_plan (Env.mk (fun s => s) (fun _ => false) "" "" (fun _ => ""))
        [Spec.mk "b" "B" none none none none none none none ""] []
        [Issue.mk 1 "[Spec]: A" none ["mem-spec"] "" "open" none []]).inbound_creates ∧
    mkOutboundCreate (Spec.mk "b" "B" none none none none none none none "") ∈
      (build_sync_plan (Env.mk (fun s => s) (fun _ => false) "" "" (fun _ => ""))
        [Spec.mk "b" "B" none none none none none none none ""] []
        [Issue.mk 1 "[Spec]: A" none ["mem-spec"] "" "open" none []]).outbound_creates := by
  refine ⟨by decide, ?_, ?_⟩
  · exact (build_sync_plan_classification
      (Env.mk (fun s => s) (fun _ => false) "" "" (fun _ => ""))
      [Spec.mk "b" "B" none none none none none none none ""] []
      [Issue.mk 1 "[Spec]: A" none ["mem-spec"] "" "open" none []]).1
      _ (by decide) (by decide) (by decide)
  · exact (build_sync_plan_classification
      (Env.mk (fun s => s) (fun _ => false) "" "" (fun _ => ""))
      [Spec.mk "b" "B" none none none none none none none ""] []
      [Issue.mk 1 "[Spec]: A" none ["mem-spec"] "" "open" none []]).2.2.2.2
      _ (by decide) (by decide)


theorem get_status_from_labels_truthy {labels : List String} {st : String}
    (h : get_status_from_labels labels = some st) :
    optStrTruthy (some st) = true := by
  unfold get_status_from_labels at h
  cases hf : labels.find? (fun l => (labelToStatus l).isSome) with
  | none => rw [hf] at h; exact Option.noConfusion h
  | some l =>
    rw [hf] at h
    replace h : labelToStatus l = some st := h
    unfold labelToStatus at h
    cases hp : STATUS_LABELS.find? (fun p => p.2 == l) with
    | none => rw [hp] at h; exact Option.noConfusion h
    | some p =>
      rw [hp] at h
      replace h : some p.1 = some st := h
      have hmem := List.mem_of_find?_eq_some hp
      have hall : ∀ q ∈ STATUS_LABELS, optStrTruthy (some q.1) = true := by decide
      exact Option.some.inj h ▸ hall p hmem

/-- C4: status is synchronized bidirectionally via labels.  For a matched
spec-issue pair without a content conflict: a truthy local status that
differs from the label-derived status yields an outbound status sync
(local wins); a label-derived status with no truthy local status yields an
inbound status sync; otherwise the plan holds no status action for that
pair. -/
theorem status_sync_classification (env : Env) (specs : List Spec)
    (todos : List Todo) (issues : List Issue) :
    (∀ i ∈ issues, ∀ s st, "mem-spec" ∈ i.labels →
      specs_by_issue_id_get specs i.number = some s →
      (localChanged env s && remoteChanged env s i) = false →
      s.status = some st → st ≠ "" →
      some st ≠ get_status_from_labels i.labels →
      mkStatusOutbound s i st ∈
        (build_sync_plan env specs todos issues).status_syncs) ∧
    (∀ i ∈ issues, ∀ s st, "mem-spec" ∈ i.labels →
      specs_by_issue_id_get specs i.number = some s →
      (localChanged env s && remoteChanged env s i) = false →
      get_status_from_labels i.labels = some st →
      optStrTruthy s.status = false →
      mkStatusInbound s i st ∈
        (build_sync_plan env specs todos issues).status_syncs) ∧
    ((issues.map Issue.number).Nodup →
     ∀ i ∈ issues, ∀ s, "mem-spec" ∈ i.labels →
      specs_by_issue_id_get specs i.number = some s →
      ¬(optStrTruthy s.status = true ∧
          s.status ≠ get_status_from_labels i.labels) →
      ¬(optStrTruthy (get_status_from_labels i.labels) = true ∧
          optStrTruthy s.status = false) →
      ∀ a ∈ (build_sync_plan env specs todos issues).status_syncs,
        a.issue_number ≠ some i.number) := by
  refine ⟨?_, ?_, ?_⟩
  · intro i hi s st hmem hs hcc hst hne hdiff
    rw [build_status_syncs_eq]
    refine List.mem_flatMap.2 ⟨i, hi, ?_⟩
    rw [processIssue_status_syncs_eq, if_pos hmem, hs]
    show mkStatusOutbound s i st ∈ statusActions s i _ _
    unfold statusActions
    rw [if_pos (by simp [hcc])]
    dsimp only
    rw [if_pos ?_]
    · simp [hst]
    · rw [hst]
      simp only [optStrTruthy, Bool.and_eq_true, Bool.not_eq_eq_eq_not,
        Bool.not_true, beq_eq_false_iff_ne, ne_eq]
      exact ⟨by simpa using hne, by simpa using hdiff⟩
  · intro i hi s st hmem hs hcc hgs hlt
    rw [build_status_syncs_eq]
    refine List.mem_flatMap.2 ⟨i, hi, ?_⟩
    rw [processIssue_status_syncs_eq, if_pos hmem, hs]
    show mkStatusInbound s i st ∈ statusActions s i _ _
    unfold statusActions
    rw [if_pos (by simp [hcc])]
    dsimp only
    rw [if_neg ?_, if_pos ?_]
    · simp [hgs]
    · rw [hgs]
      simp [get_status_from_labels_truthy hgs, hlt]
    · simp only [Bool.and_eq_true, not_and, hlt]
      intro hcon
      exact absurd hcon (by simp)
  · intro hnd i hi s hmem hs hnotout hnotin a ha hnum
    rw [build_status_syncs_eq] at ha
    obtain ⟨j, hj, haj⟩ := List.mem_flatMap.1 ha
    obtain ⟨s2, hs2, _, hsa⟩ := mem_processIssue_status_syncs haj
    obtain ⟨_, hcase⟩ := mem_statusActions hsa
    have hjnum : a.issue_number = some j.number := by
      rcases hcase with ⟨_, _, haeq⟩ | ⟨_, _, haeq⟩ <;>
        simp [haeq, mkStatusOutbound, mkStatusInbound]
    have hij : j = i := by
      refine eq_of_nodup_numbers hnd hj hi ?_
      have : some j.number = some i.number := hjnum ▸ hnum
      exact Option.some.inj this
    subst hij
    have hss : s2 = s := Option.some.inj (hs2.symm.trans hs)
    subst hss
    rcases hcase with ⟨ht, hb, _⟩ | ⟨ht, hb, _⟩
    · exact hnotout ⟨ht, by simpa using hb⟩
    · exact hnotin ⟨ht, hb⟩

/-- Closed witness for C4: a pair whose local status is active while the
issue carries the todo status label gets an outbound status sync. -/
theorem status_sync_classification_witness :
    mkStatusOutbound
      (Spec.mk "a" "A" (some "active") (some 1) none none none
        (some "x") (some "y") "x")
      (Issue.mk 1 "[Spec]: A" (some "y") ["mem-spec", "mem-status:todo"]
        "" "open" none []) "active" ∈
      (build_sync_plan (Env.mk (fun s => s) (fun _ => false) "" "" (fun _ => ""))
        [Spec.mk "a" "A" (some "active") (some 1) none none none
          (some "x") (some "y") "x"] []
        [Issue.mk 1 "[Spec]: A" (some "y") ["mem-spec", "mem-status:todo"]
          "" "open" none []]).status_syncs := by
  exact (status_sync_classification
      (Env.mk (fun s => s) (fun _ => false) "" "" (fun _ => ""))
      [Spec.mk "a" "A" (some "active") (some 1) none none none
        (some "x") (some "y") "x"] []
      [Issue.mk 1 "[Spec]: A" (some "y") ["mem-spec", "mem-status:todo"]
        "" "open" none []]).1
    _ (by decide) _ "active" (by decide) (by decide) (by decide) (by decide)
    (by decide) (by decide)


theorem content_differs_refl (x : String) :
    content_differs (some x) (some x) = false := by
  simp [content_differs]

/-- C5: change detection is by content hashing with absence counting as
change.  content_differs is true exactly when either hash is None or they
differ; consequently a matched pair whose current local and remote hashes
both equal the stored (non-None) hashes contributes no conflict, no
inbound or outbound update, and no inbound create to the plan. -/
theorem content_hash_change_detection (env : Env) (specs : List Spec)
    (todos : List Todo) (issues : List Issue) :
    (∀ h1 h2 : Option String, content_differs h1 h2 = true ↔
      (h1 = none ∨ h2 = none ∨ h1 ≠ h2)) ∧
    ((issues.map Issue.number).Nodup →
     ∀ i ∈ issues, ∀ s, "mem-spec" ∈ i.labels →
      specs_by_issue_id_get specs i.number = some s →
      s.local_content_hash = some (compute_content_hash env s.body) →
      s.remote_content_hash =
        some (compute_content_hash env (i.body.getD "")) →
      (∀ a ∈ (build_sync_plan env specs todos issues).conflicts,
        a.issue_number ≠ some i.number) ∧
      (∀ a ∈ (build_sync_plan env specs todos issues).inbound_updates,
        a.issue_number ≠ some i.number) ∧
      (∀ a ∈ (build_sync_plan env specs todos issues).outbound_updates,
        a.issue_number ≠ some i.number) ∧
      (∀ a ∈ (build_sync_plan env specs todos issues).inbound_creates,
        a.issue_number ≠ some i.number)) := by
  constructor
  · intro h1 h2
    cases h1 with
    | none => simp [content_differs]
    | some a =>
      cases h2 with
      | none => simp [content_differs]
      | some b =>
        simp only [content_differs, bne_iff_ne, ne_eq, Option.some.injEq]
        constructor
        · intro h; exact Or.inr (Or.inr (by simpa using h))
        · rintro (h | h | h)
          · exact Option.noConfusion h
          · exact Option.noConfusion h
          · simpa using h
  · intro hnd i hi s hmem hs hlh hrh
    have hlc : localChanged env s = false := by
      unfold localChanged
      rw [hlh]
      exact content_differs_refl _
    have hrc : remoteChanged env s i = false := by
      unfold remoteChanged
      rw [hrh]
      exact content_differs_refl _
    have number_eq : ∀ {j : Issue} {a : SyncAction},
        a.issue_number = some j.number → j ∈ issues →
        a.issue_number = some i.number → j = i := by
      intro j a hja hj hnum
      exact eq_of_nodup_numbers hnd hj hi
        (Option.some.inj (hja.symm.trans hnum))
    refine ⟨?_, ?_, ?_, ?_⟩
    · intro a ha hnum
      rw [build_conflicts_eq] at ha
      obtain ⟨j, hj, haj⟩ := List.mem_flatMap.1 ha
      obtain ⟨s2, hs2, _, hlc2, hrc2, haeq⟩ := mem_processIssue_conflicts haj
      have hij : j = i :=
        number_eq (by simp [haeq, mkConflict]) hj hnum
      subst hij
      have : s2 = s := Option.some.inj (hs2.symm.trans hs)
      subst this
      rw [hlc] at hlc2
      exact Bool.noConfusion hlc2
    · intro a ha hnum
      rw [build_inbound_updates_eq] at ha
      obtain ⟨j, hj, haj⟩ := List.mem_flatMap.1 ha
      obtain ⟨s2, hs2, _, _, hrc2, haeq⟩ := mem_processIssue_inbound_updates haj
      have hij : j = i :=
        number_eq (by simp [haeq, mkInboundUpdate]) hj hnum
      subst hij
      have : s2 = s := Option.some.inj (hs2.symm.trans hs)
      subst this
      rw [hrc] at hrc2
      exact Bool.noConfusion hrc2
    · intro a ha hnum
      rw [build_outbound_updates_eq] at ha
      obtain ⟨j, hj, haj⟩ := List.mem_flatMap.1 ha
      obtain ⟨s2, hs2, _, _, hlc2, haeq⟩ := mem_processIssue_outbound_updates haj
      have hij : j = i :=
        number_eq (by simp [haeq, mkOutboundUpdate]) hj hnum
      subst hij
      have : s2 = s := Option.some.inj (hs2.symm.trans hs)
      subst this
      rw [hlc] at hlc2
      exact Bool.noConfusion hlc2
    · intro a ha hnum
      rw [build_inbound_creates_eq] at ha
      obtain ⟨j, hj, haj⟩ := List.mem_flatMap.1 ha
      obtain ⟨hs2, _, haeq⟩ := mem_processIssue_inbound_creates haj
      have hij : j = i :=
        number_eq (by simp [haeq, mkInboundCreate]) hj hnum
      subst hij
      rw [hs] at hs2
      exact Option.noConfusion hs2

/-- Closed witness for C5 at a concrete in-sync pair. -/
theorem content_hash_change_detection_witness :
    (content_differs (some "h") none = true ↔
      (some "h" = none ∨ (none : Option String) = none ∨ some "h" ≠ none)) ∧
    (∀ a ∈ (build_sync_plan
        (Env.mk (fun s => s) (fun _ => false) "" "" (fun _ => ""))
        [Spec.mk "a" "A" none (some 1) none none none (some "x") (some "y") "x"]
        []
        [Issue.mk 1 "[Spec]: A" (some "y") ["mem-spec"] "" "open" none []]).conflicts,
      a.issue_number ≠ some 1) := by
  constructor
  · exact (content_hash_change_detection
      (Env.mk (fun s => s) (fun _ => false) "" "" (fun _ => "")) [] [] []).1
      (some "h") none
  · have h := ((content_hash_change_detection
      (Env.mk (fun s => s) (fun _ => false) "" "" (fun _ => ""))
      [Spec.mk "a" "A" none (some 1) none none none (some "x") (some "y") "x"]
      []
      [Issue.mk 1 "[Spec]: A" (some "y") ["mem-spec"] "" "open" none []]).2
      (by decide)
      (Issue.mk 1 "[Spec]: A" (some "y") ["mem-spec"] "" "open" none [])
      (by decide)
      (Spec.mk "a" "A" none (some 1) none none none (some "x") (some "y") "x")
      (by decide) (by decide) (by decide) (by decide)).1
    intro a ha
    exact h a ha


/-! ## Executing the plan (execute_sync_plan, sync.py lines 601-760)

The filesystem and the GitHub remote are an explicit state: active specs
under `.mem/specs/`, completed specs under `.mem/specs/completed/`, todos
under `.mem/todos/`, and the repository issues.  The abandoned directory
is not modelled (no sync path touches it).  Remote operations that PyGithub
would fail with an exception on a missing issue are modelled as no-ops on
the state; in Python such an exception aborts the whole sync, which also
leaves the state facts proved below intact. -/

/-- The mutable world: local `.mem/` data and the GitHub repository. -/
structure World where
  specs : List Spec
  completed : List Spec
  todos : List Todo
  issues : List Issue
  deriving Repr, DecidableEq

/-- Find the spec file across root and completed (the search order of
_find_spec_dir in src/utils/specs.py, lines 195-216). -/
def findSpecAnywhere (w : World) (slug : String) : Option Spec :=
  match w.specs.find? (fun s => s.slug == slug) with
  | some s => some s
  | none => w.completed.find? (fun s => s.slug == slug)

/-- extract_body_from_spec_file(get_spec_file_path(slug)): the body of the
spec file wherever it lives, or the empty string when it does not exist
(sync_utils.py lines 26-65). -/
def extractBody (w : World) (slug : String) : String :=
  match findSpecAnywhere w slug with
  | some s => s.body
  | none => ""

/-- update_spec and friends (specs.py lines 385-401): apply a frontmatter
update to the spec file found first in root, then in completed; a missing
spec raises in Python (modelled as a no-op). -/
def updateSpecMeta (w : World) (slug : String) (f : Spec → Spec) : World :=
  if w.specs.any (fun s => s.slug == slug) then
    { w with specs := w.specs.map (fun s => if s.slug == slug then f s else s) }
  else if w.completed.any (fun s => s.slug == slug) then
    { w with completed :=
        w.completed.map (fun s => if s.slug == slug then f s else s) }
  else w

/-- update_spec_body (specs.py lines 404-414): replace the body of the
spec file, found in the same search order. -/
def updateSpecBody (w : World) (slug : String) (body : String) : World :=
  if w.specs.any (fun s => s.slug == slug) then
    { w with specs :=
        w.specs.map (fun s => if s.slug == slug then { s with body := body } else s) }
  else if w.completed.any (fun s => s.slug == slug) then
    { w with completed :=
        w.completed.map (fun s => if s.slug == slug then { s with body := body } else s) }
  else w

/-- resolve_spec_slug_prefix (specs.py lines 140-177) as used by get_spec:
an exact match anywhere wins; otherwise a nonempty prefix matching exactly
one spec slug resolves to it. -/
def resolveSlug (w : World) (slug : String) : Option String :=
  if slug == "" then none
  else if (w.specs ++ w.completed).any (fun s => s.slug == slug) then some slug
  else
    match (((w.specs ++ w.completed).map (fun s => s.slug)).filter
        (fun sl => slug.isPrefixOf sl)).dedup with
    | [m] => some m
    | _ => none

/-- create_spec (specs.py lines 251-266): slugify the title with the
markdown slugify, fill the frontmatter defaults, use the template as the
body, and write the new file under the root specs directory (a clash with
an existing file raises in Python; modelled as a no-op). -/
def createSpec (env : Env) (w : World) (title : String) : World :=
  let slug := slugify_md_str title
  if (w.specs ++ w.completed).any (fun s => s.slug == slug) then w
  else
    { w with specs := w.specs ++
        [{ slug := slug, title := title, status := some "todo",
           issue_id := none, issue_url := none, pr_url := none,
           assigned_to := none, local_content_hash := none,
           remote_content_hash := none, body := env.template }] }

/-- The next issue number GitHub assigns on creation. -/
def nextIssueNumber (w : World) : Nat :=
  (w.issues.map Issue.number).foldr max 0 + 1

/-- The separator between spec body and comments (sync_utils.py line 10). -/
def SEPARATOR : String :=
  "\n\n===\n***\n===\n\n"

/-- The comment formatting of execute_inbound_create and
execute_inbound_update (sync.py lines 525-530, 578-583). -/
def formatComments (comments : List Comment) : List String :=
  comments.map (fun c =>
    "### Comment by @" ++ c.user ++ " on " ++ c.created_at ++ "\n\n" ++ c.body)

/-- The local body written on an inbound action: the issue body, plus the
separator and the formatted comments when there are any. -/
def buildInboundBody (issue : Issue) : String :=
  let body := issue.body.getD ""
  if issue.comments.isEmpty then body
  else body ++ SEPARATOR ++
    String.intercalate "\n\n" (formatComments issue.comments)

/-- execute_outbound_create (sync.py lines 460-484): read the spec body
from disk, create the GitHub issue titled with the spec-tag prefix and
labelled mem-spec plus the status label, then store the issue info and
both content hashes on the spec. -/
def exec_outbound_create (env : Env) (w : World) (spec : Spec) : World :=
  let body := extractBody w spec.slug
  let labels :=
    match get_status_label_name (spec.status.getD "todo") with
    | some l => ["mem-spec", l]
    | none => ["mem-spec"]
  let n := nextIssueNumber w
  let w1 := { w with issues := w.issues ++
      [{ number := n, title := "[Spec]: " ++ spec.title, body := some body,
         labels := labels, html_url := env.issueUrl n, state := "open",
         assignee := none, comments := [] }] }
  let w2 := updateSpecMeta w1 spec.slug (fun s =>
    { s with issue_id := some n, issue_url := some (env.issueUrl n) })
  updateSpecMeta w2 spec.slug (fun s =>
    { s with local_content_hash := some (env.hash body),
             remote_content_hash := some (env.hash body) })

/-- execute_outbound_update (sync.py lines 487-501): read the spec body
from disk, write it to the linked GitHub issue, and store both hashes. -/
def exec_outbound_update (env : Env) (w : World) (spec : Spec) : World :=
  let body := extractBody w spec.slug
  match spec.issue_id with
  | none => w
  | some n =>
    let w1 := { w with issues := w.issues.map (fun i =>
        if i.number == n then { i with body := some body } else i) }
    updateSpecMeta w1 spec.slug (fun s =>
      { s with local_content_hash := some (env.hash body),
               remote_content_hash := some (env.hash body) })

/-- execute_inbound_create (sync.py lines 504-549): skip when get_spec
already resolves the slugified title; otherwise create the spec, write the
issue body (with comments), store the issue info, the assignee, the
label-derived status, and the hash of the bare issue body on both
sides. -/
def exec_inbound_create (env : Env) (w : World) (issue : Issue) : World :=
  let title := pyCleanSpecTitle issue.title
  let slug := slugify_sync_str title
  match resolveSlug w slug with
  | some _ => w
  | none =>
    let w1 := createSpec env w title
    let w2 := updateSpecBody w1 slug (buildInboundBody issue)
    let w3 := updateSpecMeta w2 slug (fun s =>
      { s with issue_id := some issue.number,
               issue_url := some issue.html_url })
    let w4 :=
      match issue.assignee with
      | some a => updateSpecMeta w3 slug (fun s => { s with assigned_to := some a })
      | none => w3
    let w5 :=
      match get_status_from_labels issue.labels with
      | some st => updateSpecMeta w4 slug (fun s => { s with status := some st })
      | none => w4
    updateSpecMeta w5 slug (fun s =>
      { s with local_content_hash := some (env.hash (issue.body.getD "")),
               remote_content_hash := some (env.hash (issue.body.getD "")) })

/-- execute_inbound_update (sync.py lines 552-603): write the issue body
(with comments) over the local spec, update the assignee, the title when
it changed, and store the hash of the bare issue body on both sides. -/
def exec_inbound_update (env : Env) (w : World) (issue : Issue) (spec : Spec) :
    World :=
  let title := pyCleanSpecTitle issue.title
  let w1 := updateSpecBody w spec.slug (buildInboundBody issue)
  let w2 :=
    match issue.assignee with
    | some a => updateSpecMeta w1 spec.slug (fun s => { s with assigned_to := some a })
    | none => w1
  let w3 :=
    if spec.title == title then w2
    else updateSpecMeta w2 spec.slug (fun s => { s with title := title })
  updateSpecMeta w3 spec.slug (fun s =>
    { s with local_content_hash := some (env.hash (issue.body.getD "")),
             remote_content_hash := some (env.hash (issue.body.getD "")) })

/-- sync_status_labels (github/api.py lines 283-321): on the issue, drop
every mem-status label and add the label of the new status. -/
def syncStatusLabels (w : World) (n : Nat) (newStatus : String) : World :=
  { w with issues := w.issues.map (fun i =>
      if i.number == n then
        { i with labels :=
            (i.labels.filter (fun l => !(l.startsWith "mem-status:"))) ++
            (match get_status_label_name newStatus with
             | some nl => [nl]
             | none => []) }
      else i) }

/-- execute_status_sync (sync.py lines 606-624): inbound writes the
label-derived status to the local spec; outbound rewrites the issue labels
from the truthy local status. -/
def exec_status_sync (w : World) (a : SyncAction) (spec : Spec) (issue : Issue) :
    World :=
  match a.direction with
  | SyncDirection.inbound =>
    match get_status_from_labels issue.labels with
    | some st => updateSpecMeta w spec.slug (fun s => { s with status := some st })
    | none => w
  | _ =>
    match spec.status with
    | some st => if st == "" then w else syncStatusLabels w issue.number st
    | none => w

/-- create_todo (src/utils/todos.py lines 42-67): fails with ValueError
when a todo file with the slugified title already exists, else writes the
new todo file with open status. -/
def create_todo (w : World) (title desc : String) : Option World :=
  let slug := slugify_md_str title
  if w.todos.any (fun t => t.slug == slug) then none
  else some { w with todos := w.todos ++
      [{ slug := slug, title := title, status := some "open",
         issue_id := none, issue_url := "", body := desc }] }

/-- update_todo_issue_info (todos.py lines 117-165): set issue id and url
on the todo file (missing todo raises; modelled as a no-op). -/
def updateTodoIssueInfo (w : World) (slug : String) (n : Nat) (url : String) :
    World :=
  { w with todos := w.todos.map (fun t =>
      if t.slug == slug then { t with issue_id := some n, issue_url := url }
      else t) }

/-- One iteration of the todo loop of execute_sync_plan (sync.py lines
668-685): a ValueError from create_todo is caught and reported, the count
untouched; on success the todo is linked to its issue (when the number is
truthy) and the count incremented. -/
def exec_todo_step (wc : World × Nat) (td : TodoCreate) : World × Nat :=
  match create_todo wc.1 td.title td.body with
  | none => wc
  | some w1 =>
    let slug := slugify_sync_str td.title
    let w2 :=
      if td.issue_number == 0 then w1
      else updateTodoIssueInfo w1 slug td.issue_number td.issue_url
    (w2, wc.2 + 1)

/-- move_spec_to_completed (specs.py lines 503-526): locate the spec (root
first, then completed); update its status to completed in place; then fail
when completed/ already holds the slug, else move the directory.  The
Boolean reports success; on failure the status update that already
happened is kept, exactly as in Python. -/
def moveSpecToCompleted (w : World) (slug : String) : World × Bool :=
  if w.specs.any (fun s => s.slug == slug) then
    let w1 := updateSpecMeta w slug (fun s => { s with status := some "completed" })
    if w1.completed.any (fun s => s.slug == slug) then (w1, false)
    else
      ({ w1 with
          specs := w1.specs.filter (fun s => !(s.slug == slug)),
          completed := w1.completed ++ w1.specs.filter (fun s => s.slug == slug) },
        true)
  else if w.completed.any (fun s => s.slug == slug) then
    (updateSpecMeta w slug (fun s => { s with status := some "completed" }), false)
  else (w, false)

/-- close_issue_with_comment (github/api.py lines 323-345): post the
comment and close the issue; a missing issue raises (caught by the
caller). -/
def closeIssueWithComment (w : World) (n : Nat) (comment : String) :
    World × Bool :=
  if w.issues.any (fun i => i.number == n) then
    ({ w with issues := w.issues.map (fun i =>
        if i.number == n then
          { i with state := "closed",
                   comments := i.comments ++ [⟨"", "", comment⟩] }
        else i) }, true)
  else (w, false)

/-- The closing comment of execute_sync_plan (sync.py lines 712-716). -/
def completionComment (spec : Spec) : String :=
  match spec.pr_url with
  | some u => if u == "" then "Completed and merged." else "Completed via PR: " ++ u
  | none => "Completed and merged."

/-- One iteration of the completion loop of execute_sync_plan (sync.py
lines 702-726): move the spec (exceptions caught and reported, count
untouched); on success count the action, then close the linked issue when
the spec has a truthy issue_id, any failure there also caught. -/
def exec_complete_step (wc : World × Nat) (spec : Spec) : World × Nat :=
  match moveSpecToCompleted wc.1 spec.slug with
  | (w1, false) => (w1, wc.2)
  | (w1, true) =>
    match spec.issue_id with
    | some n =>
      if n == 0 then (w1, wc.2 + 1)
      else ((closeIssueWithComment w1 n (completionComment spec)).1, wc.2 + 1)
    | none => (w1, wc.2 + 1)

/-- execute_sync_plan (sync.py lines 627-760): snapshot the specs and all
the repository issues, then run the buckets in order: outbound creates,
outbound updates, inbound creates, inbound updates, status syncs, todos,
completions.  Lookups that miss (spec slug or issue number absent from the
snapshots) skip the action without counting it.  Returns the final state
and the number of actions executed. -/
def execute_sync_plan (env : Env) (plan : SyncPlan) (w0 : World) :
    World × Nat :=
  let specsSnap := w0.specs
  let issuesSnap := w0.issues
  let lookupSpec := fun (sl : Option String) =>
    match sl with
    | none => none
    | some s => (specsSnap.filter (fun sp => sp.slug == s)).getLast?
  let lookupIssue := fun (n : Nat) =>
    (issuesSnap.filter (fun i => i.number == n)).getLast?
  let step1 := plan.outbound_creates.foldl (fun wc a =>
    match lookupSpec a.spec_slug with
    | some sp => (exec_outbound_create env wc.1 sp, wc.2 + 1)
    | none => wc) (w0, 0)
  let step2 := plan.outbound_updates.foldl (fun wc a =>
    match lookupSpec a.spec_slug with
    | some sp => (exec_outbound_update env wc.1 sp, wc.2 + 1)
    | none => wc) step1
  let step3 := plan.inbound_creates.foldl (fun wc a =>
    match a.issue_number with
    | some n =>
      match lookupIssue n with
      | some i => (exec_inbound_create env wc.1 i, wc.2 + 1)
      | none => wc
    | none => wc) step2
  let step4 := plan.inbound_updates.foldl (fun wc a =>
    match lookupSpec a.spec_slug, a.issue_number with
    | some sp, some n =>
      match lookupIssue n with
      | some i => (exec_inbound_update env wc.1 i sp, wc.2 + 1)
      | none => wc
    | _, _ => wc) step3
  let step5 := plan.status_syncs.foldl (fun wc a =>
    match lookupSpec a.spec_slug, a.issue_number with
    | some sp, some n =>
      match lookupIssue n with
      | some i => (exec_status_sync wc.1 a sp i, wc.2 + 1)
      | none => wc
    | _, _ => wc) step4
  let step6 := plan.todos_to_create.foldl exec_todo_step step5
  plan.specs_to_complete.foldl exec_complete_step step6


theorem foldl_count_add {σ γ : Type} (step : σ × Nat → γ → σ × Nat)
    (hstep : ∀ (w : σ) (c : Nat) (t : γ),
      step (w, c) t = ((step (w, 0) t).1, c + (step (w, 0) t).2)) :
    ∀ (l : List γ) (w : σ) (c : Nat),
      (l.foldl step (w, c)).2 = c + (l.foldl step (w, 0)).2 := by
  intro l
  induction l with
  | nil => intro w c; simp
  | cons t rest ih =>
    intro w c
    rw [List.foldl_cons, List.foldl_cons]
    rw [hstep w c t, hstep w 0 t]
    dsimp only
    simp only [Nat.zero_add]
    rw [ih _ (c + (step (w, 0) t).2), ih _ ((step (w, 0) t).2)]
    omega

theorem exec_todo_step_count (w : World) (c : Nat) (t : TodoCreate) :
    exec_todo_step (w, c) t =
      ((exec_todo_step (w, 0) t).1, c + (exec_todo_step (w, 0) t).2) := by
  unfold exec_todo_step
  cases hc : create_todo w t.title t.body with
  | none => simp
  | some w1 => simp

theorem exec_complete_step_count (w : World) (c : Nat) (s : Spec) :
    exec_complete_step (w, c) s =
      ((exec_complete_step (w, 0) s).1, c + (exec_complete_step (w, 0) s).2) := by
  unfold exec_complete_step
  cases hm : moveSpecToCompleted w s.slug with
  | mk w1 b =>
    cases b with
    | false => simp
    | true =>
      cases hid : s.issue_id with
      | none => simp
      | some n =>
        by_cases hz : (n == 0) = true
        · simp [hz]
        · simp [hz]

/-- C3: partial failures during plan execution are skipped and reported,
not propagated.  The todo and completion loops of execute_sync_plan are
the two folds below; a todo whose slug already exists (create_todo returns
the ValueError case) leaves state and count untouched and the remaining
actions still run; a spec that cannot be moved leaves the count untouched
(keeping the partial status update move_spec_to_completed already wrote)
and the remaining actions still run; a failure to close the linked issue
after a successful move still counts the move and the remaining actions
still run; and the returned count is the number of actions that
succeeded, accumulated from the starting count. -/
theorem execute_sync_plan_skip_and_report (env : Env) :
    (∀ (w0 : World) (tds : List TodoCreate) (ss : List Spec),
      execute_sync_plan env
        { todos_to_create := tds, specs_to_complete := ss } w0 =
        ss.foldl exec_complete_step (tds.foldl exec_todo_step (w0, 0))) ∧
    (∀ (w : World) (title desc : String),
      create_todo w title desc = none ↔
        ∃ t ∈ w.todos, t.slug = slugify_md_str title) ∧
    (∀ (w : World) (c : Nat) (td : TodoCreate) (rest : List TodoCreate),
      create_todo w td.title td.body = none →
      (td :: rest).foldl exec_todo_step (w, c) =
        rest.foldl exec_todo_step (w, c)) ∧
    (∀ (w : World) (c : Nat) (s : Spec) (rest : List Spec),
      (moveSpecToCompleted w s.slug).2 = false →
      (s :: rest).foldl exec_complete_step (w, c) =
        rest.foldl exec_complete_step ((moveSpecToCompleted w s.slug).1, c)) ∧
    (∀ (w : World) (c : Nat) (s : Spec) (n : Nat) (rest : List Spec),
      (moveSpecToCompleted w s.slug).2 = true →
      s.issue_id = some n → (n == 0) = false →
      (∀ i ∈ (moveSpecToCompleted w s.slug).1.issues, i.number ≠ n) →
      (s :: rest).foldl exec_complete_step (w, c) =
        rest.foldl exec_complete_step ((moveSpecToCompleted w s.slug).1, c + 1)) ∧
    (∀ (tds : List TodoCreate) (w : World) (c : Nat),
      (tds.foldl exec_todo_step (w, c)).2 =
        c + (tds.foldl exec_todo_step (w, 0)).2) ∧
    (∀ (ss : List Spec) (w : World) (c : Nat),
      (ss.foldl exec_complete_step (w, c)).2 =
        c + (ss.foldl exec_complete_step (w, 0)).2) := by
  refine ⟨?_, ?_, ?_, ?_, ?_, ?_, ?_⟩
  · intro w0 tds ss
    rfl
  · intro w title desc
    unfold create_todo
    by_cases h : w.todos.any (fun t => t.slug == slugify_md_str title)
    · rw [if_pos h]
      simp only [true_iff]
      obtain ⟨t, ht, heq⟩ := List.any_eq_true.1 h
      exact ⟨t, ht, beq_iff_eq.1 heq⟩
    · rw [if_neg h]
      constructor
      · intro hcon
        exact absurd hcon (by simp)
      · rintro ⟨t, ht, heq⟩
        refine absurd ?_ h
        refine List.any_eq_true.2 ⟨t, ht, ?_⟩
        exact beq_iff_eq.2 heq
  · intro w c td rest h
    rw [List.foldl_cons]
    rw [show exec_todo_step (w, c) td = (w, c) by
      unfold exec_todo_step
      rw [h]]
  · intro w c s rest h
    rw [List.foldl_cons]
    rw [show exec_complete_step (w, c) s =
        ((moveSpecToCompleted w s.slug).1, c) by
      unfold exec_complete_step
      cases hm : moveSpecToCompleted w s.slug with
      | mk w1 b =>
        rw [hm] at h
        simp only at h
        subst h
        rfl]
  · intro w c s n rest hmv hid hz hmiss
    rw [List.foldl_cons]
    rw [show exec_complete_step (w, c) s =
        ((moveSpecToCompleted w s.slug).1, c + 1) by
      unfold exec_complete_step
      cases hm : moveSpecToCompleted w s.slug with
      | mk w1 b =>
        rw [hm] at hmv hmiss
        simp only at hmv hmiss
        subst hmv
        rw [hid]
        simp only [hz, Bool.false_eq_true, if_false]
        rw [show closeIssueWithComment w1 n (completionComment s) = (w1, false) by
          unfold closeIssueWithComment
          rw [if_neg ?_]
          refine fun hcon => ?_
          obtain ⟨i, hi, hieq⟩ := List.any_eq_true.1 hcon
          exact hmiss i hi (beq_iff_eq.1 hieq)]]
  · intro tds w c
    exact foldl_count_add exec_todo_step exec_todo_step_count tds w c
  · intro ss w c
    exact foldl_count_add exec_complete_step exec_complete_step_count ss w c


/-- Closed witness for C3: a todo whose slug already exists is skipped
without stopping the loop or counting the action. -/
theorem execute_sync_plan_skip_and_report_witness :
    create_todo (World.mk [] [] [Todo.mk "a" "a" (some "open") none "" ""] [])
      "a" "body" = none ∧
    ([TodoCreate.mk "a" "body" 5 "url"]).foldl exec_todo_step
        (World.mk [] [] [Todo.mk "a" "a" (some "open") none "" ""] [], 0) =
      ([] : List TodoCreate).foldl exec_todo_step
        (World.mk [] [] [Todo.mk "a" "a" (some "open") none "" ""] [], 0) := by
  refine ⟨by decide, ?_⟩
  exact (execute_sync_plan_skip_and_report
      (Env.mk (fun s => s) (fun _ => false) "" "" (fun _ => ""))).2.2.1
    (World.mk [] [] [Todo.mk "a" "a" (some "open") none "" ""] []) 0
    (TodoCreate.mk "a" "body" 5 "url") [] (by decide)


/-! ### Observations preserved by execution

`bodiesAt w sl` lists the bodies of every spec file with slug `sl`
(root first, then completed); `issueBodiesAt w n` the bodies of the
issues numbered `n`.  The preservation proofs track these through every
action of execute_sync_plan. -/

def bodiesAt (w : World) (sl : String) : List String :=
  ((w.specs ++ w.completed).filter (fun sp => sp.slug == sl)).map Spec.body

def issueBodiesAt (w : World) (n : Nat) : List (Option String) :=
  (w.issues.filter (fun j => j.number == n)).map Issue.body

theorem filter_map_comm {α : Type} (g : α → α) (p : α → Bool)
    (hp : ∀ x, p (g x) = p x) :
    ∀ l : List α, (l.map g).filter p = (l.filter p).map g := by
  intro l
  induction l with
  | nil => rfl
  | cons x xs ih =>
    simp only [List.map_cons, List.filter_cons, hp x]
    by_cases hx : p x
    · simp only [hx, if_true, List.map_cons, ih]
    · simp only [hx, Bool.false_eq_true, if_false, ih]

theorem filter_map_fixed {α : Type} (g : α → α) (p : α → Bool)
    (hp : ∀ x, p (g x) = p x) (hfix : ∀ x, p x = true → g x = x) :
    ∀ l : List α, (l.map g).filter p = l.filter p := by
  intro l
  induction l with
  | nil => rfl
  | cons x xs ih =>
    simp only [List.map_cons, List.filter_cons, hp x]
    by_cases hx : p x
    · simp only [hx, if_true, ih, hfix x hx]
    · simp only [hx, Bool.false_eq_true, if_false, ih]

theorem mem_le_foldr_max : ∀ (l : List Nat) (x : Nat), x ∈ l →
    x ≤ l.foldr max 0 := by
  intro l
  induction l with
  | nil => intro x hx; simp at hx
  | cons a as ih =>
    intro x hx
    rcases List.mem_cons.1 hx with hx | hx
    · subst hx; exact Nat.le_max_left _ _
    · exact le_trans (ih x hx) (Nat.le_max_right _ _)

theorem foldl_world_preserve {γ : Type} (step : World × Nat → γ → World × Nat)
    (P : World → Prop) :
    ∀ (l : List γ),
      (∀ (wc : World × Nat) (t : γ), t ∈ l → P wc.1 → P (step wc t).1) →
      ∀ wc : World × Nat, P wc.1 → P (l.foldl step wc).1 := by
  intro l
  induction l with
  | nil => intro _ wc h; exact h
  | cons t rest ih =>
    intro hstep wc h
    rw [List.foldl_cons]
    exact ih (fun wc2 u hu => hstep wc2 u (List.mem_cons_of_mem _ hu))
      (step wc t) (hstep wc t (List.mem_cons_self t rest) h)

/-! ### Preservation of bodies by the primitive state operations -/

theorem bodiesAt_updateSpecMeta (w : World) (sl2 : String) (f : Spec → Spec)
    (hf : ∀ sp, (f sp).slug = sp.slug ∧ (f sp).body = sp.body)
    (sl : String) : bodiesAt (updateSpecMeta w sl2 f) sl = bodiesAt w sl := by
  have hp : ∀ sp : Spec,
      ((if sp.slug == sl2 then f sp else sp).slug == sl) = (sp.slug == sl) := by
    intro sp
    by_cases h : sp.slug == sl2
    · simp [h, (hf sp).1]
    · simp [h]
  have hb : ∀ sp : Spec,
      (if sp.slug == sl2 then f sp else sp).body = sp.body := by
    intro sp
    by_cases h : sp.slug == sl2
    · simp [h, (hf sp).2]
    · simp [h]
  unfold updateSpecMeta bodiesAt
  by_cases h1 : w.specs.any (fun s => s.slug == sl2)
  · simp only [h1, if_true]
    rw [List.filter_append, List.filter_append,
      filter_map_comm _ _ hp, List.map_append, List.map_append, List.map_map]
    congr 1
    exact List.map_congr_left (fun sp hsp => hb sp)
  · simp only [h1, Bool.false_eq_true, if_false]
    by_cases h2 : w.completed.any (fun s => s.slug == sl2)
    · simp only [h2, if_true]
      rw [List.filter_append, List.filter_append,
        filter_map_comm _ _ hp, List.map_append, List.map_append, List.map_map]
      congr 1
      exact List.map_congr_left (fun sp hsp => hb sp)
    · simp only [h2, Bool.false_eq_true, if_false]

theorem bodiesAt_updateSpecBody (w : World) (sl2 : String) (b : String)
    (sl : String) (hne : sl2 ≠ sl) :
    bodiesAt (updateSpecBody w sl2 b) sl = bodiesAt w sl := by
  have hp : ∀ sp : Spec,
      ((if sp.slug == sl2 then { sp with body := b } else sp).slug == sl) =
        (sp.slug == sl) := by
    intro sp
    by_cases h : sp.slug == sl2
    · simp [h]
    · simp [h]
  have hfix : ∀ sp : Spec, (sp.slug == sl) = true →
      (if sp.slug == sl2 then { sp with body := b } else sp) = sp := by
    intro sp hsp
    rw [if_neg]
    intro hcon
    exact hne ((beq_iff_eq.1 hcon).symm.trans (beq_iff_eq.1 hsp))
  unfold updateSpecBody bodiesAt
  by_cases h1 : w.specs.any (fun s => s.slug == sl2)
  · simp only [h1, if_true]
    rw [List.filter_append, List.filter_append, filter_map_fixed _ _ hp hfix]
  · simp only [h1, Bool.false_eq_true, if_false]
    by_cases h2 : w.completed.any (fun s => s.slug == sl2)
    · simp only [h2, if_true]
      rw [List.filter_append, List.filter_append, filter_map_fixed _ _ hp hfix]
    · simp only [h2, Bool.false_eq_true, if_false]

theorem any_of_bodiesAt_ne_nil {w : World} {sl : String}
    (h : bodiesAt w sl ≠ []) :
    (w.specs ++ w.completed).any (fun sp => sp.slug == sl) = true := by
  unfold bodiesAt at h
  cases hf : (w.specs ++ w.completed).filter (fun sp => sp.slug == sl) with
  | nil => rw [hf] at h; simp at h
  | cons x xs =>
    have hx : x ∈ (w.specs ++ w.completed).filter (fun sp => sp.slug == sl) := by
      rw [hf]; exact List.mem_cons_self x xs
    have hpx := List.of_mem_filter hx
    exact List.any_eq_true.2 ⟨x, List.mem_of_mem_filter hx, hpx⟩

theorem bodiesAt_createSpec (env : Env) (w : World) (title : String)
    {sl : String} (h : bodiesAt w sl ≠ []) :
    bodiesAt (createSpec env w title) sl = bodiesAt w sl := by
  unfold createSpec
  by_cases hg : (w.specs ++ w.completed).any
      (fun s => s.slug == slugify_md_str title)
  · simp only [hg, if_true]
  · simp only [hg, Bool.false_eq_true, if_false]
    have hns : (slugify_md_str title == sl) = false := by
      refine beq_eq_false_iff_ne.2 fun hcon => ?_
      subst hcon
      exact hg (any_of_bodiesAt_ne_nil h)
    unfold bodiesAt
    simp only [List.append_assoc, List.filter_append, List.map_append,
      List.filter_cons, hns, Bool.false_eq_true, if_false, List.filter_nil,
      List.map_nil, List.nil_append]

theorem issueBodiesAt_map (w : World) (g : Issue → Issue)
    (hg : ∀ j, (g j).number = j.number) (n : Nat)
    (hb : ∀ j, j.number = n → (g j).body = j.body) :
    issueBodiesAt { w with issues := w.issues.map g } n = issueBodiesAt w n := by
  unfold issueBodiesAt
  have hp : ∀ j : Issue, ((g j).number == n) = (j.number == n) := by
    intro j; rw [hg j]
  rw [filter_map_comm g (fun j => j.number == n) hp, List.map_map]
  refine List.map_congr_left fun j hj => ?_
  have hpj := List.of_mem_filter hj
  show (g j).body = j.body
  exact hb j (beq_iff_eq.1 hpj)

theorem issueBodiesAt_append_fresh (w : World) (new : Issue) (n : Nat)
    (hne : new.number ≠ n) :
    issueBodiesAt { w with issues := w.issues ++ [new] } n =
      issueBodiesAt w n := by
  unfold issueBodiesAt
  simp only
  rw [List.filter_append]
  simp only [List.filter_cons, List.filter_nil]
  rw [if_neg (by simpa using hne)]
  simp

theorem nextIssueNumber_ne {w : World} {n : Nat}
    (h : issueBodiesAt w n ≠ []) : nextIssueNumber w ≠ n := by
  unfold issueBodiesAt at h
  cases hf : w.issues.filter (fun j => j.number == n) with
  | nil => rw [hf] at h; simp at h
  | cons x xs =>
    have hx : x ∈ w.issues.filter (fun j => j.number == n) := by
      rw [hf]; exact List.mem_cons_self x xs
    have hpx := List.of_mem_filter hx
    have hxn : x.number = n := beq_iff_eq.1 hpx
    have hmem : n ∈ w.issues.map Issue.number :=
      hxn ▸ List.mem_map_of_mem Issue.number (List.mem_of_mem_filter hx)
    have hle := mem_le_foldr_max _ n hmem
    unfold nextIssueNumber
    omega


theorem updateSpecMeta_issues (w : World) (sl : String) (f : Spec → Spec) :
    (updateSpecMeta w sl f).issues = w.issues := by
  unfold updateSpecMeta
  split
  · rfl
  · split
    · rfl
    · rfl

theorem updateSpecBody_issues (w : World) (sl : String) (b : String) :
    (updateSpecBody w sl b).issues = w.issues := by
  unfold updateSpecBody
  split
  · rfl
  · split
    · rfl
    · rfl

theorem createSpec_issues (env : Env) (w : World) (title : String) :
    (createSpec env w title).issues = w.issues := by
  unfold createSpec
  dsimp only
  split
  · rfl
  · rfl

theorem issueBodiesAt_specs_changed (w : World) (sp co : List Spec) (n : Nat) :
    issueBodiesAt { w with specs := sp, completed := co } n =
      issueBodiesAt w n := rfl

theorem issueBodiesAt_congr {w1 w2 : World} (h : w1.issues = w2.issues)
    (n : Nat) : issueBodiesAt w1 n = issueBodiesAt w2 n := by
  unfold issueBodiesAt
  rw [h]

theorem bodiesAt_congr {w1 w2 : World} (h1 : w1.specs = w2.specs)
    (h2 : w1.completed = w2.completed) (sl : String) :
    bodiesAt w1 sl = bodiesAt w2 sl := by
  unfold bodiesAt
  rw [h1, h2]

/-- The two observations of the conflicted pair: exactly one spec file
with the slug, holding the given body, and exactly one issue with the
number, holding the given body. -/
def PairIntact (w : World) (sl : String) (bs : String) (n : Nat)
    (ib : Option String) : Prop :=
  bodiesAt w sl = [bs] ∧ issueBodiesAt w n = [ib]

theorem PairIntact_exec_outbound_create {w : World} {sl bs : String} {n : Nat}
    {ib : Option String} (env : Env) (spec : Spec)
    (h : PairIntact w sl bs n ib) :
    PairIntact (exec_outbound_create env w spec) sl bs n ib := by
  obtain ⟨hb, hi⟩ := h
  unfold exec_outbound_create
  dsimp only
  constructor
  · rw [bodiesAt_updateSpecMeta, bodiesAt_updateSpecMeta]
    exacts [hb, fun sp => ⟨rfl, rfl⟩, fun sp => ⟨rfl, rfl⟩]
  · rw [issueBodiesAt_congr (updateSpecMeta_issues _ _ _),
      issueBodiesAt_congr (updateSpecMeta_issues _ _ _)]
    rw [issueBodiesAt_append_fresh]
    · exact hi
    · exact nextIssueNumber_ne (by rw [hi]; simp)

theorem PairIntact_exec_outbound_update {w : World} {sl bs : String} {n : Nat}
    {ib : Option String} (env : Env) (spec : Spec)
    (hn : spec.issue_id ≠ some n) (h : PairIntact w sl bs n ib) :
    PairIntact (exec_outbound_update env w spec) sl bs n ib := by
  obtain ⟨hb, hi⟩ := h
  unfold exec_outbound_update
  cases hid : spec.issue_id with
  | none => exact ⟨hb, hi⟩
  | some m =>
    have hm : m ≠ n := fun hcon => hn (hid.trans (by rw [hcon]))
    dsimp only
    constructor
    · rw [bodiesAt_updateSpecMeta]
      exacts [hb, fun sp => ⟨rfl, rfl⟩]
    · rw [issueBodiesAt_congr (updateSpecMeta_issues _ _ _)]
      rw [issueBodiesAt_map]
      · exact hi
      · intro j
        by_cases hj : j.number == m
        · simp only [hj, if_true]
        · simp only [hj, Bool.false_eq_true, if_false]
      · intro j hjn
        rw [if_neg]
        simp only [beq_iff_eq]
        rw [hjn]
        exact fun hcon => hm hcon.symm

theorem PairIntact_exec_status_sync {w : World} {sl bs : String} {n : Nat}
    {ib : Option String} (a : SyncAction) (spec : Spec) (issue : Issue)
    (h : PairIntact w sl bs n ib) :
    PairIntact (exec_status_sync w a spec issue) sl bs n ib := by
  obtain ⟨hb, hi⟩ := h
  unfold exec_status_sync
  cases a.direction with
  | inbound =>
    dsimp only
    cases get_status_from_labels issue.labels with
    | some st =>
      exact ⟨by rw [bodiesAt_updateSpecMeta]; exacts [hb, fun sp => ⟨rfl, rfl⟩],
        by rw [issueBodiesAt_congr (updateSpecMeta_issues _ _ _)]; exact hi⟩
    | none => exact ⟨hb, hi⟩
  | outbound =>
    dsimp only
    cases spec.status with
    | none => exact ⟨hb, hi⟩
    | some st =>
      by_cases hst : st == ""
      · simp only [hst, if_true]
        exact ⟨hb, hi⟩
      · simp only [hst, Bool.false_eq_true, if_false]
        unfold syncStatusLabels
        refine ⟨hb, ?_⟩
        rw [issueBodiesAt_map]
        · exact hi
        · intro j
          by_cases hj : j.number == issue.number
          · simp only [hj, if_true]
          · simp only [hj, Bool.false_eq_true, if_false]
        · intro j hjn
          by_cases hj : j.number == issue.number
          · simp only [hj, if_true]
          · simp only [hj, Bool.false_eq_true, if_false]
  | conflict =>
    dsimp only
    cases spec.status with
    | none => exact ⟨hb, hi⟩
    | some st =>
      by_cases hst : st == ""
      · simp only [hst, if_true]
        exact ⟨hb, hi⟩
      · simp only [hst, Bool.false_eq_true, if_false]
        unfold syncStatusLabels
        refine ⟨hb, ?_⟩
        rw [issueBodiesAt_map]
        · exact hi
        · intro j
          by_cases hj : j.number == issue.number
          · simp only [hj, if_true]
          · simp only [hj, Bool.false_eq_true, if_false]
        · intro j hjn
          by_cases hj : j.number == issue.number
          · simp only [hj, if_true]
          · simp only [hj, Bool.false_eq_true, if_false]

theorem exec_todo_step_world (wc : World × Nat) (td : TodoCreate) :
    (exec_todo_step wc td).1.specs = wc.1.specs ∧
    (exec_todo_step wc td).1.completed = wc.1.completed ∧
    (exec_todo_step wc td).1.issues = wc.1.issues := by
  unfold exec_todo_step
  cases hc : create_todo wc.1 td.title td.body with
  | none => exact ⟨rfl, rfl, rfl⟩
  | some w1 =>
    have hw1 : w1.specs = wc.1.specs ∧ w1.completed = wc.1.completed ∧
        w1.issues = wc.1.issues := by
      unfold create_todo at hc
      by_cases hx : wc.1.todos.any (fun t => t.slug == slugify_md_str td.title)
      · rw [if_pos hx] at hc; exact Option.noConfusion hc
      · rw [if_neg hx] at hc
        have := Option.some.inj hc
        rw [← this]
        exact ⟨rfl, rfl, rfl⟩
    by_cases hz : (td.issue_number == 0) = true
    · simp only [hz, if_true]
      exact hw1
    · simp only [hz, Bool.false_eq_true, if_false]
      unfold updateTodoIssueInfo
      exact ⟨hw1.1, hw1.2.1, hw1.2.2⟩

theorem PairIntact_exec_todo_step {wc : World × Nat} {sl bs : String} {n : Nat}
    {ib : Option String} (td : TodoCreate) (h : PairIntact wc.1 sl bs n ib) :
    PairIntact (exec_todo_step wc td).1 sl bs n ib := by
  obtain ⟨h1, h2, h3⟩ := exec_todo_step_world wc td
  exact ⟨(bodiesAt_congr h1 h2 sl).trans h.1,
    (issueBodiesAt_congr h3 n).trans h.2⟩


theorem mem_of_getLastOpt {α : Type} {l : List α} {a : α}
    (h : l.getLast? = some a) : a ∈ l := by
  rw [List.getLast?_eq_some_iff] at h
  obtain ⟨l2, rfl⟩ := h
  simp

theorem any_map_pred {α : Type} (l : List α) (g : α → α) (p : α → Bool)
    (hp : ∀ x, p (g x) = p x) : (l.map g).any p = l.any p := by
  induction l with
  | nil => rfl
  | cons x xs ih => simp only [List.map_cons, List.any_cons, hp, ih]

/-- A frontmatter update that keeps slug and body keeps both
observations. -/
theorem PairIntact_updateSpecMeta {w : World} {sl bs : String} {n : Nat}
    {ib : Option String} (sl2 : String) (f : Spec → Spec)
    (hf : ∀ sp, (f sp).slug = sp.slug ∧ (f sp).body = sp.body)
    (h : PairIntact w sl bs n ib) :
    PairIntact (updateSpecMeta w sl2 f) sl bs n ib :=
  ⟨(bodiesAt_updateSpecMeta w sl2 f hf sl).trans h.1,
   (issueBodiesAt_congr (updateSpecMeta_issues w sl2 f) n).trans h.2⟩

/-- A body write at a different slug keeps both observations. -/
theorem PairIntact_updateSpecBody {w : World} {sl bs : String} {n : Nat}
    {ib : Option String} (sl2 b : String) (hne : sl2 ≠ sl)
    (h : PairIntact w sl bs n ib) :
    PairIntact (updateSpecBody w sl2 b) sl bs n ib :=
  ⟨(bodiesAt_updateSpecBody w sl2 b sl hne).trans h.1,
   (issueBodiesAt_congr (updateSpecBody_issues w sl2 b) n).trans h.2⟩

/-- Creating a spec keeps both observations when the watched slug is
already present. -/
theorem PairIntact_createSpec {w : World} {sl bs : String} {n : Nat}
    {ib : Option String} (env : Env) (title : String)
    (h : PairIntact w sl bs n ib) :
    PairIntact (createSpec env w title) sl bs n ib := by
  refine ⟨?_, (issueBodiesAt_congr (createSpec_issues env w title) n).trans h.2⟩
  rw [bodiesAt_createSpec env w title
    (show bodiesAt w sl ≠ [] by rw [h.1]; simp)]
  exact h.1

/-- execute_inbound_create skips a slug that already resolves, so it never
touches the watched pair: the spec it might create has a different slug. -/
theorem PairIntact_exec_inbound_create {w : World} {sl bs : String} {n : Nat}
    {ib : Option String} (env : Env) (issue : Issue) (hsl : sl ≠ "")
    (h : PairIntact w sl bs n ib) :
    PairIntact (exec_inbound_create env w issue) sl bs n ib := by
  obtain ⟨hb, hi⟩ := h
  unfold exec_inbound_create
  dsimp only
  cases hres : resolveSlug w (slugify_sync_str (pyCleanSpecTitle issue.title)) with
  | some m => exact ⟨hb, hi⟩
  | none =>
    have hbne : bodiesAt w sl ≠ [] := by rw [hb]; simp
    have hany := any_of_bodiesAt_ne_nil hbne
    have hne2 : slugify_sync_str (pyCleanSpecTitle issue.title) ≠ sl := by
      intro heq
      rw [heq] at hres
      unfold resolveSlug at hres
      rw [if_neg (by simpa using hsl), if_pos hany] at hres
      exact Option.noConfusion hres
    have h2 : PairIntact (updateSpecBody
        (createSpec env w (pyCleanSpecTitle issue.title))
        (slugify_sync_str (pyCleanSpecTitle issue.title))
        (buildInboundBody issue)) sl bs n ib :=
      PairIntact_updateSpecBody _ _ hne2
        (PairIntact_createSpec env _ ⟨hb, hi⟩)
    apply PairIntact_updateSpecMeta
    · exact fun sp => ⟨rfl, rfl⟩
    · cases get_status_from_labels issue.labels with
      | some st =>
        apply PairIntact_updateSpecMeta
        · exact fun sp => ⟨rfl, rfl⟩
        · cases issue.assignee with
          | some a =>
            apply PairIntact_updateSpecMeta
            · exact fun sp => ⟨rfl, rfl⟩
            · apply PairIntact_updateSpecMeta
              · exact fun sp => ⟨rfl, rfl⟩
              · exact h2
          | none =>
            apply PairIntact_updateSpecMeta
            · exact fun sp => ⟨rfl, rfl⟩
            · exact h2
      | none =>
        cases issue.assignee with
        | some a =>
          apply PairIntact_updateSpecMeta
          · exact fun sp => ⟨rfl, rfl⟩
          · apply PairIntact_updateSpecMeta
            · exact fun sp => ⟨rfl, rfl⟩
            · exact h2
        | none =>
          apply PairIntact_updateSpecMeta
          · exact fun sp => ⟨rfl, rfl⟩
          · exact h2

/-- execute_inbound_update on another spec keeps both observations. -/
theorem PairIntact_exec_inbound_update {w : World} {sl bs : String} {n : Nat}
    {ib : Option String} (env : Env) (issue : Issue) (spec : Spec)
    (hne : spec.slug ≠ sl) (h : PairIntact w sl bs n ib) :
    PairIntact (exec_inbound_update env w issue spec) sl bs n ib := by
  obtain ⟨hb, hi⟩ := h
  unfold exec_inbound_update
  dsimp only
  have h1 : PairIntact (updateSpecBody w spec.slug (buildInboundBody issue))
      sl bs n ib :=
    PairIntact_updateSpecBody _ _ hne ⟨hb, hi⟩
  apply PairIntact_updateSpecMeta
  · exact fun sp => ⟨rfl, rfl⟩
  · by_cases ht : spec.title == pyCleanSpecTitle issue.title
    · simp only [ht, if_true]
      cases issue.assignee with
      | some a =>
        apply PairIntact_updateSpecMeta
        · exact fun sp => ⟨rfl, rfl⟩
        · exact h1
      | none => exact h1
    · simp only [ht, Bool.false_eq_true, if_false]
      apply PairIntact_updateSpecMeta
      · exact fun sp => ⟨rfl, rfl⟩
      · cases issue.assignee with
        | some a =>
          apply PairIntact_updateSpecMeta
          · exact fun sp => ⟨rfl, rfl⟩
          · exact h1
        | none => exact h1

theorem filter_not_slug_nil (l : List Spec) (sl : String) :
    (l.filter (fun s => !(s.slug == sl))).filter (fun s => s.slug == sl) = [] := by
  rw [List.filter_eq_nil_iff]
  intro a ha
  have hp := List.of_mem_filter ha
  simp only [Bool.not_eq_true'] at hp
  simp [hp]

theorem filter_slug_self (l : List Spec) (sl : String) :
    (l.filter (fun s => s.slug == sl)).filter (fun s => s.slug == sl) =
      l.filter (fun s => s.slug == sl) := by
  rw [List.filter_eq_self]
  intro a ha
  have hx := List.of_mem_filter ha
  exact hx

theorem filter_slug_of_ne (l : List Spec) (sg sl : String) (hne : sg ≠ sl) :
    (l.filter (fun s => !(s.slug == sg))).filter (fun s => s.slug == sl) =
      l.filter (fun s => s.slug == sl) := by
  rw [List.filter_filter]
  apply List.filter_congr
  intro x _
  by_cases hx : x.slug == sl
  · have hx2 : x.slug = sl := by simpa using hx
    have hg : (x.slug == sg) = false := by
      simp only [beq_eq_false_iff_ne, ne_eq, hx2]
      exact fun hcon => hne hcon.symm
    simp [hx, hg]
  · simp [hx]

theorem filter_slug_of_ne2 (l : List Spec) (sg sl : String) (hne : sg ≠ sl) :
    (l.filter (fun s => s.slug == sg)).filter (fun s => s.slug == sl) = [] := by
  rw [List.filter_eq_nil_iff]
  intro a ha
  have h1 := List.of_mem_filter ha
  have h2 : a.slug = sg := by simpa using h1
  simp only [h2, beq_iff_eq]
  exact hne

/-- Moving any spec to completed keeps both observations: the watched
slug holds exactly one file, which either stays put or is itself
relocated with its body. -/
theorem PairIntact_moveSpecToCompleted {w : World} {sl bs : String} {n : Nat}
    {ib : Option String} (sg : String) (h : PairIntact w sl bs n ib) :
    PairIntact (moveSpecToCompleted w sg).1 sl bs n ib := by
  obtain ⟨hb, hi⟩ := h
  unfold moveSpecToCompleted
  by_cases h1 : w.specs.any (fun s => s.slug == sg)
  · simp only [h1, if_true]
    have hw1 : PairIntact (updateSpecMeta w sg
        (fun s => { s with status := some "completed" })) sl bs n ib := by
      apply PairIntact_updateSpecMeta
      · exact fun sp => ⟨rfl, rfl⟩
      · exact ⟨hb, hi⟩
    by_cases h2 : (updateSpecMeta w sg
        (fun s => { s with status := some "completed" })).completed.any
        (fun s => s.slug == sg)
    · simp only [h2, if_true]
      exact hw1
    · simp only [h2, Bool.false_eq_true, if_false]
      obtain ⟨hb1, hi1⟩ := hw1
      refine ⟨?_, hi1⟩
      unfold bodiesAt at hb1 ⊢
      simp only [List.filter_append, List.map_append] at hb1 ⊢
      by_cases hgs : sg = sl
      · subst hgs
        have hcompnil : (updateSpecMeta w sg
            (fun s => { s with status := some "completed" })).completed.filter
            (fun s => s.slug == sg) = [] := by
          rw [List.filter_eq_nil_iff]
          intro a ha hcon
          exact h2 (List.any_eq_true.mpr ⟨a, ha, hcon⟩)
        rw [filter_not_slug_nil, filter_slug_self, hcompnil]
        rw [hcompnil] at hb1
        simp only [List.map_nil, List.nil_append, List.append_nil] at hb1 ⊢
        exact hb1
      · rw [filter_slug_of_ne _ _ _ hgs, filter_slug_of_ne2 _ _ _ hgs]
        simp only [List.map_nil, List.append_nil]
        exact hb1
  · simp only [h1, Bool.false_eq_true, if_false]
    by_cases h3 : w.completed.any (fun s => s.slug == sg)
    · simp only [h3, if_true]
      apply PairIntact_updateSpecMeta
      · exact fun sp => ⟨rfl, rfl⟩
      · exact ⟨hb, hi⟩
    · simp only [h3, Bool.false_eq_true, if_false]
      exact ⟨hb, hi⟩

/-- Closing an issue only flips its state and appends a comment: both
observations survive. -/
theorem PairIntact_closeIssue {w : World} {sl bs : String} {n : Nat}
    {ib : Option String} (m : Nat) (c : String)
    (h : PairIntact w sl bs n ib) :
    PairIntact (closeIssueWithComment w m c).1 sl bs n ib := by
  obtain ⟨hb, hi⟩ := h
  unfold closeIssueWithComment
  by_cases h1 : w.issues.any (fun i => i.number == m)
  · simp only [h1, if_true]
    refine ⟨hb, ?_⟩
    rw [issueBodiesAt_map]
    · exact hi
    · intro j
      by_cases hj : j.number == m
      · simp only [hj, if_true]
      · simp only [hj, Bool.false_eq_true, if_false]
    · intro j hjn
      by_cases hj : j.number == m
      · simp only [hj, if_true]
      · simp only [hj, Bool.false_eq_true, if_false]
  · simp only [h1, Bool.false_eq_true, if_false]
    exact ⟨hb, hi⟩

/-- One completion-loop iteration keeps both observations. -/
theorem PairIntact_exec_complete_step {wc : World × Nat} {sl bs : String}
    {n : Nat} {ib : Option String} (spec : Spec)
    (h : PairIntact wc.1 sl bs n ib) :
    PairIntact (exec_complete_step wc spec).1 sl bs n ib := by
  have hmv := PairIntact_moveSpecToCompleted (w := wc.1) spec.slug h
  unfold exec_complete_step
  cases hm : moveSpecToCompleted wc.1 spec.slug with
  | mk w1 b =>
    rw [hm] at hmv
    cases b with
    | false => exact hmv
    | true =>
      cases spec.issue_id with
      | none => exact hmv
      | some m =>
        by_cases hz : m == 0
        · simp only [hz, if_true]
          exact hmv
        · simp only [hz, Bool.false_eq_true, if_false]
          exact PairIntact_closeIssue m _ hmv


/-- The specs_by_issue_id dictionary only returns specs from the list,
keyed by their own issue_id. -/
theorem specs_by_issue_id_get_some {specs : List Spec} {n : Nat} {s : Spec}
    (h : specs_by_issue_id_get specs n = some s) :
    s ∈ specs ∧ s.issue_id = some n := by
  unfold specs_by_issue_id_get at h
  have hm := mem_of_getLastOpt h
  have hp := List.of_mem_filter hm
  obtain ⟨h1, h2⟩ := and_true_split hp
  exact ⟨List.mem_of_mem_filter hm, by simpa using h2⟩

/-- Distinct slugs identify specs uniquely. -/
theorem eq_of_nodup_slugs {specs : List Spec}
    (hnd : (specs.map Spec.slug).Nodup) :
    ∀ {a b : Spec}, a ∈ specs → b ∈ specs → a.slug = b.slug → a = b := by
  induction specs with
  | nil => intro a b ha; simp at ha
  | cons k ks ih =>
    intro a b ha hb heq
    simp only [List.map_cons, List.nodup_cons] at hnd
    obtain ⟨hknot, hnd2⟩ := hnd
    rcases List.mem_cons.1 ha with ha1 | ha1 <;> rcases List.mem_cons.1 hb with hb1 | hb1
    · exact ha1.trans hb1.symm
    · subst ha1
      exact absurd (heq ▸ List.mem_map_of_mem Spec.slug hb1) hknot
    · subst hb1
      exact absurd (heq ▸ List.mem_map_of_mem Spec.slug ha1) hknot
    · exact ih hnd2 ha1 hb1 heq

/-- The snapshot lookup of execute_sync_plan returns a spec from the
snapshot carrying the looked-up slug. -/
theorem lookupSpec_mem {specs : List Spec} {sl : String} {sp : Spec}
    (h : (specs.filter (fun x => x.slug == sl)).getLast? = some sp) :
    sp ∈ specs ∧ sp.slug = sl := by
  have hm := mem_of_getLastOpt h
  have hp := List.of_mem_filter hm
  exact ⟨List.mem_of_mem_filter hm, by simpa using hp⟩


/-- C2: unsynced changes are never overwritten.  For a matched spec-issue
pair (the dictionary of build_sync_plan pairs spec s with open issue i)
where both the local and the remote content changed since the last sync,
the planner puts the pair only in the conflicts bucket -- no inbound or
outbound update and no inbound create references its issue number -- and
running the whole plan leaves both the local spec file body and the GitHub
issue body untouched (the world holding exactly one file with that slug
and one issue with that number). -/
theorem conflicts_never_overwritten (env : Env) (w0 : World) (s : Spec)
    (i : Issue)
    (hnodupN : (w0.issues.map Issue.number).Nodup)
    (hnodupS : (w0.specs.map Spec.slug).Nodup)
    (hi : i ∈ w0.issues) (hopen : i.state = "open")
    (hmem : "mem-spec" ∈ i.labels)
    (hs : specs_by_issue_id_get w0.specs i.number = some s)
    (hlc : localChanged env s = true)
    (hrc : remoteChanged env s i = true)
    (hsl : s.slug ≠ "")
    (hone : bodiesAt w0 s.slug = [s.body])
    (htwo : issueBodiesAt w0 i.number = [i.body]) :
    mkConflict s i ∈ (build_sync_plan env w0.specs w0.todos
        (w0.issues.filter (fun j => j.state == "open"))).conflicts ∧
    (∀ a ∈ (build_sync_plan env w0.specs w0.todos
        (w0.issues.filter (fun j => j.state == "open"))).inbound_updates,
      a.issue_number ≠ some i.number) ∧
    (∀ a ∈ (build_sync_plan env w0.specs w0.todos
        (w0.issues.filter (fun j => j.state == "open"))).outbound_updates,
      a.issue_number ≠ some i.number) ∧
    (∀ a ∈ (build_sync_plan env w0.specs w0.todos
        (w0.issues.filter (fun j => j.state == "open"))).inbound_creates,
      a.issue_number ≠ some i.number) ∧
    bodiesAt (execute_sync_plan env
        (build_sync_plan env w0.specs w0.todos
          (w0.issues.filter (fun j => j.state == "open"))) w0).1 s.slug =
      [s.body] ∧
    issueBodiesAt (execute_sync_plan env
        (build_sync_plan env w0.specs w0.todos
          (w0.issues.filter (fun j => j.state == "open"))) w0).1 i.number =
      [i.body] := by
  have hiop : i ∈ w0.issues.filter (fun j => j.state == "open") :=
    List.mem_filter.2 ⟨hi, by simp [hopen]⟩
  have hndO : ((w0.issues.filter (fun j => j.state == "open")).map
      Issue.number).Nodup :=
    hnodupN.sublist ((List.filter_sublist _).map _)
  obtain ⟨hsmem, hsid⟩ := specs_by_issue_id_get_some hs
  refine ⟨?_, ?_, ?_, ?_, ?_⟩
  · rw [build_conflicts_eq]
    refine List.mem_flatMap.2 ⟨i, hiop, ?_⟩
    rw [processIssue_conflicts_eq, if_pos hmem, hs]
    simp [hlc, hrc]
  · intro a ha hnum
    rw [build_inbound_updates_eq] at ha
    obtain ⟨j, hj, haj⟩ := List.mem_flatMap.1 ha
    obtain ⟨s2, hs2, _, hcc2, _, haeq⟩ := mem_processIssue_inbound_updates haj
    have hanum : a.issue_number = some j.number := by
      simp [haeq, mkInboundUpdate]
    have hji : j = i :=
      eq_of_nodup_numbers hndO hj hiop
        (Option.some.inj (hanum.symm.trans hnum))
    subst hji
    have hss : s2 = s := Option.some.inj (hs2.symm.trans hs)
    subst hss
    rw [hlc, hrc] at hcc2
    simp at hcc2
  · intro a ha hnum
    rw [build_outbound_updates_eq] at ha
    obtain ⟨j, hj, haj⟩ := List.mem_flatMap.1 ha
    obtain ⟨s2, hs2, _, hrc2, _, haeq⟩ := mem_processIssue_outbound_updates haj
    have hanum : a.issue_number = some j.number := by
      simp [haeq, mkOutboundUpdate]
    have hji : j = i :=
      eq_of_nodup_numbers hndO hj hiop
        (Option.some.inj (hanum.symm.trans hnum))
    subst hji
    have hss : s2 = s := Option.some.inj (hs2.symm.trans hs)
    subst hss
    rw [hrc] at hrc2
    exact Bool.noConfusion hrc2
  · intro a ha hnum
    rw [build_inbound_creates_eq] at ha
    obtain ⟨j, hj, haj⟩ := List.mem_flatMap.1 ha
    obtain ⟨hs2, _, haeq⟩ := mem_processIssue_inbound_creates haj
    have hanum : a.issue_number = some j.number := by
      simp [haeq, mkInboundCreate]
    have hji : j = i :=
      eq_of_nodup_numbers hndO hj hiop
        (Option.some.inj (hanum.symm.trans hnum))
    subst hji
    rw [hs] at hs2
    exact Option.noConfusion hs2
  · have hfinal : PairIntact (execute_sync_plan env
        (build_sync_plan env w0.specs w0.todos
          (w0.issues.filter (fun j => j.state == "open"))) w0).1
        s.slug s.body i.number i.body := by
      unfold execute_sync_plan
      dsimp only
      refine foldl_world_preserve _ (fun w => PairIntact w s.slug s.body i.number i.body) _ ?hc7 _
        (foldl_world_preserve _ (fun w => PairIntact w s.slug s.body i.number i.body) _ ?hc6 _
          (foldl_world_preserve _ (fun w => PairIntact w s.slug s.body i.number i.body) _ ?hc5 _
            (foldl_world_preserve _ (fun w => PairIntact w s.slug s.body i.number i.body) _ ?hc4 _
              (foldl_world_preserve _ (fun w => PairIntact w s.slug s.body i.number i.body) _ ?hc3 _
                (foldl_world_preserve _ (fun w => PairIntact w s.slug s.body i.number i.body) _ ?hc2 _
                  (foldl_world_preserve _ (fun w => PairIntact w s.slug s.body i.number i.body) _ ?hc1 _ ⟨hone, htwo⟩))))))
      case hc1 =>
        intro wc t ht hP
        dsimp only
        cases ht1 : t.spec_slug with
        | none => exact hP
        | some sl2 =>
          dsimp only
          cases hg : (w0.specs.filter (fun sp => sp.slug == sl2)).getLast? with
          | none => exact hP
          | some sp => exact PairIntact_exec_outbound_create env sp hP
      case hc2 =>
        intro wc t ht hP
        dsimp only
        rw [build_outbound_updates_eq] at ht
        obtain ⟨j, hj, htj⟩ := List.mem_flatMap.1 ht
        obtain ⟨spj, hsj, _, hrc2, _, hteq⟩ :=
          mem_processIssue_outbound_updates htj
        obtain ⟨hspjmem, hspjid⟩ := specs_by_issue_id_get_some hsj
        have hjne : j.number ≠ i.number := by
          intro hcon
          have hji : j = i := eq_of_nodup_numbers hndO hj hiop hcon
          subst hji
          have hss : spj = s := Option.some.inj (hsj.symm.trans hs)
          subst hss
          rw [hrc] at hrc2
          exact Bool.noConfusion hrc2
        subst hteq
        dsimp only [mkOutboundUpdate]
        cases hg : (w0.specs.filter (fun sp => sp.slug == spj.slug)).getLast? with
        | none => exact hP
        | some sp =>
          obtain ⟨hspmem, hspslug⟩ := lookupSpec_mem hg
          have hsp : sp = spj := eq_of_nodup_slugs hnodupS hspmem hspjmem hspslug
          subst hsp
          refine PairIntact_exec_outbound_update env sp ?_ hP
          rw [hspjid]
          intro hcon
          exact hjne (Option.some.inj hcon)
      case hc3 =>
        intro wc t ht hP
        dsimp only
        cases ht1 : t.issue_number with
        | none => exact hP
        | some m =>
          dsimp only
          cases hgi : (w0.issues.filter (fun x => x.number == m)).getLast? with
          | none => exact hP
          | some j => exact PairIntact_exec_inbound_create env j hsl hP
      case hc4 =>
        intro wc t ht hP
        dsimp only
        rw [build_inbound_updates_eq] at ht
        obtain ⟨j, hj, htj⟩ := List.mem_flatMap.1 ht
        obtain ⟨spj, hsj, _, hcc2, _, hteq⟩ :=
          mem_processIssue_inbound_updates htj
        obtain ⟨hspjmem, hspjid⟩ := specs_by_issue_id_get_some hsj
        have hjne : j.number ≠ i.number := by
          intro hcon
          have hji : j = i := eq_of_nodup_numbers hndO hj hiop hcon
          subst hji
          have hss : spj = s := Option.some.inj (hsj.symm.trans hs)
          subst hss
          rw [hlc, hrc] at hcc2
          simp at hcc2
        subst hteq
        dsimp only [mkInboundUpdate]
        cases hg : (w0.specs.filter (fun sp => sp.slug == spj.slug)).getLast? with
        | none => exact hP
        | some sp =>
          obtain ⟨hspmem, hspslug⟩ := lookupSpec_mem hg
          have hsp : sp = spj := eq_of_nodup_slugs hnodupS hspmem hspjmem hspslug
          subst hsp
          dsimp only
          cases hgi : (w0.issues.filter (fun x => x.number == j.number)).getLast? with
          | none => exact hP
          | some ii =>
            refine PairIntact_exec_inbound_update env ii sp ?_ hP
            intro hcon
            have hss : sp = s := eq_of_nodup_slugs hnodupS hspmem hsmem hcon
            subst hss
            rw [hspjid] at hsid
            exact hjne (Option.some.inj hsid)
      case hc5 =>
        intro wc t ht hP
        dsimp only
        cases ht1 : t.spec_slug with
        | none => exact hP
        | some sl2 =>
          dsimp only
          cases hg : (w0.specs.filter (fun sp => sp.slug == sl2)).getLast? with
          | none => exact hP
          | some sp =>
            cases ht2 : t.issue_number with
            | none => exact hP
            | some m =>
              dsimp only
              cases hgi : (w0.issues.filter (fun x => x.number == m)).getLast? with
              | none => exact hP
              | some ii => exact PairIntact_exec_status_sync t sp ii hP
      case hc6 =>
        intro wc t ht hP
        exact PairIntact_exec_todo_step t hP
      case hc7 =>
        intro wc t ht hP
        exact PairIntact_exec_complete_step t hP
    exact ⟨hfinal.1, hfinal.2⟩


/-- Closed witness for C2: a concrete both-changed pair lands in the
conflicts bucket and survives the full plan execution unchanged. -/
theorem conflicts_never_overwritten_witness :
    bodiesAt (execute_sync_plan
        (Env.mk (fun x => x) (fun _ => false) "" "" (fun _ => ""))
        (build_sync_plan (Env.mk (fun x => x) (fun _ => false) "" "" (fun _ => ""))
          (World.mk
            [Spec.mk "a" "A" none (some 1) none none none (some "x") (some "y") "bl"]
            [] []
            [Issue.mk 1 "[Spec]: A" (some "br") ["mem-spec"] "" "open" none []]).specs
          (World.mk
            [Spec.mk "a" "A" none (some 1) none none none (some "x") (some "y") "bl"]
            [] []
            [Issue.mk 1 "[Spec]: A" (some "br") ["mem-spec"] "" "open" none []]).todos
          ((World.mk
            [Spec.mk "a" "A" none (some 1) none none none (some "x") (some "y") "bl"]
            [] []
            [Issue.mk 1 "[Spec]: A" (some "br") ["mem-spec"] "" "open" none []]).issues.filter
              (fun j => j.state == "open")))
        (World.mk
          [Spec.mk "a" "A" none (some 1) none none none (some "x") (some "y") "bl"]
          [] []
          [Issue.mk 1 "[Spec]: A" (some "br") ["mem-spec"] "" "open" none []])).1
      "a" = ["bl"] := by
  have h := conflicts_never_overwritten
    (Env.mk (fun x => x) (fun _ => false) "" "" (fun _ => ""))
    (World.mk
      [Spec.mk "a" "A" none (some 1) none none none (some "x") (some "y") "bl"]
      [] []
      [Issue.mk 1 "[Spec]: A" (some "br") ["mem-spec"] "" "open" none []])
    (Spec.mk "a" "A" none (some 1) none none none (some "x") (some "y") "bl")
    (Issue.mk 1 "[Spec]: A" (some "br") ["mem-spec"] "" "open" none [])
    (by decide) (by decide) (by decide) rfl (by decide) (by decide)
    (by decide) (by decide) (by decide) (by decide) (by decide)
  exact h.2.2.2.2.1


/-- A spec file with the slug exists under the root specs directory. -/
def rootHas (w : World) (sl : String) : Bool :=
  w.specs.any (fun sp => sp.slug == sl)

/-- A spec file with the slug exists under specs/completed/. -/
def completedHas (w : World) (sl : String) : Bool :=
  w.completed.any (fun sp => sp.slug == sl)

/-- An issue with the number exists in the repository. -/
def issueHas (w : World) (n : Nat) : Bool :=
  w.issues.any (fun j => j.number == n)

/-- The spec is ripe for the completion loop: its file lives under root,
completed/ does not already hold the slug, and its issue exists. -/
def ReadyAt (w : World) (sl : String) (n : Nat) : Prop :=
  rootHas w sl = true ∧ completedHas w sl = false ∧ issueHas w n = true

/-- The observable outcome of completing a spec: a file with the slug and
completed status under completed/, and issue n closed carrying the
comment. -/
def DoneAt (w : World) (sl : String) (n : Nat) (c : String) : Prop :=
  (∃ sp ∈ w.completed, sp.slug = sl ∧ sp.status = some "completed") ∧
  (∃ j ∈ w.issues, j.number = n ∧ j.state = "closed" ∧
    c ∈ j.comments.map Comment.body)

theorem rootHas_congr {w1 w2 : World} (h : w1.specs = w2.specs)
    (sl : String) : rootHas w1 sl = rootHas w2 sl := by
  unfold rootHas
  rw [h]

theorem completedHas_congr {w1 w2 : World} (h : w1.completed = w2.completed)
    (sl : String) : completedHas w1 sl = completedHas w2 sl := by
  unfold completedHas
  rw [h]

theorem issueHas_congr {w1 w2 : World} (h : w1.issues = w2.issues)
    (n : Nat) : issueHas w1 n = issueHas w2 n := by
  unfold issueHas
  rw [h]

theorem rootHas_updateSpecMeta (w : World) (sl2 : String) (f : Spec → Spec)
    (hf : ∀ sp, (f sp).slug = sp.slug) (sl : String) :
    rootHas (updateSpecMeta w sl2 f) sl = rootHas w sl := by
  unfold rootHas updateSpecMeta
  split
  · dsimp only
    rw [any_map_pred]
    intro x
    by_cases hx : x.slug == sl2
    · simp only [hx, if_true, hf]
    · simp only [hx, Bool.false_eq_true, if_false]
  · split
    · rfl
    · rfl

theorem completedHas_updateSpecMeta (w : World) (sl2 : String)
    (f : Spec → Spec) (hf : ∀ sp, (f sp).slug = sp.slug) (sl : String) :
    completedHas (updateSpecMeta w sl2 f) sl = completedHas w sl := by
  unfold completedHas updateSpecMeta
  split
  · rfl
  · split
    · dsimp only
      rw [any_map_pred]
      intro x
      by_cases hx : x.slug == sl2
      · simp only [hx, if_true, hf]
      · simp only [hx, Bool.false_eq_true, if_false]
    · rfl

theorem issueHas_map (w : World) (g : Issue → Issue)
    (hg : ∀ j, (g j).number = j.number) (n : Nat) :
    issueHas { w with issues := w.issues.map g } n = issueHas w n := by
  unfold issueHas
  dsimp only
  rw [any_map_pred]
  intro x
  rw [hg]

theorem issueHas_append_true {w : World} {n : Nat} (l : List Issue)
    (h : issueHas w n = true) :
    issueHas { w with issues := w.issues ++ l } n = true := by
  unfold issueHas at h ⊢
  dsimp only
  rw [List.any_append, h]
  rfl

theorem updateSpecBody_eq (w : World) (sl : String) (b : String) :
    updateSpecBody w sl b =
      updateSpecMeta w sl (fun s => { s with body := b }) := rfl

theorem rootHas_createSpec_true {w : World} {sl : String} (env : Env)
    (title : String) (h : rootHas w sl = true) :
    rootHas (createSpec env w title) sl = true := by
  unfold rootHas at h ⊢
  unfold createSpec
  dsimp only
  split
  · exact h
  · dsimp only
    rw [List.any_append, h]
    rfl

theorem completedHas_createSpec (env : Env) (w : World) (title sl : String) :
    completedHas (createSpec env w title) sl = completedHas w sl := by
  unfold completedHas createSpec
  dsimp only
  split
  · rfl
  · rfl

theorem ReadyAt_updateSpecMeta {w : World} {sl : String} {n : Nat}
    (sl2 : String) (f : Spec → Spec) (hf : ∀ sp, (f sp).slug = sp.slug)
    (h : ReadyAt w sl n) : ReadyAt (updateSpecMeta w sl2 f) sl n :=
  ⟨(rootHas_updateSpecMeta w sl2 f hf sl).trans h.1,
   (completedHas_updateSpecMeta w sl2 f hf sl).trans h.2.1,
   (issueHas_congr (updateSpecMeta_issues w sl2 f) n).trans h.2.2⟩

theorem ReadyAt_updateSpecBody {w : World} {sl : String} {n : Nat}
    (sl2 b : String) (h : ReadyAt w sl n) :
    ReadyAt (updateSpecBody w sl2 b) sl n := by
  rw [updateSpecBody_eq]
  apply ReadyAt_updateSpecMeta
  · exact fun sp => rfl
  · exact h

theorem ReadyAt_createSpec {w : World} {sl : String} {n : Nat} (env : Env)
    (title : String) (h : ReadyAt w sl n) :
    ReadyAt (createSpec env w title) sl n :=
  ⟨rootHas_createSpec_true env title h.1,
   (completedHas_createSpec env w title sl).trans h.2.1,
   (issueHas_congr (createSpec_issues env w title) n).trans h.2.2⟩


theorem ReadyAt_exec_outbound_create {w : World} {sl : String} {n : Nat}
    (env : Env) (spec : Spec) (h : ReadyAt w sl n) :
    ReadyAt (exec_outbound_create env w spec) sl n := by
  unfold exec_outbound_create
  dsimp only
  apply ReadyAt_updateSpecMeta
  · exact fun sp => rfl
  · apply ReadyAt_updateSpecMeta
    · exact fun sp => rfl
    · exact ⟨h.1, h.2.1, issueHas_append_true _ h.2.2⟩

theorem ReadyAt_exec_outbound_update {w : World} {sl : String} {n : Nat}
    (env : Env) (spec : Spec) (h : ReadyAt w sl n) :
    ReadyAt (exec_outbound_update env w spec) sl n := by
  unfold exec_outbound_update
  cases spec.issue_id with
  | none => exact h
  | some m =>
    dsimp only
    apply ReadyAt_updateSpecMeta
    · exact fun sp => rfl
    · refine ⟨h.1, h.2.1, ?_⟩
      rw [issueHas_map]
      · exact h.2.2
      · intro j
        by_cases hj : j.number == m
        · simp only [hj, if_true]
        · simp only [hj, Bool.false_eq_true, if_false]

theorem ReadyAt_exec_inbound_create {w : World} {sl : String} {n : Nat}
    (env : Env) (issue : Issue) (h : ReadyAt w sl n) :
    ReadyAt (exec_inbound_create env w issue) sl n := by
  unfold exec_inbound_create
  dsimp only
  cases resolveSlug w (slugify_sync_str (pyCleanSpecTitle issue.title)) with
  | some m => exact h
  | none =>
    have h2 : ReadyAt (updateSpecBody
        (createSpec env w (pyCleanSpecTitle issue.title))
        (slugify_sync_str (pyCleanSpecTitle issue.title))
        (buildInboundBody issue)) sl n :=
      ReadyAt_updateSpecBody _ _ (ReadyAt_createSpec env _ h)
    apply ReadyAt_updateSpecMeta
    · exact fun sp => rfl
    · cases get_status_from_labels issue.labels with
      | some st =>
        apply ReadyAt_updateSpecMeta
        · exact fun sp => rfl
        · cases issue.assignee with
          | some a =>
            apply ReadyAt_updateSpecMeta
            · exact fun sp => rfl
            · apply ReadyAt_updateSpecMeta
              · exact fun sp => rfl
              · exact h2
          | none =>
            apply ReadyAt_updateSpecMeta
            · exact fun sp => rfl
            · exact h2
      | none =>
        cases issue.assignee with
        | some a =>
          apply ReadyAt_updateSpecMeta
          · exact fun sp => rfl
          · apply ReadyAt_updateSpecMeta
            · exact fun sp => rfl
            · exact h2
        | none =>
          apply ReadyAt_updateSpecMeta
          · exact fun sp => rfl
          · exact h2

theorem ReadyAt_exec_inbound_update {w : World} {sl : String} {n : Nat}
    (env : Env) (issue : Issue) (spec : Spec) (h : ReadyAt w sl n) :
    ReadyAt (exec_inbound_update env w issue spec) sl n := by
  unfold exec_inbound_update
  dsimp only
  have h1 : ReadyAt (updateSpecBody w spec.slug (buildInboundBody issue)) sl n :=
    ReadyAt_updateSpecBody _ _ h
  apply ReadyAt_updateSpecMeta
  · exact fun sp => rfl
  · by_cases ht : spec.title == pyCleanSpecTitle issue.title
    · simp only [ht, if_true]
      cases issue.assignee with
      | some a =>
        apply ReadyAt_updateSpecMeta
        · exact fun sp => rfl
        · exact h1
      | none => exact h1
    · simp only [ht, Bool.false_eq_true, if_false]
      apply ReadyAt_updateSpecMeta
      · exact fun sp => rfl
      · cases issue.assignee with
        | some a =>
          apply ReadyAt_updateSpecMeta
          · exact fun sp => rfl
          · exact h1
        | none => exact h1

theorem ReadyAt_exec_status_sync {w : World} {sl : String} {n : Nat}
    (a : SyncAction) (spec : Spec) (issue : Issue) (h : ReadyAt w sl n) :
    ReadyAt (exec_status_sync w a spec issue) sl n := by
  unfold exec_status_sync
  cases a.direction with
  | inbound =>
    dsimp only
    cases get_status_from_labels issue.labels with
    | some st =>
      apply ReadyAt_updateSpecMeta
      · exact fun sp => rfl
      · exact h
    | none => exact h
  | outbound =>
    dsimp only
    cases spec.status with
    | none => exact h
    | some st =>
      by_cases hst : st == ""
      · simp only [hst, if_true]
        exact h
      · simp only [hst, Bool.false_eq_true, if_false]
        unfold syncStatusLabels
        refine ⟨h.1, h.2.1, ?_⟩
        rw [issueHas_map]
        · exact h.2.2
        · intro j
          by_cases hj : j.number == issue.number
          · simp only [hj, if_true]
          · simp only [hj, Bool.false_eq_true, if_false]
  | conflict =>
    dsimp only
    cases spec.status with
    | none => exact h
    | some st =>
      by_cases hst : st == ""
      · simp only [hst, if_true]
        exact h
      · simp only [hst, Bool.false_eq_true, if_false]
        unfold syncStatusLabels
        refine ⟨h.1, h.2.1, ?_⟩
        rw [issueHas_map]
        · exact h.2.2
        · intro j
          by_cases hj : j.number == issue.number
          · simp only [hj, if_true]
          · simp only [hj, Bool.false_eq_true, if_false]

theorem ReadyAt_exec_todo_step {wc : World × Nat} {sl : String} {n : Nat}
    (td : TodoCreate) (h : ReadyAt wc.1 sl n) :
    ReadyAt (exec_todo_step wc td).1 sl n := by
  obtain ⟨h1, h2, h3⟩ := exec_todo_step_world wc td
  exact ⟨(rootHas_congr h1 sl).trans h.1,
    (completedHas_congr h2 sl).trans h.2.1,
    (issueHas_congr h3 n).trans h.2.2⟩

theorem ReadyAt_closeIssue {w : World} {sl : String} {n : Nat}
    (m : Nat) (c : String) (h : ReadyAt w sl n) :
    ReadyAt (closeIssueWithComment w m c).1 sl n := by
  unfold closeIssueWithComment
  by_cases h1 : w.issues.any (fun i => i.number == m)
  · simp only [h1, if_true]
    refine ⟨h.1, h.2.1, ?_⟩
    rw [issueHas_map]
    · exact h.2.2
    · intro j
      by_cases hj : j.number == m
      · simp only [hj, if_true]
      · simp only [hj, Bool.false_eq_true, if_false]
  · simp only [h1, Bool.false_eq_true, if_false]
    exact h

theorem ReadyAt_moveSpecToCompleted {w : World} {sl : String} {n : Nat}
    (sg : String) (hne : sg ≠ sl) (h : ReadyAt w sl n) :
    ReadyAt (moveSpecToCompleted w sg).1 sl n := by
  unfold moveSpecToCompleted
  by_cases h1 : w.specs.any (fun s => s.slug == sg)
  · simp only [h1, if_true]
    have hw1 : ReadyAt (updateSpecMeta w sg
        (fun s => { s with status := some "completed" })) sl n := by
      apply ReadyAt_updateSpecMeta
      · exact fun sp => rfl
      · exact h
    by_cases h2 : (updateSpecMeta w sg
        (fun s => { s with status := some "completed" })).completed.any
        (fun s => s.slug == sg)
    · simp only [h2, if_true]
      exact hw1
    · simp only [h2, Bool.false_eq_true, if_false]
      obtain ⟨hr, hc, hi2⟩ := hw1
      refine ⟨?_, ?_, hi2⟩
      · unfold rootHas at hr ⊢
        rw [List.any_eq_true] at hr ⊢
        obtain ⟨x, hx, hpx⟩ := hr
        refine ⟨x, List.mem_filter.2 ⟨hx, ?_⟩, hpx⟩
        have hx2 : x.slug = sl := by simpa using hpx
        simp only [hx2, Bool.not_eq_true', beq_eq_false_iff_ne, ne_eq]
        exact fun hcon => hne hcon.symm
      · unfold completedHas at hc ⊢
        rw [List.any_append]
        rw [hc]
        simp only [Bool.false_or]
        rw [List.any_eq_false]
        intro x hx
        have hpx := List.of_mem_filter hx
        have hx2 : x.slug = sg := by simpa using hpx
        simp only [hx2, beq_iff_eq]
        exact hne
  · simp only [h1, Bool.false_eq_true, if_false]
    by_cases h3 : w.completed.any (fun s => s.slug == sg)
    · simp only [h3, if_true]
      apply ReadyAt_updateSpecMeta
      · exact fun sp => rfl
      · exact h
    · simp only [h3, Bool.false_eq_true, if_false]
      exact h

theorem ReadyAt_exec_complete_step {wc : World × Nat} {sl : String} {n : Nat}
    (x : Spec) (hne : x.slug ≠ sl) (h : ReadyAt wc.1 sl n) :
    ReadyAt (exec_complete_step wc x).1 sl n := by
  have hmv := ReadyAt_moveSpecToCompleted (w := wc.1) x.slug hne h
  unfold exec_complete_step
  cases hm : moveSpecToCompleted wc.1 x.slug with
  | mk w1 b =>
    rw [hm] at hmv
    cases b with
    | false => exact hmv
    | true =>
      cases x.issue_id with
      | none => exact hmv
      | some m =>
        by_cases hz : m == 0
        · simp only [hz, if_true]
          exact hmv
        · simp only [hz, Bool.false_eq_true, if_false]
          exact ReadyAt_closeIssue m _ hmv


theorem exists_mem_map {α β : Type} {l : List α} {x : α} (f : α → β)
    (hx : x ∈ l) (Q : β → Prop) (hq : Q (f x)) : ∃ y ∈ l.map f, Q y :=
  ⟨f x, List.mem_map_of_mem f hx, hq⟩

/-- Moving any spec to completed preserves the completion outcome. -/
theorem DoneAt_moveSpecToCompleted {w : World} {sl : String} {n : Nat}
    {c : String} (sg : String) (h : DoneAt w sl n c) :
    DoneAt (moveSpecToCompleted w sg).1 sl n c := by
  obtain ⟨⟨sp, hsp, hspsl, hspst⟩, ⟨j, hj, hjn, hjs, hjc⟩⟩ := h
  unfold moveSpecToCompleted
  by_cases h1 : w.specs.any (fun s => s.slug == sg)
  · simp only [h1, if_true]
    have hW1c : (updateSpecMeta w sg
        (fun s => { s with status := some "completed" })).completed =
        w.completed := by
      unfold updateSpecMeta
      rw [if_pos h1]
    have hW1i : (updateSpecMeta w sg
        (fun s => { s with status := some "completed" })).issues = w.issues :=
      updateSpecMeta_issues w sg _
    by_cases h2 : (updateSpecMeta w sg
        (fun s => { s with status := some "completed" })).completed.any
        (fun s => s.slug == sg)
    · simp only [h2, if_true]
      exact ⟨⟨sp, hW1c.symm ▸ hsp, hspsl, hspst⟩,
        ⟨j, hW1i.symm ▸ hj, hjn, hjs, hjc⟩⟩
    · simp only [h2, Bool.false_eq_true, if_false]
      refine ⟨⟨sp, ?_, hspsl, hspst⟩, ⟨j, ?_, hjn, hjs, hjc⟩⟩
      · exact List.mem_append_left _ (hW1c.symm ▸ hsp)
      · exact hW1i.symm ▸ hj
  · simp only [h1, Bool.false_eq_true, if_false]
    by_cases h3 : w.completed.any (fun s => s.slug == sg)
    · simp only [h3, if_true]
      have hW2c : (updateSpecMeta w sg
          (fun s => { s with status := some "completed" })).completed =
          w.completed.map (fun s => if s.slug == sg then
            { s with status := some "completed" } else s) := by
        unfold updateSpecMeta
        rw [if_neg h1, if_pos h3]
      have hW2i : (updateSpecMeta w sg
          (fun s => { s with status := some "completed" })).issues = w.issues :=
        updateSpecMeta_issues w sg _
      refine ⟨?_, ⟨j, hW2i.symm ▸ hj, hjn, hjs, hjc⟩⟩
      have hgoal : ∃ y ∈ w.completed.map (fun s => if s.slug == sg then
          { s with status := some "completed" } else s),
          y.slug = sl ∧ y.status = some "completed" := by
        refine exists_mem_map _ hsp _ ?_
        by_cases hsg : sp.slug == sg
        · simp only [hsg, if_true]
          exact ⟨hspsl, by trivial⟩
        · simp only [hsg, Bool.false_eq_true, if_false]
          exact ⟨hspsl, hspst⟩
      exact hW2c.symm ▸ hgoal
    · simp only [h3, Bool.false_eq_true, if_false]
      exact ⟨⟨sp, hsp, hspsl, hspst⟩, ⟨j, hj, hjn, hjs, hjc⟩⟩

/-- Closing any issue preserves the completion outcome. -/
theorem DoneAt_closeIssue {w : World} {sl : String} {n : Nat} {c : String}
    (m : Nat) (d : String) (h : DoneAt w sl n c) :
    DoneAt (closeIssueWithComment w m d).1 sl n c := by
  obtain ⟨hcomp, ⟨j, hj, hjn, hjs, hjc⟩⟩ := h
  unfold closeIssueWithComment
  by_cases h1 : w.issues.any (fun i => i.number == m)
  · simp only [h1, if_true]
    refine ⟨hcomp, ?_⟩
    refine exists_mem_map _ hj _ ?_
    by_cases hjm : j.number == m
    · simp only [hjm, if_true]
      refine ⟨hjn, by trivial, ?_⟩
      rw [List.map_append]
      exact List.mem_append_left _ hjc
    · simp only [hjm, Bool.false_eq_true, if_false]
      exact ⟨hjn, hjs, hjc⟩
  · simp only [h1, Bool.false_eq_true, if_false]
    exact ⟨hcomp, ⟨j, hj, hjn, hjs, hjc⟩⟩

/-- Any later completion-loop iteration preserves the outcome. -/
theorem DoneAt_exec_complete_step {wc : World × Nat} {sl : String} {n : Nat}
    {c : String} (x : Spec) (h : DoneAt wc.1 sl n c) :
    DoneAt (exec_complete_step wc x).1 sl n c := by
  have hmv := DoneAt_moveSpecToCompleted (w := wc.1) x.slug h
  unfold exec_complete_step
  cases hm : moveSpecToCompleted wc.1 x.slug with
  | mk w1 b =>
    rw [hm] at hmv
    cases b with
    | false => exact hmv
    | true =>
      cases x.issue_id with
      | none => exact hmv
      | some m =>
        by_cases hz : m == 0
        · simp only [hz, if_true]
          exact hmv
        · simp only [hz, Bool.false_eq_true, if_false]
          exact DoneAt_closeIssue m _ hmv

/-- The completion step on a ripe spec moves it to completed and closes
its issue with the completion comment. -/
theorem exec_complete_step_establishes (w : World) (k : Nat) (s : Spec)
    (n : Nat)
    (hroot : rootHas w s.slug = true)
    (hcomp : completedHas w s.slug = false)
    (hid : s.issue_id = some n) (hn0 : n ≠ 0)
    (hiss : issueHas w n = true) :
    DoneAt (exec_complete_step (w, k) s).1 s.slug n (completionComment s) := by
  unfold rootHas at hroot
  unfold completedHas at hcomp
  unfold issueHas at hiss
  unfold exec_complete_step
  try dsimp only
  unfold moveSpecToCompleted
  rw [if_pos hroot]
  try dsimp only
  have hW1c : (updateSpecMeta w s.slug
      (fun x => { x with status := some "completed" })).completed =
      w.completed := by
    unfold updateSpecMeta
    rw [if_pos hroot]
  have hW1s : (updateSpecMeta w s.slug
      (fun x => { x with status := some "completed" })).specs =
      w.specs.map (fun x => if x.slug == s.slug then
        { x with status := some "completed" } else x) := by
    unfold updateSpecMeta
    rw [if_pos hroot]
  have hcond : ((updateSpecMeta w s.slug
      (fun x => { x with status := some "completed" })).completed.any
      (fun x => x.slug == s.slug)) = false := by
    rw [hW1c]
    exact hcomp
  rw [hcond]
  simp only [Bool.false_eq_true, if_false]
  try dsimp only
  rw [hid]
  try dsimp only
  have hz : (n == 0) = false := by simpa using hn0
  rw [hz]
  simp only [Bool.false_eq_true, if_false]
  try dsimp only
  unfold closeIssueWithComment
  try dsimp only
  rw [updateSpecMeta_issues]
  rw [if_pos hiss]
  try dsimp only
  constructor
  · try dsimp only
    rw [hW1c, hW1s]
    rw [List.any_eq_true] at hroot
    obtain ⟨x, hx, hpx⟩ := hroot
    refine ⟨{ x with status := some "completed" }, ?_, ?_, rfl⟩
    · apply List.mem_append_right
      rw [List.mem_filter]
      refine ⟨?_, hpx⟩
      rw [List.mem_map]
      exact ⟨x, hx, by simp only [hpx, if_true]⟩
    · simpa using hpx
  · try dsimp only
    rw [List.any_eq_true] at hiss
    obtain ⟨j0, hj0, hpj⟩ := hiss
    have hjn : j0.number = n := by simpa using hpj
    refine exists_mem_map _ hj0 _ ?_
    simp only [hpj, if_true]
    refine ⟨hjn, by trivial, ?_⟩
    rw [List.map_append]
    refine List.mem_append_right _ ?_
    simp

/-- Folding the completion loop over a list holding the ripe spec (with
distinct slugs) yields the completion outcome. -/
theorem completion_loop {L : List Spec} {s : Spec} {m : Nat}
    (hnd : (L.map Spec.slug).Nodup) (hmemL : s ∈ L)
    (hid : s.issue_id = some m) (hm0 : m ≠ 0) :
    ∀ wc : World × Nat, ReadyAt wc.1 s.slug m →
      DoneAt (L.foldl exec_complete_step wc).1 s.slug m
        (completionComment s) := by
  obtain ⟨l1, l2, hL⟩ := List.append_of_mem hmemL
  subst hL
  intro wc hR
  rw [List.foldl_append, List.foldl_cons]
  have hdisj : ∀ x ∈ l1, x.slug ≠ s.slug := by
    intro x hx hcon
    rw [List.map_append, List.map_cons] at hnd
    have hd := List.disjoint_of_nodup_append hnd
    exact hd (List.mem_map_of_mem Spec.slug hx)
      (by rw [hcon]; exact List.mem_cons_self _ _)
  have h1 : ReadyAt (l1.foldl exec_complete_step wc).1 s.slug m := by
    refine foldl_world_preserve _ (fun w => ReadyAt w s.slug m) _ ?_ _ hR
    intro wc2 t ht hP
    exact ReadyAt_exec_complete_step t (hdisj t ht) hP
  have h2 := exec_complete_step_establishes
    (l1.foldl exec_complete_step wc).1 (l1.foldl exec_complete_step wc).2
    s m h1.1 h1.2.1 hid hm0 h1.2.2
  refine foldl_world_preserve _
    (fun w => DoneAt w s.slug m (completionComment s)) _ ?_ _ ?_
  · intro wc2 t ht hP
    exact DoneAt_exec_complete_step t hP
  · exact h2


/-- C6: a local spec is scheduled for completion exactly when its status
is merge_ready, it has a (truthy) pr_url, and GitHub reports that PR as
merged; executing the plan then moves such a spec into the completed
directory (with completed status) and, for a truthy issue_id, closes the
linked issue with the completion comment. -/
theorem spec_completion (env : Env) (w0 : World) (s : Spec) (m : Nat)
    (hnodupS : (w0.specs.map Spec.slug).Nodup)
    (hmem : s ∈ (build_sync_plan env w0.specs w0.todos
        (w0.issues.filter (fun j => j.state == "open"))).specs_to_complete)
    (hcomp : completedHas w0 s.slug = false)
    (hid : s.issue_id = some m) (hm0 : m ≠ 0)
    (hiss : issueHas w0 m = true) :
    (∀ x, x ∈ (build_sync_plan env w0.specs w0.todos
        (w0.issues.filter (fun j => j.state == "open"))).specs_to_complete ↔
      x ∈ w0.specs ∧ x.status = some "merge_ready" ∧
        optStrTruthy x.pr_url = true ∧
        env.prMerged (x.pr_url.getD "") = true) ∧
    DoneAt (execute_sync_plan env (build_sync_plan env w0.specs w0.todos
        (w0.issues.filter (fun j => j.state == "open"))) w0).1
      s.slug m (completionComment s) := by
  constructor
  · intro x
    rw [build_specs_to_complete_eq, List.mem_filter]
    unfold shouldComplete
    simp only [Bool.and_eq_true, beq_iff_eq, and_assoc]
  · have hroot : rootHas w0 s.slug = true := by
      have hx : s ∈ w0.specs := by
        rw [build_specs_to_complete_eq] at hmem
        exact List.mem_of_mem_filter hmem
      unfold rootHas
      rw [List.any_eq_true]
      exact ⟨s, hx, by simp⟩
    have hnd2 : (((build_sync_plan env w0.specs w0.todos
        (w0.issues.filter (fun j => j.state == "open"))).specs_to_complete).map
          Spec.slug).Nodup := by
      rw [build_specs_to_complete_eq]
      exact hnodupS.sublist ((List.filter_sublist _).map _)
    unfold execute_sync_plan
    dsimp only
    refine completion_loop hnd2 hmem hid hm0 _ ?_
    refine foldl_world_preserve _ (fun w => ReadyAt w s.slug m) _ ?r6 _
      (foldl_world_preserve _ (fun w => ReadyAt w s.slug m) _ ?r5 _
        (foldl_world_preserve _ (fun w => ReadyAt w s.slug m) _ ?r4 _
          (foldl_world_preserve _ (fun w => ReadyAt w s.slug m) _ ?r3 _
            (foldl_world_preserve _ (fun w => ReadyAt w s.slug m) _ ?r2 _
              (foldl_world_preserve _ (fun w => ReadyAt w s.slug m) _ ?r1 _
                ⟨hroot, hcomp, hiss⟩)))))
    case r1 =>
      intro wc t ht hP
      dsimp only
      cases ht1 : t.spec_slug with
      | none => exact hP
      | some sl2 =>
        dsimp only
        cases hg : (w0.specs.filter (fun sp => sp.slug == sl2)).getLast? with
        | none => exact hP
        | some sp => exact ReadyAt_exec_outbound_create env sp hP
    case r2 =>
      intro wc t ht hP
      dsimp only
      cases ht1 : t.spec_slug with
      | none => exact hP
      | some sl2 =>
        dsimp only
        cases hg : (w0.specs.filter (fun sp => sp.slug == sl2)).getLast? with
        | none => exact hP
        | some sp => exact ReadyAt_exec_outbound_update env sp hP
    case r3 =>
      intro wc t ht hP
      dsimp only
      cases ht1 : t.issue_number with
      | none => exact hP
      | some q =>
        dsimp only
        cases hgi : (w0.issues.filter (fun x => x.number == q)).getLast? with
        | none => exact hP
        | some j => exact ReadyAt_exec_inbound_create env j hP
    case r4 =>
      intro wc t ht hP
      dsimp only
      cases ht1 : t.spec_slug with
      | none => exact hP
      | some sl2 =>
        dsimp only
        cases hg : (w0.specs.filter (fun sp => sp.slug == sl2)).getLast? with
        | none => exact hP
        | some sp =>
          cases ht2 : t.issue_number with
          | none => exact hP
          | some q =>
            dsimp only
            cases hgi : (w0.issues.filter (fun x => x.number == q)).getLast? with
            | none => exact hP
            | some j => exact ReadyAt_exec_inbound_update env j sp hP
    case r5 =>
      intro wc t ht hP
      dsimp only
      cases ht1 : t.spec_slug with
      | none => exact hP
      | some sl2 =>
        dsimp only
        cases hg : (w0.specs.filter (fun sp => sp.slug == sl2)).getLast? with
        | none => exact hP
        | some sp =>
          cases ht2 : t.issue_number with
          | none => exact hP
          | some q =>
            dsimp only
            cases hgi : (w0.issues.filter (fun x => x.number == q)).getLast? with
            | none => exact hP
            | some j => exact ReadyAt_exec_status_sync t sp j hP
    case r6 =>
      intro wc t ht hP
      exact ReadyAt_exec_todo_step t hP

/-- Closed witness for C6: a merge-ready spec with a merged PR is moved
to completed and its issue closed with the completion comment. -/
theorem spec_completion_witness :
    DoneAt (execute_sync_plan
        (Env.mk (fun x => x) (fun _ => true) "" "" (fun _ => ""))
        (build_sync_plan (Env.mk (fun x => x) (fun _ => true) "" "" (fun _ => ""))
          (World.mk
            [Spec.mk "a" "A" (some "merge_ready") (some 1) none (some "p")
              none none none "b"]
            [] [] [Issue.mk 1 "T" none [] "" "closed" none []]).specs
          (World.mk
            [Spec.mk "a" "A" (some "merge_ready") (some 1) none (some "p")
              none none none "b"]
            [] [] [Issue.mk 1 "T" none [] "" "closed" none []]).todos
          ((World.mk
            [Spec.mk "a" "A" (some "merge_ready") (some 1) none (some "p")
              none none none "b"]
            [] [] [Issue.mk 1 "T" none [] "" "closed" none []]).issues.filter
              (fun j => j.state == "open")))
        (World.mk
          [Spec.mk "a" "A" (some "merge_ready") (some 1) none (some "p")
            none none none "b"]
          [] [] [Issue.mk 1 "T" none [] "" "closed" none []])).1
      "a" 1
      (completionComment (Spec.mk "a" "A" (some "merge_ready") (some 1) none
        (some "p") none none none "b")) := by
  have h := spec_completion
    (Env.mk (fun x => x) (fun _ => true) "" "" (fun _ => ""))
    (World.mk
      [Spec.mk "a" "A" (some "merge_ready") (some 1) none (some "p")
        none none none "b"]
      [] [] [Issue.mk 1 "T" none [] "" "closed" none []])
    (Spec.mk "a" "A" (some "merge_ready") (some 1) none (some "p")
      none none none "b")
    1
    (by decide) (by decide) (by decide) (by decide) (by decide) (by decide)
  exact h.2

end Mem
